import Mathlib

/-!
# t1ha (Fast Positive Hash), `src/t1ha.c`

A shallow embedding of the C translation unit and the properties of its
specification.

* Machine words are natural numbers; every C operation that can wrap is
  followed by an explicit reduction (`u64`, `u32`, `u16`).
* Memory is a list of bytes, a pointer is an offset into such a list, and
  every load returns `none` when it touches an index outside the list.
* The preprocessor alternatives of the file are the fields of `Target`.
-/

namespace T1ha

/-! ## Words, bytes and memory -/

/-- One `uint8_t`. -/
abbrev Byte := Fin 256

/-- Conversion to `uint64_t`. -/
def u64 (x : Nat) : Nat := x % 2 ^ 64

/-- Conversion to `uint32_t`. -/
def u32 (x : Nat) : Nat := x % 2 ^ 32

/-- Conversion to `uint16_t`. -/
def u16 (x : Nat) : Nat := x % 2 ^ 16

/-- The compile-time alternatives of `t1ha.c`.

* `littleEndian`: `__BYTE_ORDER__ == __ORDER_LITTLE_ENDIAN__` (otherwise big endian);
* `unalignedOk`: the macro `UNALIGNED_OK`;
* `wideMul`: one of the 128-bit product branches of `mux64` is compiled
  (`__SIZEOF_INT128__`, `_INTEGRAL_MAX_BITS >= 128`, `mul_64x64_128`,
  `mul_64x64_high`) rather than the final `#else` branch;
* `carrySwap`: in the final `#else` branch of `mux64` the compiler evaluates the
  right-hand `add_with_carry` call before the left-hand one (C leaves the order
  of the operands of `+` unspecified). -/
structure Target where
  littleEndian : Bool
  unalignedOk : Bool
  wideMul : Bool
  carrySwap : Bool
  deriving DecidableEq, Repr

/-- The bytes `mem[off .. off+n)`, cut short at the end of `mem`. -/
def slice (mem : List Byte) (off n : Nat) : List Byte := (mem.drop off).take n

/-- A checked read of `n` bytes at offset `off`: `none` when a byte of the range
lies outside `mem`. -/
def readBytes (mem : List Byte) (off n : Nat) : Option (List Byte) :=
  if off + n ≤ mem.length then some (slice mem off n) else none

/-- Little-endian value of a byte sequence: `sum_i b_i * 256^i`. -/
def leValue : List Byte → Nat
  | [] => 0
  | b :: bs => b.val + 256 * leValue bs

/-- Big-endian value of a byte sequence: the first byte is the most significant. -/
def beValue (bs : List Byte) : Nat := bs.foldl (fun acc b => acc * 256 + b.val) 0

/-- The C expression `p[i]` for `const uint8_t *p`. -/
def peek (mem : List Byte) (i : Nat) : Option Nat := (readBytes mem i 1).map leValue

/-- The C expression `*(const uintN_t *)v` for a word of `w` bytes, in the byte
order of the host. -/
def deref (T : Target) (mem : List Byte) (off w : Nat) : Option Nat :=
  (readBytes mem off w).map (fun bs => if T.littleEndian then leValue bs else beValue bs)

/-- The library call `memcpy(dst, src + off, n)`: the new contents of `dst`. -/
def memcpy (dst src : List Byte) (off n : Nat) : Option (List Byte) :=
  (readBytes src off n).map (fun bs => bs ++ dst.drop n)

/-! ## Byte swaps and rotation (lines 128-159) -/

/-- The fallback `bswap64`. -/
def bswap64 (v : Nat) : Nat :=
  u64 (v <<< 56) ||| (v >>> 56) ||| (u64 (v <<< 40) &&& 0x00ff000000000000) |||
    (u64 (v <<< 24) &&& 0x0000ff0000000000) |||
    (u64 (v <<< 8) &&& 0x000000ff00000000) |||
    ((v >>> 8) &&& 0x00000000ff000000) |||
    ((v >>> 24) &&& 0x0000000000ff0000) |||
    ((v >>> 40) &&& 0x000000000000ff00)

/-- The fallback `bswap32`. -/
def bswap32 (v : Nat) : Nat :=
  u32 (v <<< 24) ||| (v >>> 24) ||| (u32 (v <<< 8) &&& 0x00ff0000) |||
    ((v >>> 8) &&& 0x0000ff00)

/-- The fallback `bswap16`; the operands are promoted to `int` and the result is
converted back to `uint16_t`. -/
def bswap16 (v : Nat) : Nat := u16 ((v <<< 8) ||| (v >>> 8))

/-- The fallback `rot64`: `(v >> s) | (v << (64 - s))` on `uint64_t`, for a
rotation amount `1 <= s <= 63`; the program calls it with `s0`, `s1` and `s2`
only. Outside that range a shift count is 64 or more, which C leaves undefined:
see `rot64Checked`. -/
def rot64 (v s : Nat) : Nat := (v >>> s) ||| u64 (v <<< (64 - s))

/-- The C expression `x >> n` on a `uint64_t`: defined for a shift count below
64 only; `none` stands for undefined behaviour. -/
def shr64 (x n : Nat) : Option Nat := if n < 64 then some (x >>> n) else none

/-- The C expression `x << n` on a `uint64_t`: defined for a shift count below
64 only; `none` stands for undefined behaviour. -/
def shl64 (x n : Nat) : Option Nat := if n < 64 then some (u64 (x <<< n)) else none

/-- The fallback `rot64` with both shifts checked. At `s = 0` the second shift
count is 64 and for `s >= 64` the first one is `s`, so the expression is
defined for `1 <= s <= 63` only. -/
def rot64Checked (v s : Nat) : Option Nat :=
  (shr64 v s).bind fun lo => (shl64 v (64 - s)).map fun hi => lo ||| hi

/-- Function `mul_32x32_64`: both parameters are `uint32_t`. -/
def mul_32x32_64 (a b : Nat) : Nat := u64 (u32 a * u32 b)

/-! ## Loads (lines 169-246) -/

/-- Function `fetch64`. -/
def fetch64 (T : Target) (mem : List Byte) (v : Nat) : Option Nat :=
  if T.littleEndian then deref T mem v 8 else (deref T mem v 8).map bswap64

/-- Function `fetch32`. -/
def fetch32 (T : Target) (mem : List Byte) (v : Nat) : Option Nat :=
  if T.littleEndian then deref T mem v 4 else (deref T mem v 4).map bswap32

/-- Function `fetch16`. -/
def fetch16 (T : Target) (mem : List Byte) (v : Nat) : Option Nat :=
  if T.littleEndian then deref T mem v 2 else (deref T mem v 2).map bswap16

/-- First variant of `tail64`, label `case 4`: `return r + fetch32(p);`. -/
def tail64FastCase4 (T : Target) (mem : List Byte) (p r : Nat) : Option Nat :=
  (fetch32 T mem p).map (fun w => u64 (r + w))

/-- First variant, label `case 5`: `r += p[4]; r <<= 32;` then `case 4`. -/
def tail64FastCase5 (T : Target) (mem : List Byte) (p r : Nat) : Option Nat :=
  (peek mem (p + 4)).bind (fun x => tail64FastCase4 T mem p (u64 (u64 (r + x) <<< 32)))

/-- First variant, label `case 6`: `r += p[5]; r <<= 8;` then `case 5`. -/
def tail64FastCase6 (T : Target) (mem : List Byte) (p r : Nat) : Option Nat :=
  (peek mem (p + 5)).bind (fun x => tail64FastCase5 T mem p (u64 (u64 (r + x) <<< 8)))

/-- First variant, label `case 7`: `r = p[6] << 8;` then `case 6`. -/
def tail64FastCase7 (T : Target) (mem : List Byte) (p : Nat) : Option Nat :=
  (peek mem (p + 6)).bind (fun x => tail64FastCase6 T mem p (u64 (x <<< 8)))

/-- First variant, label `case 2`: `return r + fetch16(p);`. -/
def tail64FastCase2 (T : Target) (mem : List Byte) (p r : Nat) : Option Nat :=
  (fetch16 T mem p).map (fun w => u64 (r + w))

/-- First variant, label `case 3`: `r = p[2] << 16;` then `case 2`. -/
def tail64FastCase3 (T : Target) (mem : List Byte) (p : Nat) : Option Nat :=
  (peek mem (p + 2)).bind (fun x => tail64FastCase2 T mem p (u64 (x <<< 16)))

/-- The variant of `tail64` compiled when
`UNALIGNED_OK && __BYTE_ORDER__ == __ORDER_LITTLE_ENDIAN__`; `r` starts at 0.
The last branch is the `unreachable()` after the switch. -/
def tail64Fast (T : Target) (mem : List Byte) (p tail : Nat) : Option Nat :=
  match tail &&& 7 with
  | 0 => fetch64 T mem p
  | 7 => tail64FastCase7 T mem p
  | 6 => tail64FastCase6 T mem p 0
  | 5 => tail64FastCase5 T mem p 0
  | 4 => tail64FastCase4 T mem p 0
  | 3 => tail64FastCase3 T mem p
  | 2 => tail64FastCase2 T mem p 0
  | 1 => peek mem p
  | _ => none

/-- Second variant of `tail64`, label `case 1`: `return r + p[0];`. -/
def tail64BytesCase1 (mem : List Byte) (p r : Nat) : Option Nat :=
  (peek mem p).map (fun x => u64 (r + x))

/-- Second variant, label `case 2`: `r += p[1]; r <<= 8;` then `case 1`. -/
def tail64BytesCase2 (mem : List Byte) (p r : Nat) : Option Nat :=
  (peek mem (p + 1)).bind (fun x => tail64BytesCase1 mem p (u64 (u64 (r + x) <<< 8)))

/-- Second variant, label `case 3`: `r += p[2]; r <<= 8;` then `case 2`. -/
def tail64BytesCase3 (mem : List Byte) (p r : Nat) : Option Nat :=
  (peek mem (p + 2)).bind (fun x => tail64BytesCase2 mem p (u64 (u64 (r + x) <<< 8)))

/-- Second variant, label `case 4`: `r += p[3]; r <<= 8;` then `case 3`. -/
def tail64BytesCase4 (mem : List Byte) (p r : Nat) : Option Nat :=
  (peek mem (p + 3)).bind (fun x => tail64BytesCase3 mem p (u64 (u64 (r + x) <<< 8)))

/-- Second variant, label `case 5`: `r += p[4]; r <<= 8;` then `case 4`. -/
def tail64BytesCase5 (mem : List Byte) (p r : Nat) : Option Nat :=
  (peek mem (p + 4)).bind (fun x => tail64BytesCase4 mem p (u64 (u64 (r + x) <<< 8)))

/-- Second variant, label `case 6`: `r += p[5]; r <<= 8;` then `case 5`. -/
def tail64BytesCase6 (mem : List Byte) (p r : Nat) : Option Nat :=
  (peek mem (p + 5)).bind (fun x => tail64BytesCase5 mem p (u64 (u64 (r + x) <<< 8)))

/-- Second variant, label `case 7`: `r += p[6]; r <<= 8;` then `case 6`. -/
def tail64BytesCase7 (mem : List Byte) (p r : Nat) : Option Nat :=
  (peek mem (p + 6)).bind (fun x => tail64BytesCase6 mem p (u64 (u64 (r + x) <<< 8)))

/-- Second variant, label `case 0`: `r = p[7] << 8;` then `case 7`. -/
def tail64BytesCase0 (mem : List Byte) (p : Nat) : Option Nat :=
  (peek mem (p + 7)).bind (fun x => tail64BytesCase7 mem p (u64 (x <<< 8)))

/-- The variant of `tail64` compiled otherwise (the `#else` branch); `r` starts
at 0. The last branch is the `unreachable()` after the switch. -/
def tail64Bytes (mem : List Byte) (p tail : Nat) : Option Nat :=
  match tail &&& 7 with
  | 0 => tail64BytesCase0 mem p
  | 7 => tail64BytesCase7 mem p 0
  | 6 => tail64BytesCase6 mem p 0
  | 5 => tail64BytesCase5 mem p 0
  | 4 => tail64BytesCase4 mem p 0
  | 3 => tail64BytesCase3 mem p 0
  | 2 => tail64BytesCase2 mem p 0
  | 1 => tail64BytesCase1 mem p 0
  | _ => none

/-- Function `tail64`: the preprocessor selects one of the two cascades. -/
def tail64 (T : Target) (mem : List Byte) (p tail : Nat) : Option Nat :=
  if T.unalignedOk && T.littleEndian then tail64Fast T mem p tail else tail64Bytes mem p tail

/-! ## Constants and mixers (lines 248-305) -/

def p0 : Nat := 17048867929148541611
def p1 : Nat := 9386433910765580089
def p2 : Nat := 15343884574428479051
def p3 : Nat := 13662985319504319857
def p4 : Nat := 11242949449147999147
def p5 : Nat := 13862205317416547141
def p6 : Nat := 14653293970879851569

def s0 : Nat := 41
def s1 : Nat := 17
def s2 : Nat := 31

/-- Function `mix`: `v *= p; return v ^ rot64(v, s0);`. -/
def mix (v p : Nat) : Nat :=
  let v1 := u64 (v * p)
  v1 ^^^ rot64 v1 s0

/-- Function `add_with_carry`: the new value of `*sum` and the returned carry. -/
def add_with_carry (sum addend : Nat) : Nat × Nat :=
  let sum1 := u64 (sum + addend)
  (sum1, if sum1 < addend then 1 else 0)

/-- The final `#else` branch of `mux64`, built from four 32x32->64 products. The
two `add_with_carry` calls both update `ll`; `swap` tells which one runs first. -/
def mux64Portable (swap : Bool) (v p : Nat) : Nat :=
  let ll := mul_32x32_64 (u32 v) (u32 p)
  let lh := mul_32x32_64 (v >>> 32) (u32 p)
  let hl := mul_32x32_64 (p >>> 32) (u32 v)
  let x := if swap then u64 (hl <<< 32) else u64 (lh <<< 32)
  let y := if swap then u64 (lh <<< 32) else u64 (hl <<< 32)
  let ll1 := (add_with_carry ll x).1
  let cx := (add_with_carry ll x).2
  let ll2 := (add_with_carry ll1 y).1
  let cy := (add_with_carry ll1 y).2
  let hh := u64 (u64 (u64 (u64 (mul_32x32_64 (v >>> 32) (p >>> 32) + (lh >>> 32)) + (hl >>> 32))
    + (if swap then cy else cx)) + (if swap then cx else cy))
  hh ^^^ ll2

/-- The 128-bit branches of `mux64`: `r = (__uint128_t)v * p; return r ^ (r >> 64);`
(the intrinsic branches return the same `l ^ h`). -/
def mux64Wide (v p : Nat) : Nat :=
  let r := (v * p) % 2 ^ 128
  u64 (r ^^^ (r >>> 64))

/-- Function `mux64`. -/
def mux64 (T : Target) (v p : Nat) : Nat :=
  if T.wideMul then mux64Wide v p else mux64Portable T.carrySwap v p

/-! ## The hash (lines 307-379) -/

/-- The local variables of `t1ha` that the block loop updates. `data` is the
read pointer as a byte offset from the start of the input, `align` the contents
of the scratch array; `iters` is a ghost counter of completed iterations. -/
structure LoopState where
  a : Nat
  b : Nat
  c : Nat
  d : Nat
  data : Nat
  align : List Byte
  iters : Nat
  deriving DecidableEq, Repr

/-- One execution of the body of the `do ... while` loop (lines 319-334). -/
def blockBody (T : Target) (needAlign : Bool) (mem : List Byte) (st : LoopState) :
    Option LoopState :=
  (if needAlign then memcpy st.align mem st.data 32 else some st.align).bind fun al =>
  let src := if needAlign then al else mem
  let v := if needAlign then 0 else st.data
  (fetch64 T src (v + 0)).bind fun w0 =>
  (fetch64 T src (v + 8)).bind fun w1 =>
  (fetch64 T src (v + 16)).bind fun w2 =>
  (fetch64 T src (v + 24)).bind fun w3 =>
  let d02 := w0 ^^^ rot64 (u64 (w2 + st.d)) s1
  let c13 := w1 ^^^ rot64 (u64 (w3 + st.c)) s1
  let c := u64 (st.c + (st.a ^^^ rot64 w0 s0))
  let d := u64 (st.d + 2 ^ 64 - (st.b ^^^ rot64 w1 s2))
  let a := st.a ^^^ u64 (p1 * u64 (d02 + w3))
  let b := st.b ^^^ u64 (p0 * u64 (c13 + w2))
  some { a := a, b := b, c := c, d := d, data := st.data + 32, align := al,
         iters := st.iters + 1 }

/-- The `do ... while (data < detent)` loop. The first argument bounds the
number of iterations; `none` is returned when it is exhausted or a load fails. -/
def blockLoop (T : Target) (needAlign : Bool) (mem : List Byte) (detent : Nat) :
    Nat → LoopState → Option LoopState
  | 0, _ => none
  | fuel + 1, st =>
    match blockBody T needAlign mem st with
    | none => none
    | some st1 =>
      if st1.data < detent then blockLoop T needAlign mem detent fuel st1 else some st1

/-- Label `case 0` of the final switch: the returned digest. -/
def tailCase0 (T : Target) (a b : Nat) : Nat :=
  u64 (mux64 T (rot64 (u64 (a + b)) s1) p4 + mix (a ^^^ b) p0)

/-- Labels `case 8` .. `case 1`: `a += mux64(tail64(v, len), p1);` then `case 0`. -/
def tailCase1 (T : Target) (src : List Byte) (v len a b : Nat) : Option Nat :=
  (tail64 T src v len).map fun w => tailCase0 T (u64 (a + mux64 T w p1)) b

/-- Labels `case 16` .. `case 9`: `b += mux64(fetch64(v++), p2);` then `case 8`. -/
def tailCase9 (T : Target) (src : List Byte) (v len a b : Nat) : Option Nat :=
  (fetch64 T src v).bind fun w => tailCase1 T src (v + 8) len a (u64 (b + mux64 T w p2))

/-- Labels `case 24` .. `case 17`: `a += mux64(fetch64(v++), p3);` then `case 16`. -/
def tailCase17 (T : Target) (src : List Byte) (v len a b : Nat) : Option Nat :=
  (fetch64 T src v).bind fun w => tailCase9 T src (v + 8) len (u64 (a + mux64 T w p3)) b

/-- Label `default`: `b += mux64(fetch64(v++), p4);` then `case 24`. -/
def tailDefault (T : Target) (src : List Byte) (v len a b : Nat) : Option Nat :=
  (fetch64 T src v).bind fun w => tailCase17 T src (v + 8) len a (u64 (b + mux64 T w p4))

/-- The statement `switch (len)` of lines 346-378. -/
def tailSwitch (T : Target) (src : List Byte) (v len a b : Nat) : Option Nat :=
  if len = 0 then some (tailCase0 T a b)
  else if 1 ≤ len ∧ len ≤ 8 then tailCase1 T src v len a b
  else if 9 ≤ len ∧ len ≤ 16 then tailCase9 T src v len a b
  else if 17 ≤ len ∧ len ≤ 24 then tailCase17 T src v len a b
  else tailDefault T src v len a b

/-- Lines 342-378: the optional copy into `align` followed by the switch. -/
def tailStage (T : Target) (needAlign : Bool) (mem align : List Byte)
    (data len a b : Nat) : Option Nat :=
  if needAlign && decide (len > 8) then
    (memcpy align mem data len).bind fun al => tailSwitch T al 0 len a b
  else tailSwitch T mem data len a b

/-- Function `t1ha`. `addr` is the numeric value of the pointer `data`, `align`
the (uninitialised) contents of the local array, `mem` the memory starting at
`data`. The loop is given `len` as its iteration bound. -/
def t1ha (T : Target) (addr : Nat) (align mem : List Byte) (len seed : Nat) : Option Nat :=
  let a := seed
  let b := len
  let needAlign := (addr &&& 7 != 0) && !T.unalignedOk
  if len > 32 then
    let c := u64 (rot64 len s1 + seed)
    let d := len ^^^ rot64 seed s1
    let detent := len - 31
    match blockLoop T needAlign mem detent len
        { a := a, b := b, c := c, d := d, data := 0, align := align, iters := 0 } with
    | none => none
    | some st =>
      let a1 := st.a ^^^ u64 (p6 * u64 (rot64 st.c s1 + st.d))
      let b1 := st.b ^^^ u64 (p5 * u64 (st.c + rot64 st.d s1))
      tailStage T needAlign mem st.align st.data (len &&& 31) a1 b1
  else tailStage T needAlign mem align 0 len a b

/-! ## The hash with a scratch array that forgets

The same statements as `blockBody` .. `t1ha`, with a switch on what a copy into
`align` does to the bytes it does not write. -/

/-- The call `memcpy(&align, v, n)` under two readings of the bytes of `align`
it does not write. With `poison = false` they keep their old content: this is
`memcpy`. With `poison = true` they become unreadable: the scratch array then
holds the `n` copied bytes and nothing else, and a later load of any other byte
of it returns `none`. -/
def memcpyScratch (poison : Bool) (dst src : List Byte) (off n : Nat) : Option (List Byte) :=
  if poison then readBytes src off n else memcpy dst src off n

/-- The body of the `do ... while` loop (lines 319-334), the copy being
`memcpyScratch poison`. -/
def blockBodyScratch (poison : Bool) (T : Target) (needAlign : Bool) (mem : List Byte)
    (st : LoopState) : Option LoopState :=
  (if needAlign then memcpyScratch poison st.align mem st.data 32 else some st.align).bind
    fun al =>
  let src := if needAlign then al else mem
  let v := if needAlign then 0 else st.data
  (fetch64 T src (v + 0)).bind fun w0 =>
  (fetch64 T src (v + 8)).bind fun w1 =>
  (fetch64 T src (v + 16)).bind fun w2 =>
  (fetch64 T src (v + 24)).bind fun w3 =>
  let d02 := w0 ^^^ rot64 (u64 (w2 + st.d)) s1
  let c13 := w1 ^^^ rot64 (u64 (w3 + st.c)) s1
  let c := u64 (st.c + (st.a ^^^ rot64 w0 s0))
  let d := u64 (st.d + 2 ^ 64 - (st.b ^^^ rot64 w1 s2))
  let a := st.a ^^^ u64 (p1 * u64 (d02 + w3))
  let b := st.b ^^^ u64 (p0 * u64 (c13 + w2))
  some { a := a, b := b, c := c, d := d, data := st.data + 32, align := al,
         iters := st.iters + 1 }

/-- The `do ... while (data < detent)` loop over `blockBodyScratch`. -/
def blockLoopScratch (poison : Bool) (T : Target) (needAlign : Bool) (mem : List Byte)
    (detent : Nat) : Nat → LoopState → Option LoopState
  | 0, _ => none
  | fuel + 1, st =>
    match blockBodyScratch poison T needAlign mem st with
    | none => none
    | some st1 =>
      if st1.data < detent then blockLoopScratch poison T needAlign mem detent fuel st1
      else some st1

/-- Lines 342-378, the copy being `memcpyScratch poison`. -/
def tailStageScratch (poison : Bool) (T : Target) (needAlign : Bool) (mem align : List Byte)
    (data len a b : Nat) : Option Nat :=
  if needAlign && decide (len > 8) then
    (memcpyScratch poison align mem data len).bind fun al => tailSwitch T al 0 len a b
  else tailSwitch T mem data len a b

/-- Function `t1ha`, every copy into `align` being `memcpyScratch poison`. With
`poison = true` a load from `align` succeeds only on bytes that the copy
immediately before it wrote. -/
def t1haScratch (poison : Bool) (T : Target) (addr : Nat) (align mem : List Byte)
    (len seed : Nat) : Option Nat :=
  let a := seed
  let b := len
  let needAlign := (addr &&& 7 != 0) && !T.unalignedOk
  if len > 32 then
    let c := u64 (rot64 len s1 + seed)
    let d := len ^^^ rot64 seed s1
    let detent := len - 31
    match blockLoopScratch poison T needAlign mem detent len
        { a := a, b := b, c := c, d := d, data := 0, align := align, iters := 0 } with
    | none => none
    | some st =>
      let a1 := st.a ^^^ u64 (p6 * u64 (rot64 st.c s1 + st.d))
      let b1 := st.b ^^^ u64 (p5 * u64 (st.c + rot64 st.d s1))
      tailStageScratch poison T needAlign mem st.align st.data (len &&& 31) a1 b1
  else tailStageScratch poison T needAlign mem align 0 len a b

/-! ## The functions of the specification

These follow the wording of the specification, on an input given as the exact
sequence of its bytes; they do not depend on the target. -/

/-- Section 4.2: xor of the high and the low 64 bits of the exact product. -/
def muxSpec (v p : Nat) : Nat := (v * p) % 2 ^ 64 ^^^ (v * p) / 2 ^ 64

/-- The little-endian 64-bit word made of the bytes `[off, off+8)`. -/
def le64 (bytes : List Byte) (off : Nat) : Nat := leValue (slice bytes off 8)

/-- Section 4.5: `mux64(rotr(a+b, 17), p4) + mix(a xor b, p0)`. -/
def digestSpec (a b : Nat) : Nat :=
  u64 (muxSpec (rot64 (u64 (a + b)) 17) p4 + mix (a ^^^ b) p0)

/-- The two lanes and the read position of the guarded tail stages. -/
structure TailLanes where
  a : Nat
  b : Nat
  pos : Nat
  deriving DecidableEq, Repr

/-- Stage `n >= 25`: `b += mux64(LE64(next 8 bytes), p4)`, advance by 8. -/
def stage25 (bytes : List Byte) (n : Nat) (t : TailLanes) : TailLanes :=
  if n ≥ 25 then { t with b := u64 (t.b + muxSpec (le64 bytes t.pos) p4), pos := t.pos + 8 }
  else t

/-- Stage `n >= 17`: `a += mux64(LE64(next 8 bytes), p3)`, advance by 8. -/
def stage17 (bytes : List Byte) (n : Nat) (t : TailLanes) : TailLanes :=
  if n ≥ 17 then { t with a := u64 (t.a + muxSpec (le64 bytes t.pos) p3), pos := t.pos + 8 }
  else t

/-- Stage `n >= 9`: `b += mux64(LE64(next 8 bytes), p2)`, advance by 8. -/
def stage9 (bytes : List Byte) (n : Nat) (t : TailLanes) : TailLanes :=
  if n ≥ 9 then { t with b := u64 (t.b + muxSpec (le64 bytes t.pos) p2), pos := t.pos + 8 }
  else t

/-- Stage `n >= 1`: `a += mux64(v, p1)` where `v` is the little-endian value of
the remaining `((n-1) mod 8) + 1` bytes. -/
def stage1 (bytes : List Byte) (n : Nat) (t : TailLanes) : TailLanes :=
  if n ≥ 1 then
    { t with a := u64 (t.a + muxSpec (leValue (slice bytes t.pos ((n - 1) % 8 + 1))) p1),
             pos := t.pos + ((n - 1) % 8 + 1) }
  else t

/-- The ordered sequence of range-guarded stages on a tail of `n` bytes,
started from the lanes `a`, `b`. -/
def guardedStages (bytes : List Byte) (n a b : Nat) : TailLanes :=
  stage1 bytes n (stage9 bytes n (stage17 bytes n (stage25 bytes n
    { a := a, b := b, pos := 0 })))

/-- The tail stage followed by the finalizer. -/
def tailSpec (bytes : List Byte) (n a b : Nat) : Nat :=
  digestSpec (guardedStages bytes n a b).a (guardedStages bytes n a b).b

/-- The guarded-stage reference for an input of `n <= 32` bytes: lanes
`a = seed`, `b = n`. -/
def shortSpec (bytes : List Byte) (n seed : Nat) : Nat := tailSpec bytes n seed n

/-- The four lanes of the block mixer. -/
structure Lanes where
  a : Nat
  b : Nat
  c : Nat
  d : Nat
  deriving DecidableEq, Repr

/-- Section 4.3, steps 1-6 on one block `[w0, w1, w2, w3]`. -/
def blockSpec (w0 w1 w2 w3 : Nat) (s : Lanes) : Lanes :=
  let d02 := w0 ^^^ rot64 (u64 (w2 + s.d)) 17
  let c13 := w1 ^^^ rot64 (u64 (w3 + s.c)) 17
  let c := u64 (s.c + (s.a ^^^ rot64 w0 41))
  let d := u64 (s.d + 2 ^ 64 - (s.b ^^^ rot64 w1 31))
  let a := s.a ^^^ u64 (p1 * u64 (d02 + w3))
  let b := s.b ^^^ u64 (p0 * u64 (c13 + w2))
  { a := a, b := b, c := c, d := d }

/-- The lanes after the first `k` consecutive 32-byte blocks of `bytes`, taken in
order. -/
def blocksSpec (bytes : List Byte) : Nat → Lanes → Lanes
  | 0, s => s
  | k + 1, s =>
    blockSpec (le64 bytes (32 * k)) (le64 bytes (32 * k + 8)) (le64 bytes (32 * k + 16))
      (le64 bytes (32 * k + 24)) (blocksSpec bytes k s)

/-- The lanes before the block loop (section 4.3). -/
def initLanes (len seed : Nat) : Lanes :=
  { a := seed, b := len, c := u64 (rot64 len 17 + seed), d := len ^^^ rot64 seed 17 }

/-- Lane `a` after the auxiliary lanes are folded back: `a ^= p6 * (rotr(c,17) + d)`. -/
def foldA (s : Lanes) : Nat := s.a ^^^ u64 (p6 * u64 (rot64 s.c 17 + s.d))

/-- Lane `b` after the auxiliary lanes are folded back: `b ^= p5 * (c + rotr(d,17))`. -/
def foldB (s : Lanes) : Nat := s.b ^^^ u64 (p5 * u64 (s.c + rot64 s.d 17))

/-- The reference for `len > 32`: `k = len / 32` blocks, the fold, then the tail
stage on the `len mod 32` bytes from offset `32 * k`, then the finalizer. -/
def longSpec (bytes : List Byte) (len seed : Nat) : Nat :=
  let s := blocksSpec bytes (len / 32) (initLanes len seed)
  tailSpec (slice bytes (32 * (len / 32)) (len % 32)) (len % 32) (foldA s) (foldB s)

/-- The digest of the specification on the exact byte sequence of the input. -/
def t1haSpec (bytes : List Byte) (len seed : Nat) : Nat :=
  if len > 32 then longSpec bytes len seed else shortSpec bytes len seed

/-- The four lanes held in a loop state. -/
def LoopState.lanes (st : LoopState) : Lanes := { a := st.a, b := st.b, c := st.c, d := st.d }

/-- The value of the byte at index `i` (0 outside the list). -/
def byteAt (mem : List Byte) (i : Nat) : Nat := leValue (slice mem i 1)

/-! ## The final switch with a record of the stages it executes

The same statements as `tailCase1` .. `tailSwitch`, returning the two lanes
that reach label `case 0` and the list of the absorption statements executed
on the way, in order. -/

/-- The four absorption statements of the final switch, named by their
multiplier: `b += mux64(fetch64(v++), p4)` under `default`,
`a += mux64(fetch64(v++), p3)` under `case 24..17`,
`b += mux64(fetch64(v++), p2)` under `case 16..9` and
`a += mux64(tail64(v, len), p1)` under `case 8..1`. -/
inductive Stage where
  | viaP4
  | viaP3
  | viaP2
  | viaP1
  deriving DecidableEq, Repr

/-- The number of bytes the selected case of `tail64` reads (either variant):
eight under `case 0`, `k` under `case k`. -/
def tail64Span (tail : Nat) : Nat := if tail &&& 7 = 0 then 8 else tail &&& 7

/-- One executed absorption: the statement, the offset of the pointer `v` at
its load and the number of bytes the load reads. -/
structure Fired where
  stage : Stage
  off : Nat
  width : Nat
  deriving DecidableEq, Repr

/-- The lanes that reach label `case 0` and the absorptions executed before. -/
structure TailRun where
  a : Nat
  b : Nat
  fired : List Fired
  deriving DecidableEq, Repr

/-- Labels `case 8` .. `case 1`, recorded. -/
def runCase1 (T : Target) (src : List Byte) (v len a b : Nat) (fired : List Fired) :
    Option TailRun :=
  (tail64 T src v len).map fun w =>
    { a := u64 (a + mux64 T w p1), b := b,
      fired := fired ++ [{ stage := Stage.viaP1, off := v, width := tail64Span len }] }

/-- Labels `case 16` .. `case 9`, recorded. -/
def runCase9 (T : Target) (src : List Byte) (v len a b : Nat) (fired : List Fired) :
    Option TailRun :=
  (fetch64 T src v).bind fun w =>
    runCase1 T src (v + 8) len a (u64 (b + mux64 T w p2))
      (fired ++ [{ stage := Stage.viaP2, off := v, width := 8 }])

/-- Labels `case 24` .. `case 17`, recorded. -/
def runCase17 (T : Target) (src : List Byte) (v len a b : Nat) (fired : List Fired) :
    Option TailRun :=
  (fetch64 T src v).bind fun w =>
    runCase9 T src (v + 8) len (u64 (a + mux64 T w p3)) b
      (fired ++ [{ stage := Stage.viaP3, off := v, width := 8 }])

/-- Label `default`, recorded. -/
def runDefault (T : Target) (src : List Byte) (v len a b : Nat) (fired : List Fired) :
    Option TailRun :=
  (fetch64 T src v).bind fun w =>
    runCase17 T src (v + 8) len a (u64 (b + mux64 T w p4))
      (fired ++ [{ stage := Stage.viaP4, off := v, width := 8 }])

/-- The statement `switch (len)` up to label `case 0`, recorded. -/
def runSwitch (T : Target) (src : List Byte) (v len a b : Nat) : Option TailRun :=
  if len = 0 then some { a := a, b := b, fired := [] }
  else if 1 ≤ len ∧ len ≤ 8 then runCase1 T src v len a b []
  else if 9 ≤ len ∧ len ≤ 16 then runCase9 T src v len a b []
  else if 17 ≤ len ∧ len ≤ 24 then runCase17 T src v len a b []
  else runDefault T src v len a b []

/-- Lines 342-376 up to label `case 0`, recorded: the optional copy into
`align`, then the switch. -/
def runStage (T : Target) (needAlign : Bool) (mem align : List Byte)
    (data len a b : Nat) : Option TailRun :=
  if needAlign && decide (len > 8) then
    (memcpy align mem data len).bind fun al => runSwitch T al 0 len a b
  else runSwitch T mem data len a b

/-- The byte ranges `[off, off + width)` of the entries, taken in order, tile
`[s, e)`: each is non-empty and starts where the previous one ends. -/
def tiles : Nat → List Fired → Nat → Prop
  | s, [], e => s = e
  | s, f :: fs, e => f.off = s ∧ 0 < f.width ∧ tiles (s + f.width) fs e

/-- The absorptions the switch is expected to execute on a tail of `n` bytes
whose first byte is at offset `v`: 64-bit loads of consecutive 8-byte groups,
then the `tail64` finisher on the rest. -/
def expectedFired (v n : Nat) : List Fired :=
  if n = 0 then []
  else if n ≤ 8 then [{ stage := Stage.viaP1, off := v, width := n }]
  else if n ≤ 16 then
    [{ stage := Stage.viaP2, off := v, width := 8 },
     { stage := Stage.viaP1, off := v + 8, width := n - 8 }]
  else if n ≤ 24 then
    [{ stage := Stage.viaP3, off := v, width := 8 },
     { stage := Stage.viaP2, off := v + 8, width := 8 },
     { stage := Stage.viaP1, off := v + 16, width := n - 16 }]
  else
    [{ stage := Stage.viaP4, off := v, width := 8 },
     { stage := Stage.viaP3, off := v + 8, width := 8 },
     { stage := Stage.viaP2, off := v + 16, width := 8 },
     { stage := Stage.viaP1, off := v + 24, width := n - 24 }]

/-- The multiplier of an absorption statement. -/
def Stage.multiplier : Stage → Nat
  | Stage.viaP4 => p4
  | Stage.viaP3 => p3
  | Stage.viaP2 => p2
  | Stage.viaP1 => p1

/-- Whether an absorption statement adds to lane `a` (otherwise to lane `b`). -/
def Stage.intoA : Stage → Bool
  | Stage.viaP4 => false
  | Stage.viaP3 => true
  | Stage.viaP2 => false
  | Stage.viaP1 => true

/-- The lanes obtained from `a`, `b` by absorbing, for each entry of a record in
order, the little-endian value of the bytes `[off, off + width)` of `src`
through the multiplier and into the lane of the entry's statement. -/
def absorbFired (src : List Byte) : List Fired → Nat → Nat → Nat × Nat
  | [], a, b => (a, b)
  | f :: fs, a, b =>
    if f.stage.intoA then
      absorbFired src fs
        (u64 (a + muxSpec (leValue (slice src f.off f.width)) f.stage.multiplier)) b
    else
      absorbFired src fs a
        (u64 (b + muxSpec (leValue (slice src f.off f.width)) f.stage.multiplier))

/-! ## Auxiliary notions and sample data -/

/-- The sum modulo 2 of the 64 low bits of a word. -/
def bitParity (w : Nat) : ZMod 2 :=
  Finset.sum (Finset.range 64) (fun i => if w.testBit i then 1 else 0)

/-- A buffer of `n` zero bytes. -/
def zeroBytes (n : Nat) : List Byte := List.replicate n 0

/-- A sample input of `n` bytes: byte `i` is `7 * i + 3` modulo 256. -/
def sampleBytes (n : Nat) : List Byte := (List.range n).map (fun i => Fin.ofNat (7 * i + 3))

/-- A sample target: big-endian, no unaligned loads, no 128-bit product. -/
def sampleTarget : Target :=
  { littleEndian := false, unalignedOk := false, wideMul := false, carrySwap := true }

/-! ## Words -/

theorem u64_lt (x : Nat) : u64 x < 2 ^ 64 := Nat.mod_lt _ (by norm_num)

theorem u64_of_lt {x : Nat} (h : x < 2 ^ 64) : u64 x = x := Nat.mod_eq_of_lt h

theorem and_seven (n : Nat) : n &&& 7 = n % 8 := Nat.and_pow_two_sub_one_eq_mod n 3

theorem and_thirtyone (n : Nat) : n &&& 31 = n % 32 := Nat.and_pow_two_sub_one_eq_mod n 5

theorem xor_mod_two_pow (a b k : Nat) : (a ^^^ b) % 2 ^ k = a % 2 ^ k ^^^ b % 2 ^ k := by
  apply Nat.eq_of_testBit_eq
  intro i
  simp only [Nat.testBit_mod_two_pow, Nat.testBit_xor]
  by_cases h : i < k <;> simp [h]

/-- Masking one byte lane: `x & (0xff << k)`. -/
theorem and_byte_mask (x k : Nat) : x &&& (255 * 2 ^ k) = x / 2 ^ k % 256 * 2 ^ k := by
  apply Nat.eq_of_testBit_eq
  intro i
  have h255 : (255 : Nat) = 2 ^ 8 - 1 := by norm_num
  have h256 : (256 : Nat) = 2 ^ 8 := by norm_num
  rw [← Nat.shiftLeft_eq, ← Nat.shiftLeft_eq, ← Nat.shiftRight_eq_div_pow, h255, h256]
  simp only [Nat.testBit_and, Nat.testBit_shiftLeft, Nat.testBit_two_pow_sub_one,
    Nat.testBit_mod_two_pow, Nat.testBit_shiftRight]
  by_cases h : k ≤ i
  · have e : k + (i - k) = i := by omega
    simp [h, e, Bool.and_comm]
  · simp [h]

/-- Or-ing a byte into an empty byte lane is an addition. -/
theorem or_byte (x c k : Nat) (hc : c < 256) (hx : x / 2 ^ k % 256 = 0) :
    x ||| c * 2 ^ k = x + c * 2 ^ k := by
  have hk : 0 < 2 ^ k := Nat.pow_pos (by norm_num)
  have hlo : x % 2 ^ k < 2 ^ k := Nat.mod_lt _ hk
  have h4 : 2 ^ (k + 8) = 2 ^ k * 256 := by rw [pow_add]; norm_num
  have hsplit : x = 2 ^ (k + 8) * (x / 2 ^ k / 256) + x % 2 ^ k := by
    have h1 : x = 2 ^ k * (x / 2 ^ k) + x % 2 ^ k := (Nat.div_add_mod x (2 ^ k)).symm
    have h2 : x / 2 ^ k = 256 * (x / 2 ^ k / 256) + x / 2 ^ k % 256 :=
      (Nat.div_add_mod (x / 2 ^ k) 256).symm
    rw [hx, Nat.add_zero] at h2
    rw [h4, Nat.mul_assoc, ← h2]
    exact h1
  have hmid : 2 ^ k * c + x % 2 ^ k < 2 ^ (k + 8) := by
    rw [h4]
    have : 2 ^ k * c ≤ 2 ^ k * 255 := Nat.mul_le_mul_left _ (by omega)
    have e : 2 ^ k * 256 = 2 ^ k * 255 + 2 ^ k := by ring
    omega
  have e1 : 2 ^ k * c + x % 2 ^ k = 2 ^ k * c ||| x % 2 ^ k := Nat.mul_add_lt_is_or hlo c
  have e2 : 2 ^ (k + 8) * (x / 2 ^ k / 256) + x % 2 ^ k
      = 2 ^ (k + 8) * (x / 2 ^ k / 256) ||| x % 2 ^ k :=
    Nat.mul_add_lt_is_or (Nat.lt_of_lt_of_le hlo (Nat.pow_le_pow_right (by norm_num) (by omega))) _
  have e3 : 2 ^ (k + 8) * (x / 2 ^ k / 256) + (2 ^ k * c + x % 2 ^ k)
      = 2 ^ (k + 8) * (x / 2 ^ k / 256) ||| (2 ^ k * c + x % 2 ^ k) :=
    Nat.mul_add_lt_is_or hmid _
  have hc2 : c * 2 ^ k = 2 ^ k * c := Nat.mul_comm _ _
  rw [hc2]
  calc x ||| 2 ^ k * c
      = (2 ^ (k + 8) * (x / 2 ^ k / 256) ||| x % 2 ^ k) ||| 2 ^ k * c := by rw [← e2, ← hsplit]
    _ = 2 ^ (k + 8) * (x / 2 ^ k / 256) ||| (2 ^ k * c ||| x % 2 ^ k) := by
        rw [Nat.or_assoc, Nat.or_comm (x % 2 ^ k)]
    _ = 2 ^ (k + 8) * (x / 2 ^ k / 256) + (2 ^ k * c + x % 2 ^ k) := by rw [← e1, ← e3]
    _ = x + 2 ^ k * c := by omega


/-! ## Byte swaps -/

theorem or_lane (x t c k : Nat) (ht : t = c * 2 ^ k) (hc : c < 256)
    (hx : x / 2 ^ k % 256 = 0) : x ||| t = x + t := by
  subst ht
  exact or_byte x c k hc hx

theorem or_low_lane (x c : Nat) (hc : c < 256) (hx : x % 256 = 0) : x ||| c = x + c := by
  have h := or_byte x c 0 hc (by simpa using hx)
  simpa using h

theorem bswap64_piece1 (b0 b1 b2 b3 b4 b5 b6 b7 : Nat)
    (h0 : b0 < 256) (_h1 : b1 < 256) (_h2 : b2 < 256) (_h3 : b3 < 256) (_h4 : b4 < 256)
    (_h5 : b5 < 256) (_h6 : b6 < 256) (_h7 : b7 < 256) :
    u64 ((b0 + 256 * (b1 + 256 * (b2 + 256 * (b3 + 256 * (b4 + 256 * (b5 +
      256 * (b6 + 256 * b7))))))) <<< 56)
      = b0 * 2 ^ 56 := by
  simp only [u64, u32, Nat.shiftLeft_eq, Nat.shiftRight_eq_div_pow]
  omega

theorem bswap64_piece2 (b0 b1 b2 b3 b4 b5 b6 b7 : Nat)
    (h0 : b0 < 256) (h1 : b1 < 256) (h2 : b2 < 256) (h3 : b3 < 256) (h4 : b4 < 256)
    (h5 : b5 < 256) (h6 : b6 < 256) (_h7 : b7 < 256) :
    (b0 + 256 * (b1 + 256 * (b2 + 256 * (b3 + 256 * (b4 + 256 * (b5 +
      256 * (b6 + 256 * b7))))))) >>> 56
      = b7 := by
  simp only [u64, u32, Nat.shiftLeft_eq, Nat.shiftRight_eq_div_pow]
  omega

theorem bswap64_piece3 (b0 b1 b2 b3 b4 b5 b6 b7 : Nat)
    (h0 : b0 < 256) (h1 : b1 < 256) (_h2 : b2 < 256) (_h3 : b3 < 256) (_h4 : b4 < 256)
    (_h5 : b5 < 256) (_h6 : b6 < 256) (_h7 : b7 < 256) :
    u64 ((b0 + 256 * (b1 + 256 * (b2 + 256 * (b3 + 256 * (b4 + 256 * (b5 +
      256 * (b6 + 256 * b7))))))) <<< 40) &&& 0x00ff000000000000
      = b1 * 2 ^ 48 := by
  rw [show (0x00ff000000000000 : Nat) = 255 * 2 ^ 48 from by norm_num, and_byte_mask]
  simp only [u64, u32, Nat.shiftLeft_eq, Nat.shiftRight_eq_div_pow]
  omega

theorem bswap64_piece4 (b0 b1 b2 b3 b4 b5 b6 b7 : Nat)
    (h0 : b0 < 256) (h1 : b1 < 256) (h2 : b2 < 256) (_h3 : b3 < 256) (_h4 : b4 < 256)
    (_h5 : b5 < 256) (_h6 : b6 < 256) (_h7 : b7 < 256) :
    u64 ((b0 + 256 * (b1 + 256 * (b2 + 256 * (b3 + 256 * (b4 + 256 * (b5 +
      256 * (b6 + 256 * b7))))))) <<< 24) &&& 0x0000ff0000000000
      = b2 * 2 ^ 40 := by
  rw [show (0x0000ff0000000000 : Nat) = 255 * 2 ^ 40 from by norm_num, and_byte_mask]
  simp only [u64, u32, Nat.shiftLeft_eq, Nat.shiftRight_eq_div_pow]
  omega

theorem bswap64_piece5 (b0 b1 b2 b3 b4 b5 b6 b7 : Nat)
    (h0 : b0 < 256) (h1 : b1 < 256) (h2 : b2 < 256) (h3 : b3 < 256) (_h4 : b4 < 256)
    (_h5 : b5 < 256) (_h6 : b6 < 256) (_h7 : b7 < 256) :
    u64 ((b0 + 256 * (b1 + 256 * (b2 + 256 * (b3 + 256 * (b4 + 256 * (b5 +
      256 * (b6 + 256 * b7))))))) <<< 8) &&& 0x000000ff00000000
      = b3 * 2 ^ 32 := by
  rw [show (0x000000ff00000000 : Nat) = 255 * 2 ^ 32 from by norm_num, and_byte_mask]
  simp only [u64, u32, Nat.shiftLeft_eq, Nat.shiftRight_eq_div_pow]
  omega

theorem bswap64_piece6 (b0 b1 b2 b3 b4 b5 b6 b7 : Nat)
    (h0 : b0 < 256) (h1 : b1 < 256) (h2 : b2 < 256) (h3 : b3 < 256) (h4 : b4 < 256)
    (_h5 : b5 < 256) (_h6 : b6 < 256) (_h7 : b7 < 256) :
    ((b0 + 256 * (b1 + 256 * (b2 + 256 * (b3 + 256 * (b4 + 256 * (b5 +
      256 * (b6 + 256 * b7))))))) >>> 8) &&& 0x00000000ff000000
      = b4 * 2 ^ 24 := by
  rw [show (0x00000000ff000000 : Nat) = 255 * 2 ^ 24 from by norm_num, and_byte_mask]
  simp only [u64, u32, Nat.shiftLeft_eq, Nat.shiftRight_eq_div_pow]
  omega

theorem bswap64_piece7 (b0 b1 b2 b3 b4 b5 b6 b7 : Nat)
    (h0 : b0 < 256) (h1 : b1 < 256) (h2 : b2 < 256) (h3 : b3 < 256) (h4 : b4 < 256)
    (h5 : b5 < 256) (_h6 : b6 < 256) (_h7 : b7 < 256) :
    ((b0 + 256 * (b1 + 256 * (b2 + 256 * (b3 + 256 * (b4 + 256 * (b5 +
      256 * (b6 + 256 * b7))))))) >>> 24) &&& 0x0000000000ff0000
      = b5 * 2 ^ 16 := by
  rw [show (0x0000000000ff0000 : Nat) = 255 * 2 ^ 16 from by norm_num, and_byte_mask]
  simp only [u64, u32, Nat.shiftLeft_eq, Nat.shiftRight_eq_div_pow]
  omega

theorem bswap64_piece8 (b0 b1 b2 b3 b4 b5 b6 b7 : Nat)
    (h0 : b0 < 256) (h1 : b1 < 256) (h2 : b2 < 256) (h3 : b3 < 256) (h4 : b4 < 256)
    (h5 : b5 < 256) (h6 : b6 < 256) (_h7 : b7 < 256) :
    ((b0 + 256 * (b1 + 256 * (b2 + 256 * (b3 + 256 * (b4 + 256 * (b5 +
      256 * (b6 + 256 * b7))))))) >>> 40) &&& 0x000000000000ff00
      = b6 * 2 ^ 8 := by
  rw [show (0x000000000000ff00 : Nat) = 255 * 2 ^ 8 from by norm_num, and_byte_mask]
  simp only [u64, u32, Nat.shiftLeft_eq, Nat.shiftRight_eq_div_pow]
  omega

theorem bswap32_piece1 (b0 b1 b2 b3 : Nat)
    (h0 : b0 < 256) (_h1 : b1 < 256) (_h2 : b2 < 256) (_h3 : b3 < 256) :
    u32 ((b0 + 256 * (b1 + 256 * (b2 + 256 * b3))) <<< 24) = b0 * 2 ^ 24 := by
  simp only [u64, u32, Nat.shiftLeft_eq, Nat.shiftRight_eq_div_pow]
  omega

theorem bswap32_piece2 (b0 b1 b2 b3 : Nat)
    (h0 : b0 < 256) (h1 : b1 < 256) (h2 : b2 < 256) (_h3 : b3 < 256) :
    (b0 + 256 * (b1 + 256 * (b2 + 256 * b3))) >>> 24 = b3 := by
  simp only [u64, u32, Nat.shiftLeft_eq, Nat.shiftRight_eq_div_pow]
  omega

theorem bswap32_piece3 (b0 b1 b2 b3 : Nat)
    (h0 : b0 < 256) (h1 : b1 < 256) (_h2 : b2 < 256) (_h3 : b3 < 256) :
    u32 ((b0 + 256 * (b1 + 256 * (b2 + 256 * b3))) <<< 8) &&& 0x00ff0000 = b1 * 2 ^ 16 := by
  rw [show (0x00ff0000 : Nat) = 255 * 2 ^ 16 from by norm_num, and_byte_mask]
  simp only [u64, u32, Nat.shiftLeft_eq, Nat.shiftRight_eq_div_pow]
  omega

theorem bswap32_piece4 (b0 b1 b2 b3 : Nat)
    (h0 : b0 < 256) (h1 : b1 < 256) (h2 : b2 < 256) (_h3 : b3 < 256) :
    ((b0 + 256 * (b1 + 256 * (b2 + 256 * b3))) >>> 8) &&& 0x0000ff00 = b2 * 2 ^ 8 := by
  rw [show (0x0000ff00 : Nat) = 255 * 2 ^ 8 from by norm_num, and_byte_mask]
  simp only [u64, u32, Nat.shiftLeft_eq, Nat.shiftRight_eq_div_pow]
  omega

theorem or_chain64 (b0 b1 b2 b3 b4 b5 b6 b7 : Nat)
    (_h0 : b0 < 256) (h1 : b1 < 256) (h2 : b2 < 256) (h3 : b3 < 256) (h4 : b4 < 256)
    (h5 : b5 < 256) (h6 : b6 < 256) (h7 : b7 < 256) :
    b0 * 2 ^ 56 ||| b7 ||| b1 * 2 ^ 48 ||| b2 * 2 ^ 40 ||| b3 * 2 ^ 32 ||| b4 * 2 ^ 24
      ||| b5 * 2 ^ 16 ||| b6 * 2 ^ 8
      = b7 + 256 * (b6 + 256 * (b5 + 256 * (b4 + 256 * (b3 + 256 * (b2 +
        256 * (b1 + 256 * b0)))))) := by
  rw [or_low_lane (b0 * 2 ^ 56) b7 h7 (by omega)]
  rw [or_lane (b0 * 2 ^ 56 + b7) (b1 * 2 ^ 48) b1 48 rfl h1 (by omega)]
  rw [or_lane (b0 * 2 ^ 56 + b7 + b1 * 2 ^ 48) (b2 * 2 ^ 40) b2 40 rfl h2 (by omega)]
  rw [or_lane (b0 * 2 ^ 56 + b7 + b1 * 2 ^ 48 + b2 * 2 ^ 40) (b3 * 2 ^ 32) b3 32 rfl h3 (by omega)]
  rw [or_lane (b0 * 2 ^ 56 + b7 + b1 * 2 ^ 48 + b2 * 2 ^ 40 + b3 * 2 ^ 32) (b4 * 2 ^ 24) b4 24 rfl
    h4 (by omega)]
  rw [or_lane (b0 * 2 ^ 56 + b7 + b1 * 2 ^ 48 + b2 * 2 ^ 40 + b3 * 2 ^ 32 + b4 * 2 ^ 24)
    (b5 * 2 ^ 16) b5 16 rfl h5 (by omega)]
  rw [or_lane (b0 * 2 ^ 56 + b7 + b1 * 2 ^ 48 + b2 * 2 ^ 40 + b3 * 2 ^ 32 + b4 * 2 ^ 24
    + b5 * 2 ^ 16) (b6 * 2 ^ 8) b6 8 rfl h6 (by omega)]
  omega

theorem or_chain32 (b0 b1 b2 b3 : Nat)
    (_h0 : b0 < 256) (h1 : b1 < 256) (h2 : b2 < 256) (h3 : b3 < 256) :
    b0 * 2 ^ 24 ||| b3 ||| b1 * 2 ^ 16 ||| b2 * 2 ^ 8
      = b3 + 256 * (b2 + 256 * (b1 + 256 * b0)) := by
  rw [or_low_lane (b0 * 2 ^ 24) b3 h3 (by omega)]
  rw [or_lane (b0 * 2 ^ 24 + b3) (b1 * 2 ^ 16) b1 16 rfl h1 (by omega)]
  rw [or_lane (b0 * 2 ^ 24 + b3 + b1 * 2 ^ 16) (b2 * 2 ^ 8) b2 8 rfl h2 (by omega)]
  omega

/-- The fallback `bswap64` reverses the eight bytes of a word. -/
theorem bswap64_bytes (b0 b1 b2 b3 b4 b5 b6 b7 : Nat)
    (h0 : b0 < 256) (h1 : b1 < 256) (h2 : b2 < 256) (h3 : b3 < 256) (h4 : b4 < 256)
    (h5 : b5 < 256) (h6 : b6 < 256) (h7 : b7 < 256) :
    bswap64 (b0 + 256 * (b1 + 256 * (b2 + 256 * (b3 + 256 * (b4 + 256 * (b5 +
      256 * (b6 + 256 * b7)))))))
      = b7 + 256 * (b6 + 256 * (b5 + 256 * (b4 + 256 * (b3 + 256 * (b2 +
        256 * (b1 + 256 * b0)))))) := by
  unfold bswap64
  rw [bswap64_piece1 b0 b1 b2 b3 b4 b5 b6 b7 h0 h1 h2 h3 h4 h5 h6 h7,
    bswap64_piece2 b0 b1 b2 b3 b4 b5 b6 b7 h0 h1 h2 h3 h4 h5 h6 h7,
    bswap64_piece3 b0 b1 b2 b3 b4 b5 b6 b7 h0 h1 h2 h3 h4 h5 h6 h7,
    bswap64_piece4 b0 b1 b2 b3 b4 b5 b6 b7 h0 h1 h2 h3 h4 h5 h6 h7,
    bswap64_piece5 b0 b1 b2 b3 b4 b5 b6 b7 h0 h1 h2 h3 h4 h5 h6 h7,
    bswap64_piece6 b0 b1 b2 b3 b4 b5 b6 b7 h0 h1 h2 h3 h4 h5 h6 h7,
    bswap64_piece7 b0 b1 b2 b3 b4 b5 b6 b7 h0 h1 h2 h3 h4 h5 h6 h7,
    bswap64_piece8 b0 b1 b2 b3 b4 b5 b6 b7 h0 h1 h2 h3 h4 h5 h6 h7]
  exact or_chain64 b0 b1 b2 b3 b4 b5 b6 b7 h0 h1 h2 h3 h4 h5 h6 h7

/-- The fallback `bswap32` reverses the four bytes of a word. -/
theorem bswap32_bytes (b0 b1 b2 b3 : Nat)
    (h0 : b0 < 256) (h1 : b1 < 256) (h2 : b2 < 256) (h3 : b3 < 256) :
    bswap32 (b0 + 256 * (b1 + 256 * (b2 + 256 * b3)))
      = b3 + 256 * (b2 + 256 * (b1 + 256 * b0)) := by
  unfold bswap32
  rw [bswap32_piece1 b0 b1 b2 b3 h0 h1 h2 h3,
    bswap32_piece2 b0 b1 b2 b3 h0 h1 h2 h3,
    bswap32_piece3 b0 b1 b2 b3 h0 h1 h2 h3,
    bswap32_piece4 b0 b1 b2 b3 h0 h1 h2 h3]
  exact or_chain32 b0 b1 b2 b3 h0 h1 h2 h3

/-- The fallback `bswap16` exchanges the two bytes of a word. -/
theorem bswap16_bytes (b0 b1 : Nat) (h0 : b0 < 256) (h1 : b1 < 256) :
    bswap16 (b0 + 256 * b1) = b1 + 256 * b0 := by
  unfold bswap16 u16
  have e : (b0 + 256 * b1) >>> 8 = b1 := by
    rw [Nat.shiftRight_eq_div_pow]; omega
  have e2 : (b0 + 256 * b1) <<< 8 = (b0 + 256 * b1) * 2 ^ 8 := Nat.shiftLeft_eq _ _
  rw [e, e2, or_low_lane _ b1 h1 (by omega)]
  omega


/-! ## Memory reads -/

theorem slice_nil_of_le (mem : List Byte) (off n : Nat) (h : mem.length ≤ off) :
    slice mem off n = [] := by
  simp [slice, List.drop_eq_nil_of_le h]

theorem slice_zero (mem : List Byte) (off : Nat) : slice mem off 0 = [] := by
  simp [slice]

theorem slice_length (mem : List Byte) (off n : Nat) (h : off + n ≤ mem.length) :
    (slice mem off n).length = n := by
  simp [slice]; omega

theorem slice_succ (mem : List Byte) (off n : Nat) :
    slice mem off (n + 1) = slice mem off 1 ++ slice mem (off + 1) n := by
  unfold slice
  rcases hd : mem.drop off with _ | ⟨b, rest⟩
  · have hle : mem.length ≤ off := List.drop_eq_nil_iff.mp hd
    simp [List.drop_eq_nil_of_le (Nat.le_succ_of_le hle)]
  · have h1 : mem.drop (off + 1) = rest := by
      rw [← List.drop_drop, hd]; rfl
    simp [h1]

theorem slice_slice (mem : List Byte) (off n pos w : Nat) (h : pos + w ≤ n) :
    slice (slice mem off n) pos w = slice mem (off + pos) w := by
  unfold slice
  rw [List.drop_take, List.drop_drop, List.take_take]
  congr 1
  omega

theorem slice_append_left (xs ys : List Byte) (pos w : Nat) (h : pos + w ≤ xs.length) :
    slice (xs ++ ys) pos w = slice xs pos w := by
  unfold slice
  rw [List.drop_append_of_le_length (by omega), List.take_append_of_le_length]
  simp; omega

theorem slice_zero_eq_take (mem : List Byte) (n : Nat) : slice mem 0 n = mem.take n := by
  simp [slice]

theorem leValue_append (xs ys : List Byte) :
    leValue (xs ++ ys) = leValue xs + 256 ^ xs.length * leValue ys := by
  induction xs with
  | nil => simp [leValue]
  | cons b bs ih => simp [leValue, ih, pow_succ]; ring

theorem leValue_lt (bs : List Byte) : leValue bs < 256 ^ bs.length := by
  induction bs with
  | nil => simp [leValue]
  | cons b bs ih =>
    have hb := b.isLt
    simp only [leValue, List.length_cons, pow_succ]
    omega

theorem byteAt_lt (mem : List Byte) (i : Nat) : byteAt mem i < 256 := by
  unfold byteAt
  have h := leValue_lt (slice mem i 1)
  have hl : (slice mem i 1).length ≤ 1 := by simp [slice]
  have : 256 ^ (slice mem i 1).length ≤ 256 ^ 1 := Nat.pow_le_pow_right (by norm_num) hl
  omega

theorem readBytes_eq (mem : List Byte) (off n : Nat) (h : off + n ≤ mem.length) :
    readBytes mem off n = some (slice mem off n) := by
  simp [readBytes, h]

theorem peek_eq (mem : List Byte) (i : Nat) (h : i < mem.length) :
    peek mem i = some (byteAt mem i) := by
  simp [peek, byteAt, readBytes_eq mem i 1 (by omega)]

theorem leValue_slice_succ (mem : List Byte) (off n : Nat) :
    leValue (slice mem off (n + 1)) = byteAt mem off + 256 * leValue (slice mem (off + 1) n) := by
  rw [slice_succ, leValue_append]
  unfold byteAt
  rcases hs : slice mem off 1 with _ | ⟨b, rest⟩
  · have hle : mem.length ≤ off := by
      by_contra hc
      have := slice_length mem off 1 (by omega)
      rw [hs] at this; simp at this
    simp [leValue, slice_nil_of_le mem (off + 1) n (by omega)]
  · have hl : (slice mem off 1).length ≤ 1 := by simp [slice]
    rw [hs] at hl
    have hr : rest = [] := by
      cases rest with
      | nil => rfl
      | cons c cs => simp at hl
    subst hr
    simp


theorem leValue_slice_one (mem : List Byte) (off : Nat) :
    leValue (slice mem off 1) = byteAt mem off := rfl

theorem leValue_slice2 (mem : List Byte) (off : Nat) :
    leValue (slice mem off 2) = byteAt mem off + 256 * (byteAt mem (off + 1)) := by
  rw [leValue_slice_succ mem off 1, leValue_slice_one]

theorem leValue_slice3 (mem : List Byte) (off : Nat) :
    leValue (slice mem off 3)
      = byteAt mem off + 256 * (byteAt mem (off + 1) + 256 * (byteAt mem (off + 2))) := by
  rw [leValue_slice_succ mem off 2, leValue_slice2]

theorem leValue_slice4 (mem : List Byte) (off : Nat) :
    leValue (slice mem off 4)
      = byteAt mem off + 256 * (byteAt mem (off + 1) + 256 * (byteAt mem (off + 2) +
        256 * (byteAt mem (off + 3)))) := by
  rw [leValue_slice_succ mem off 3, leValue_slice3]

theorem leValue_slice5 (mem : List Byte) (off : Nat) :
    leValue (slice mem off 5)
      = byteAt mem off + 256 * (byteAt mem (off + 1) + 256 * (byteAt mem (off + 2) +
        256 * (byteAt mem (off + 3) + 256 * (byteAt mem (off + 4))))) := by
  rw [leValue_slice_succ mem off 4, leValue_slice4]

theorem leValue_slice6 (mem : List Byte) (off : Nat) :
    leValue (slice mem off 6)
      = byteAt mem off + 256 * (byteAt mem (off + 1) + 256 * (byteAt mem (off + 2) +
        256 * (byteAt mem (off + 3) + 256 * (byteAt mem (off + 4) +
        256 * (byteAt mem (off + 5)))))) := by
  rw [leValue_slice_succ mem off 5, leValue_slice5]

theorem leValue_slice7 (mem : List Byte) (off : Nat) :
    leValue (slice mem off 7)
      = byteAt mem off + 256 * (byteAt mem (off + 1) + 256 * (byteAt mem (off + 2) +
        256 * (byteAt mem (off + 3) + 256 * (byteAt mem (off + 4) +
        256 * (byteAt mem (off + 5) + 256 * (byteAt mem (off + 6))))))) := by
  rw [leValue_slice_succ mem off 6, leValue_slice6]

theorem leValue_slice8 (mem : List Byte) (off : Nat) :
    leValue (slice mem off 8)
      = byteAt mem off + 256 * (byteAt mem (off + 1) + 256 * (byteAt mem (off + 2) +
        256 * (byteAt mem (off + 3) + 256 * (byteAt mem (off + 4) +
        256 * (byteAt mem (off + 5) + 256 * (byteAt mem (off + 6) +
        256 * (byteAt mem (off + 7)))))))) := by
  rw [leValue_slice_succ mem off 7, leValue_slice7]

theorem beValue_foldl (bs : List Byte) (acc : Nat) :
    bs.foldl (fun acc b => acc * 256 + b.val) acc = acc * 256 ^ bs.length + beValue bs := by
  induction bs generalizing acc with
  | nil => simp [beValue]
  | cons b bs ih =>
    simp only [List.foldl_cons, List.length_cons, beValue]
    rw [ih, ih (0 * 256 + b.val)]
    ring

theorem beValue_append (xs ys : List Byte) :
    beValue (xs ++ ys) = beValue xs * 256 ^ ys.length + beValue ys := by
  unfold beValue
  rw [List.foldl_append, beValue_foldl]
  rfl

theorem beValue_slice_one (mem : List Byte) (off : Nat) :
    beValue (slice mem off 1) = byteAt mem off := by
  unfold byteAt
  rcases hs : slice mem off 1 with _ | ⟨b, rest⟩
  · rfl
  · have hl : (slice mem off 1).length ≤ 1 := by simp [slice]
    rw [hs] at hl
    have hr : rest = [] := by
      cases rest with
      | nil => rfl
      | cons c cs => simp at hl
    subst hr
    simp [beValue, leValue]

theorem beValue_slice_succ (mem : List Byte) (off n : Nat) (h : off + 1 + n ≤ mem.length) :
    beValue (slice mem off (n + 1))
      = byteAt mem off * 256 ^ n + beValue (slice mem (off + 1) n) := by
  rw [slice_succ, beValue_append, beValue_slice_one, slice_length mem (off + 1) n h]

theorem beValue_slice2 (mem : List Byte) (off : Nat) (h : off + 2 ≤ mem.length) :
    beValue (slice mem off 2) = byteAt mem (off + 1) + 256 * (byteAt mem off) := by
  rw [beValue_slice_succ mem off 1 (by omega), beValue_slice_one]
  omega

theorem beValue_slice4 (mem : List Byte) (off : Nat) (h : off + 4 ≤ mem.length) :
    beValue (slice mem off 4)
      = byteAt mem (off + 3) + 256 * (byteAt mem (off + 2) + 256 * (byteAt mem (off + 1) +
        256 * (byteAt mem off))) := by
  rw [beValue_slice_succ mem off 3 (by omega), beValue_slice_succ mem (off + 1) 2 (by omega),
    beValue_slice_succ mem (off + 1 + 1) 1 (by omega), beValue_slice_one]
  simp only [Nat.add_assoc, Nat.reduceAdd, Nat.reducePow]
  omega

theorem beValue_slice8 (mem : List Byte) (off : Nat) (h : off + 8 ≤ mem.length) :
    beValue (slice mem off 8)
      = byteAt mem (off + 7) + 256 * (byteAt mem (off + 6) + 256 * (byteAt mem (off + 5) +
        256 * (byteAt mem (off + 4) + 256 * (byteAt mem (off + 3) +
        256 * (byteAt mem (off + 2) + 256 * (byteAt mem (off + 1) +
        256 * (byteAt mem off))))))) := by
  rw [beValue_slice_succ mem off 7 (by omega), beValue_slice_succ mem (off + 1) 6 (by omega),
    beValue_slice_succ mem (off + 1 + 1) 5 (by omega),
    beValue_slice_succ mem (off + 1 + 1 + 1) 4 (by omega),
    beValue_slice_succ mem (off + 1 + 1 + 1 + 1) 3 (by omega),
    beValue_slice_succ mem (off + 1 + 1 + 1 + 1 + 1) 2 (by omega),
    beValue_slice_succ mem (off + 1 + 1 + 1 + 1 + 1 + 1) 1 (by omega), beValue_slice_one]
  simp only [Nat.add_assoc, Nat.reduceAdd, Nat.reducePow]
  omega

/-! ## `fetch64`, `fetch32`, `fetch16` -/

theorem fetch64_eq (T : Target) (mem : List Byte) (off : Nat) (h : off + 8 ≤ mem.length) :
    fetch64 T mem off = some (leValue (slice mem off 8)) := by
  unfold fetch64 deref
  rw [readBytes_eq mem off 8 h]
  cases hT : T.littleEndian
  · simp only [Bool.false_eq_true, if_false, Option.map_some']
    rw [beValue_slice8 mem off h, leValue_slice8,
      bswap64_bytes _ _ _ _ _ _ _ _ (byteAt_lt _ _) (byteAt_lt _ _) (byteAt_lt _ _)
        (byteAt_lt _ _) (byteAt_lt _ _) (byteAt_lt _ _) (byteAt_lt _ _) (byteAt_lt _ _)]
  · simp

theorem fetch32_eq (T : Target) (mem : List Byte) (off : Nat) (h : off + 4 ≤ mem.length) :
    fetch32 T mem off = some (leValue (slice mem off 4)) := by
  unfold fetch32 deref
  rw [readBytes_eq mem off 4 h]
  cases hT : T.littleEndian
  · simp only [Bool.false_eq_true, if_false, Option.map_some']
    rw [beValue_slice4 mem off h, leValue_slice4,
      bswap32_bytes _ _ _ _ (byteAt_lt _ _) (byteAt_lt _ _) (byteAt_lt _ _) (byteAt_lt _ _)]
  · simp

theorem fetch16_eq (T : Target) (mem : List Byte) (off : Nat) (h : off + 2 ≤ mem.length) :
    fetch16 T mem off = some (leValue (slice mem off 2)) := by
  unfold fetch16 deref
  rw [readBytes_eq mem off 2 h]
  cases hT : T.littleEndian
  · simp only [Bool.false_eq_true, if_false, Option.map_some']
    rw [beValue_slice2 mem off h, leValue_slice2,
      bswap16_bytes _ _ (byteAt_lt _ _) (byteAt_lt _ _)]
  · simp

theorem le64_lt (mem : List Byte) (off : Nat) : le64 mem off < 2 ^ 64 := by
  unfold le64
  have h := leValue_lt (slice mem off 8)
  have hl : (slice mem off 8).length ≤ 8 := by simp [slice]
  have : 256 ^ (slice mem off 8).length ≤ 256 ^ 8 := Nat.pow_le_pow_right (by norm_num) hl
  have e : (256 : Nat) ^ 8 = 2 ^ 64 := by norm_num
  omega


/-! ## `tail64` -/

/-- The number of bytes `tail64(p, n)` is meant to read. -/
theorem tail_count (n : Nat) (hn : 1 ≤ n) :
    (n - 1) % 8 + 1 = if n % 8 = 0 then 8 else n % 8 := by
  split <;> omega

theorem tail64Bytes_res0 (mem : List Byte) (p n : Nat) (hr : n % 8 = 0)
    (h : p + 8 ≤ mem.length) : tail64Bytes mem p n = some (leValue (slice mem p 8)) := by
  have hb0 := byteAt_lt mem p
  have hb1 := byteAt_lt mem (p + 1)
  have hb2 := byteAt_lt mem (p + 2)
  have hb3 := byteAt_lt mem (p + 3)
  have hb4 := byteAt_lt mem (p + 4)
  have hb5 := byteAt_lt mem (p + 5)
  have hb6 := byteAt_lt mem (p + 6)
  have hb7 := byteAt_lt mem (p + 7)
  unfold tail64Bytes
  rw [and_seven, hr]
  simp only [tail64BytesCase0, tail64BytesCase7, tail64BytesCase6, tail64BytesCase5,
    tail64BytesCase4, tail64BytesCase3, tail64BytesCase2, tail64BytesCase1,
    peek_eq mem p (by omega), peek_eq mem (p + 1) (by omega), peek_eq mem (p + 2) (by omega),
    peek_eq mem (p + 3) (by omega), peek_eq mem (p + 4) (by omega),
    peek_eq mem (p + 5) (by omega), peek_eq mem (p + 6) (by omega),
    peek_eq mem (p + 7) (by omega), Option.bind_some, Option.some_bind,
    Option.map_some', leValue_slice8, Nat.shiftLeft_eq, u64, Option.some.injEq]
  omega

theorem tail64Bytes_res1 (mem : List Byte) (p n : Nat) (hr : n % 8 = 1)
    (h : p + 1 ≤ mem.length) : tail64Bytes mem p n = some (leValue (slice mem p 1)) := by
  have hb0 := byteAt_lt mem p
  unfold tail64Bytes
  rw [and_seven, hr]
  simp only [tail64BytesCase1, peek_eq mem p (by omega), Option.bind_some, Option.some_bind,
    Option.map_some', leValue_slice_one, Nat.shiftLeft_eq, u64, Option.some.injEq]
  omega

theorem tail64Bytes_res2 (mem : List Byte) (p n : Nat) (hr : n % 8 = 2)
    (h : p + 2 ≤ mem.length) : tail64Bytes mem p n = some (leValue (slice mem p 2)) := by
  have hb0 := byteAt_lt mem p
  have hb1 := byteAt_lt mem (p + 1)
  unfold tail64Bytes
  rw [and_seven, hr]
  simp only [tail64BytesCase2, tail64BytesCase1, peek_eq mem p (by omega),
    peek_eq mem (p + 1) (by omega), Option.bind_some, Option.some_bind,
    Option.map_some', leValue_slice2, Nat.shiftLeft_eq, u64, Option.some.injEq]
  omega

theorem tail64Bytes_res3 (mem : List Byte) (p n : Nat) (hr : n % 8 = 3)
    (h : p + 3 ≤ mem.length) : tail64Bytes mem p n = some (leValue (slice mem p 3)) := by
  have hb0 := byteAt_lt mem p
  have hb1 := byteAt_lt mem (p + 1)
  have hb2 := byteAt_lt mem (p + 2)
  unfold tail64Bytes
  rw [and_seven, hr]
  simp only [tail64BytesCase3, tail64BytesCase2, tail64BytesCase1, peek_eq mem p (by omega),
    peek_eq mem (p + 1) (by omega), peek_eq mem (p + 2) (by omega), Option.bind_some,
    Option.some_bind,
    Option.map_some', leValue_slice3, Nat.shiftLeft_eq, u64, Option.some.injEq]
  omega

theorem tail64Bytes_res4 (mem : List Byte) (p n : Nat) (hr : n % 8 = 4)
    (h : p + 4 ≤ mem.length) : tail64Bytes mem p n = some (leValue (slice mem p 4)) := by
  have hb0 := byteAt_lt mem p
  have hb1 := byteAt_lt mem (p + 1)
  have hb2 := byteAt_lt mem (p + 2)
  have hb3 := byteAt_lt mem (p + 3)
  unfold tail64Bytes
  rw [and_seven, hr]
  simp only [tail64BytesCase4, tail64BytesCase3, tail64BytesCase2, tail64BytesCase1,
    peek_eq mem p (by omega), peek_eq mem (p + 1) (by omega), peek_eq mem (p + 2) (by omega),
    peek_eq mem (p + 3) (by omega), Option.bind_some, Option.some_bind,
    Option.map_some', leValue_slice4, Nat.shiftLeft_eq, u64, Option.some.injEq]
  omega

theorem tail64Bytes_res5 (mem : List Byte) (p n : Nat) (hr : n % 8 = 5)
    (h : p + 5 ≤ mem.length) : tail64Bytes mem p n = some (leValue (slice mem p 5)) := by
  have hb0 := byteAt_lt mem p
  have hb1 := byteAt_lt mem (p + 1)
  have hb2 := byteAt_lt mem (p + 2)
  have hb3 := byteAt_lt mem (p + 3)
  have hb4 := byteAt_lt mem (p + 4)
  unfold tail64Bytes
  rw [and_seven, hr]
  simp only [tail64BytesCase5, tail64BytesCase4, tail64BytesCase3, tail64BytesCase2,
    tail64BytesCase1, peek_eq mem p (by omega), peek_eq mem (p + 1) (by omega),
    peek_eq mem (p + 2) (by omega), peek_eq mem (p + 3) (by omega),
    peek_eq mem (p + 4) (by omega), Option.bind_some, Option.some_bind,
    Option.map_some', leValue_slice5, Nat.shiftLeft_eq, u64, Option.some.injEq]
  omega

theorem tail64Bytes_res6 (mem : List Byte) (p n : Nat) (hr : n % 8 = 6)
    (h : p + 6 ≤ mem.length) : tail64Bytes mem p n = some (leValue (slice mem p 6)) := by
  have hb0 := byteAt_lt mem p
  have hb1 := byteAt_lt mem (p + 1)
  have hb2 := byteAt_lt mem (p + 2)
  have hb3 := byteAt_lt mem (p + 3)
  have hb4 := byteAt_lt mem (p + 4)
  have hb5 := byteAt_lt mem (p + 5)
  unfold tail64Bytes
  rw [and_seven, hr]
  simp only [tail64BytesCase6, tail64BytesCase5, tail64BytesCase4, tail64BytesCase3,
    tail64BytesCase2, tail64BytesCase1, peek_eq mem p (by omega), peek_eq mem (p + 1) (by omega),
    peek_eq mem (p + 2) (by omega), peek_eq mem (p + 3) (by omega),
    peek_eq mem (p + 4) (by omega), peek_eq mem (p + 5) (by omega), Option.bind_some,
    Option.some_bind,
    Option.map_some', leValue_slice6, Nat.shiftLeft_eq, u64, Option.some.injEq]
  omega

theorem tail64Bytes_res7 (mem : List Byte) (p n : Nat) (hr : n % 8 = 7)
    (h : p + 7 ≤ mem.length) : tail64Bytes mem p n = some (leValue (slice mem p 7)) := by
  have hb0 := byteAt_lt mem p
  have hb1 := byteAt_lt mem (p + 1)
  have hb2 := byteAt_lt mem (p + 2)
  have hb3 := byteAt_lt mem (p + 3)
  have hb4 := byteAt_lt mem (p + 4)
  have hb5 := byteAt_lt mem (p + 5)
  have hb6 := byteAt_lt mem (p + 6)
  unfold tail64Bytes
  rw [and_seven, hr]
  simp only [tail64BytesCase7, tail64BytesCase6, tail64BytesCase5, tail64BytesCase4,
    tail64BytesCase3, tail64BytesCase2, tail64BytesCase1, peek_eq mem p (by omega),
    peek_eq mem (p + 1) (by omega), peek_eq mem (p + 2) (by omega),
    peek_eq mem (p + 3) (by omega), peek_eq mem (p + 4) (by omega),
    peek_eq mem (p + 5) (by omega), peek_eq mem (p + 6) (by omega), Option.bind_some,
    Option.some_bind,
    Option.map_some', leValue_slice7, Nat.shiftLeft_eq, u64, Option.some.injEq]
  omega

theorem tail64Fast_res0 (T : Target) (mem : List Byte) (p n : Nat) (hr : n % 8 = 0)
    (h : p + 8 ≤ mem.length) : tail64Fast T mem p n = some (leValue (slice mem p 8)) := by
  have hb0 := byteAt_lt mem p
  have hb1 := byteAt_lt mem (p + 1)
  have hb2 := byteAt_lt mem (p + 2)
  have hb3 := byteAt_lt mem (p + 3)
  have hb4 := byteAt_lt mem (p + 4)
  have hb5 := byteAt_lt mem (p + 5)
  have hb6 := byteAt_lt mem (p + 6)
  have hb7 := byteAt_lt mem (p + 7)
  unfold tail64Fast
  rw [and_seven, hr]
  simp only [fetch64_eq T mem p (by omega), Option.bind_some, Option.some_bind,
    Option.map_some', leValue_slice8, Nat.shiftLeft_eq, u64, Option.some.injEq]

theorem tail64Fast_res1 (T : Target) (mem : List Byte) (p n : Nat) (hr : n % 8 = 1)
    (h : p + 1 ≤ mem.length) : tail64Fast T mem p n = some (leValue (slice mem p 1)) := by
  have hb0 := byteAt_lt mem p
  unfold tail64Fast
  rw [and_seven, hr]
  simp only [peek_eq mem p (by omega), Option.bind_some, Option.some_bind,
    Option.map_some', leValue_slice_one, Nat.shiftLeft_eq, u64, Option.some.injEq]

theorem tail64Fast_res2 (T : Target) (mem : List Byte) (p n : Nat) (hr : n % 8 = 2)
    (h : p + 2 ≤ mem.length) : tail64Fast T mem p n = some (leValue (slice mem p 2)) := by
  have hb0 := byteAt_lt mem p
  have hb1 := byteAt_lt mem (p + 1)
  unfold tail64Fast
  rw [and_seven, hr]
  simp only [tail64FastCase2, fetch16_eq T mem p (by omega), Option.bind_some, Option.some_bind,
    Option.map_some', leValue_slice2, Nat.shiftLeft_eq, u64, Option.some.injEq]
  omega

theorem tail64Fast_res3 (T : Target) (mem : List Byte) (p n : Nat) (hr : n % 8 = 3)
    (h : p + 3 ≤ mem.length) : tail64Fast T mem p n = some (leValue (slice mem p 3)) := by
  have hb0 := byteAt_lt mem p
  have hb1 := byteAt_lt mem (p + 1)
  have hb2 := byteAt_lt mem (p + 2)
  unfold tail64Fast
  rw [and_seven, hr]
  simp only [tail64FastCase3, tail64FastCase2, fetch16_eq T mem p (by omega),
    peek_eq mem (p + 2) (by omega), Option.bind_some, Option.some_bind,
    Option.map_some', leValue_slice2, leValue_slice3, Nat.shiftLeft_eq, u64, Option.some.injEq]
  omega

theorem tail64Fast_res4 (T : Target) (mem : List Byte) (p n : Nat) (hr : n % 8 = 4)
    (h : p + 4 ≤ mem.length) : tail64Fast T mem p n = some (leValue (slice mem p 4)) := by
  have hb0 := byteAt_lt mem p
  have hb1 := byteAt_lt mem (p + 1)
  have hb2 := byteAt_lt mem (p + 2)
  have hb3 := byteAt_lt mem (p + 3)
  unfold tail64Fast
  rw [and_seven, hr]
  simp only [tail64FastCase4, fetch32_eq T mem p (by omega), Option.bind_some, Option.some_bind,
    Option.map_some', leValue_slice4, Nat.shiftLeft_eq, u64, Option.some.injEq]
  omega

theorem tail64Fast_res5 (T : Target) (mem : List Byte) (p n : Nat) (hr : n % 8 = 5)
    (h : p + 5 ≤ mem.length) : tail64Fast T mem p n = some (leValue (slice mem p 5)) := by
  have hb0 := byteAt_lt mem p
  have hb1 := byteAt_lt mem (p + 1)
  have hb2 := byteAt_lt mem (p + 2)
  have hb3 := byteAt_lt mem (p + 3)
  have hb4 := byteAt_lt mem (p + 4)
  unfold tail64Fast
  rw [and_seven, hr]
  simp only [tail64FastCase5, tail64FastCase4, fetch32_eq T mem p (by omega),
    peek_eq mem (p + 4) (by omega), Option.bind_some, Option.some_bind,
    Option.map_some', leValue_slice4, leValue_slice5, Nat.shiftLeft_eq, u64, Option.some.injEq]
  omega

theorem tail64Fast_res6 (T : Target) (mem : List Byte) (p n : Nat) (hr : n % 8 = 6)
    (h : p + 6 ≤ mem.length) : tail64Fast T mem p n = some (leValue (slice mem p 6)) := by
  have hb0 := byteAt_lt mem p
  have hb1 := byteAt_lt mem (p + 1)
  have hb2 := byteAt_lt mem (p + 2)
  have hb3 := byteAt_lt mem (p + 3)
  have hb4 := byteAt_lt mem (p + 4)
  have hb5 := byteAt_lt mem (p + 5)
  unfold tail64Fast
  rw [and_seven, hr]
  simp only [tail64FastCase6, tail64FastCase5, tail64FastCase4, fetch32_eq T mem p (by omega),
    peek_eq mem (p + 4) (by omega), peek_eq mem (p + 5) (by omega), Option.bind_some,
    Option.some_bind,
    Option.map_some', leValue_slice4, leValue_slice6, Nat.shiftLeft_eq, u64, Option.some.injEq]
  omega

theorem tail64Fast_res7 (T : Target) (mem : List Byte) (p n : Nat) (hr : n % 8 = 7)
    (h : p + 7 ≤ mem.length) : tail64Fast T mem p n = some (leValue (slice mem p 7)) := by
  have hb0 := byteAt_lt mem p
  have hb1 := byteAt_lt mem (p + 1)
  have hb2 := byteAt_lt mem (p + 2)
  have hb3 := byteAt_lt mem (p + 3)
  have hb4 := byteAt_lt mem (p + 4)
  have hb5 := byteAt_lt mem (p + 5)
  have hb6 := byteAt_lt mem (p + 6)
  unfold tail64Fast
  rw [and_seven, hr]
  simp only [tail64FastCase7, tail64FastCase6, tail64FastCase5, tail64FastCase4,
    fetch32_eq T mem p (by omega), peek_eq mem (p + 4) (by omega), peek_eq mem (p + 5) (by omega),
    peek_eq mem (p + 6) (by omega), Option.bind_some, Option.some_bind,
    Option.map_some', leValue_slice4, leValue_slice7, Nat.shiftLeft_eq, u64, Option.some.injEq]
  omega

/-- The value returned by `tail64` (either variant) when the bytes it is meant
to read are inside the buffer. -/
theorem tail64_eq (T : Target) (mem : List Byte) (p n : Nat) (hn : 1 ≤ n)
    (h : p + ((n - 1) % 8 + 1) ≤ mem.length) :
    tail64 T mem p n = some (leValue (slice mem p ((n - 1) % 8 + 1))) := by
  have hlt : n % 8 < 8 := Nat.mod_lt _ (by norm_num)
  unfold tail64
  split
  · interval_cases hr : n % 8
    · have e : (n - 1) % 8 + 1 = 8 := by omega
      rw [e] at h ⊢
      exact tail64Fast_res0 T mem p n hr h
    · have e : (n - 1) % 8 + 1 = 1 := by omega
      rw [e] at h ⊢
      exact tail64Fast_res1 T mem p n hr h
    · have e : (n - 1) % 8 + 1 = 2 := by omega
      rw [e] at h ⊢
      exact tail64Fast_res2 T mem p n hr h
    · have e : (n - 1) % 8 + 1 = 3 := by omega
      rw [e] at h ⊢
      exact tail64Fast_res3 T mem p n hr h
    · have e : (n - 1) % 8 + 1 = 4 := by omega
      rw [e] at h ⊢
      exact tail64Fast_res4 T mem p n hr h
    · have e : (n - 1) % 8 + 1 = 5 := by omega
      rw [e] at h ⊢
      exact tail64Fast_res5 T mem p n hr h
    · have e : (n - 1) % 8 + 1 = 6 := by omega
      rw [e] at h ⊢
      exact tail64Fast_res6 T mem p n hr h
    · have e : (n - 1) % 8 + 1 = 7 := by omega
      rw [e] at h ⊢
      exact tail64Fast_res7 T mem p n hr h
  · interval_cases hr : n % 8
    · have e : (n - 1) % 8 + 1 = 8 := by omega
      rw [e] at h ⊢
      exact tail64Bytes_res0 mem p n hr h
    · have e : (n - 1) % 8 + 1 = 1 := by omega
      rw [e] at h ⊢
      exact tail64Bytes_res1 mem p n hr h
    · have e : (n - 1) % 8 + 1 = 2 := by omega
      rw [e] at h ⊢
      exact tail64Bytes_res2 mem p n hr h
    · have e : (n - 1) % 8 + 1 = 3 := by omega
      rw [e] at h ⊢
      exact tail64Bytes_res3 mem p n hr h
    · have e : (n - 1) % 8 + 1 = 4 := by omega
      rw [e] at h ⊢
      exact tail64Bytes_res4 mem p n hr h
    · have e : (n - 1) % 8 + 1 = 5 := by omega
      rw [e] at h ⊢
      exact tail64Bytes_res5 mem p n hr h
    · have e : (n - 1) % 8 + 1 = 6 := by omega
      rw [e] at h ⊢
      exact tail64Bytes_res6 mem p n hr h
    · have e : (n - 1) % 8 + 1 = 7 := by omega
      rw [e] at h ⊢
      exact tail64Bytes_res7 mem p n hr h

theorem tail_count_le (n : Nat) : (n - 1) % 8 + 1 ≤ 8 := by omega

theorem leValue_slice_lt (mem : List Byte) (off n : Nat) (hn : n ≤ 8) :
    leValue (slice mem off n) < 2 ^ 64 := by
  have h := leValue_lt (slice mem off n)
  have hl : (slice mem off n).length ≤ 8 := by
    have : (slice mem off n).length ≤ n := by simp [slice]
    omega
  have : 256 ^ (slice mem off n).length ≤ 256 ^ 8 := Nat.pow_le_pow_right (by norm_num) hl
  have e : (256 : Nat) ^ 8 = 2 ^ 64 := by norm_num
  omega


/-! ## `mux64` -/

/-- The two carries of `mux64` add up to the carry of the three-term sum, and
the low word is the three-term sum modulo `2^64`. -/
theorem carry_sum (A x y : Nat) (hA : A < 2 ^ 64) (hx : x < 2 ^ 64) (hy : y < 2 ^ 64) :
    (if (A + x) % 2 ^ 64 < x then 1 else 0) + (if ((A + x) % 2 ^ 64 + y) % 2 ^ 64 < y then 1 else 0)
      = (A + x + y) / 2 ^ 64
    ∧ ((A + x) % 2 ^ 64 + y) % 2 ^ 64 = (A + x + y) % 2 ^ 64 := by
  constructor
  · split <;> split <;> omega
  · omega

theorem hi_lo (A B C D P : Nat) (hA : A ≤ 18446744065119617025) (hB : B ≤ 18446744065119617025)
    (hC : C ≤ 18446744065119617025) (hD : D ≤ 18446744065119617025)
    (hP : P = D * 2 ^ 64 + (B + C) * 2 ^ 32 + A) :
    D + B / 2 ^ 32 + C / 2 ^ 32 + (A + B % 2 ^ 32 * 2 ^ 32 + C % 2 ^ 32 * 2 ^ 32) / 2 ^ 64
        = P / 2 ^ 64
    ∧ (A + B % 2 ^ 32 * 2 ^ 32 + C % 2 ^ 32 * 2 ^ 32) % 2 ^ 64 = P % 2 ^ 64
    ∧ P / 2 ^ 64 < 2 ^ 64 := by
  subst hP
  refine ⟨?_, ?_, ?_⟩ <;> omega

theorem mul32_le (a b : Nat) (ha : a < 2 ^ 32) (hb : b < 2 ^ 32) :
    a * b ≤ 18446744065119617025 := by
  have h : a * b ≤ (2 ^ 32 - 1) * (2 ^ 32 - 1) := Nat.mul_le_mul (by omega) (by omega)
  norm_num at h
  exact h

theorem mul_32x32_64_eq (a b : Nat) (ha : a < 2 ^ 32) (hb : b < 2 ^ 32) :
    mul_32x32_64 a b = a * b := by
  unfold mul_32x32_64 u64 u32
  rw [Nat.mod_eq_of_lt ha, Nat.mod_eq_of_lt hb]
  have := mul32_le a b ha hb
  omega

theorem mux64Portable_eq (swap : Bool) (v p : Nat) (hv : v < 2 ^ 64) (hp : p < 2 ^ 64) :
    mux64Portable swap v p = muxSpec v p := by
  have hvl : v % 2 ^ 32 < 2 ^ 32 := Nat.mod_lt _ (by norm_num)
  have hpl : p % 2 ^ 32 < 2 ^ 32 := Nat.mod_lt _ (by norm_num)
  have hvh : v / 2 ^ 32 < 2 ^ 32 := by omega
  have hph : p / 2 ^ 32 < 2 ^ 32 := by omega
  have hA := mul32_le _ _ hvl hpl
  have hB := mul32_le _ _ hvh hpl
  have hC := mul32_le _ _ hph hvl
  have hD := mul32_le _ _ hvh hph
  have hP : v * p = v / 2 ^ 32 * (p / 2 ^ 32) * 2 ^ 64
      + (v / 2 ^ 32 * (p % 2 ^ 32) + p / 2 ^ 32 * (v % 2 ^ 32)) * 2 ^ 32
      + v % 2 ^ 32 * (p % 2 ^ 32) := by
    have e1 : v = v / 2 ^ 32 * 2 ^ 32 + v % 2 ^ 32 := (Nat.div_add_mod' v _).symm
    have e2 : p = p / 2 ^ 32 * 2 ^ 32 + p % 2 ^ 32 := (Nat.div_add_mod' p _).symm
    generalize v / 2 ^ 32 = vh at e1 ⊢
    generalize v % 2 ^ 32 = vl at e1 ⊢
    generalize p / 2 ^ 32 = ph at e2 ⊢
    generalize p % 2 ^ 32 = pl at e2 ⊢
    subst e1 e2
    ring
  unfold mux64Portable muxSpec add_with_carry
  simp only [Nat.shiftRight_eq_div_pow, Nat.shiftLeft_eq]
  have u1 : u32 v = v % 2 ^ 32 := rfl
  have u2 : u32 p = p % 2 ^ 32 := rfl
  rw [u1, u2, mul_32x32_64_eq _ _ hvl hpl, mul_32x32_64_eq _ _ hvh hpl,
    mul_32x32_64_eq _ _ hph hvl, mul_32x32_64_eq _ _ hvh hph]
  generalize v % 2 ^ 32 * (p % 2 ^ 32) = A at hA hP ⊢
  generalize v / 2 ^ 32 * (p % 2 ^ 32) = B at hB hP ⊢
  generalize p / 2 ^ 32 * (v % 2 ^ 32) = C at hC hP ⊢
  generalize v / 2 ^ 32 * (p / 2 ^ 32) = D at hD hP ⊢
  generalize v * p = P at hP ⊢
  clear hvl hpl hvh hph u1 u2 hv hp
  obtain ⟨h1, h2, h3⟩ := hi_lo A B C D P hA hB hC hD hP
  have ex : u64 (B * 2 ^ 32) = B % 2 ^ 32 * 2 ^ 32 := by unfold u64; omega
  have ey : u64 (C * 2 ^ 32) = C % 2 ^ 32 * 2 ^ 32 := by unfold u64; omega
  rw [ex, ey]
  have hx : B % 2 ^ 32 * 2 ^ 32 < 2 ^ 64 := by omega
  have hy : C % 2 ^ 32 * 2 ^ 32 < 2 ^ 64 := by omega
  have hA' : A < 2 ^ 64 := by omega
  generalize B % 2 ^ 32 * 2 ^ 32 = x at h1 h2 hx ⊢
  generalize C % 2 ^ 32 * 2 ^ 32 = y at h1 h2 hy ⊢
  clear ex ey hP hA hB hC hD
  cases swap
  · obtain ⟨c1, c2⟩ := carry_sum A x y hA' hx hy
    simp only [Bool.false_eq_true, if_false, u64]
    generalize (if (A + x) % 2 ^ 64 < x then 1 else 0) = cx at c1 ⊢
    generalize (if ((A + x) % 2 ^ 64 + y) % 2 ^ 64 < y then 1 else 0) = cy at c1 ⊢
    have hh : ((((D + B / 2 ^ 32) % 2 ^ 64 + C / 2 ^ 32) % 2 ^ 64 + cx) % 2 ^ 64 + cy) % 2 ^ 64
        = P / 2 ^ 64 := by
      clear c2 h2 hA' hx hy
      omega
    rw [hh, c2, h2, Nat.xor_comm]
  · obtain ⟨c1, c2⟩ := carry_sum A y x hA' hy hx
    simp only [if_true, u64]
    have h2' : (A + y + x) % 2 ^ 64 = P % 2 ^ 64 := by rw [← h2]; congr 1; omega
    have h1' : D + B / 2 ^ 32 + C / 2 ^ 32 + (A + y + x) / 2 ^ 64 = P / 2 ^ 64 := by
      rw [← h1]; congr 2; omega
    generalize (if (A + y) % 2 ^ 64 < y then 1 else 0) = cy at c1 ⊢
    generalize (if ((A + y) % 2 ^ 64 + x) % 2 ^ 64 < x then 1 else 0) = cx at c1 ⊢
    have hh : ((((D + B / 2 ^ 32) % 2 ^ 64 + C / 2 ^ 32) % 2 ^ 64 + cx) % 2 ^ 64 + cy) % 2 ^ 64
        = P / 2 ^ 64 := by
      clear c2 h2 h2' h1 hA' hx hy
      omega
    rw [hh, c2, h2', Nat.xor_comm]

theorem mux64Wide_eq (v p : Nat) (hv : v < 2 ^ 64) (hp : p < 2 ^ 64) :
    mux64Wide v p = muxSpec v p := by
  have hlt : v * p < 2 ^ 128 := by
    have h1 : v * p ≤ (2 ^ 64 - 1) * (2 ^ 64 - 1) := Nat.mul_le_mul (by omega) (by omega)
    norm_num at h1 ⊢
    omega
  unfold mux64Wide muxSpec u64
  simp only [Nat.mod_eq_of_lt hlt, xor_mod_two_pow, Nat.shiftRight_eq_div_pow]
  congr 1
  apply Nat.mod_eq_of_lt
  omega

/-- Every compiled form of `mux64` is the xor of the two halves of the exact
128-bit product. -/
theorem mux64_eq (T : Target) (v p : Nat) (hv : v < 2 ^ 64) (hp : p < 2 ^ 64) :
    mux64 T v p = muxSpec v p := by
  unfold mux64
  split
  · exact mux64Wide_eq v p hv hp
  · exact mux64Portable_eq _ v p hv hp


/-! ## The tail stage and the finalizer -/

theorem rot64_lt (v s : Nat) (hv : v < 2 ^ 64) : rot64 v s < 2 ^ 64 := by
  unfold rot64
  apply Nat.or_lt_two_pow
  · rw [Nat.shiftRight_eq_div_pow]
    exact Nat.lt_of_le_of_lt (Nat.div_le_self _ _) hv
  · exact u64_lt _

theorem p1_lt : p1 < 2 ^ 64 := by unfold p1; norm_num
theorem p2_lt : p2 < 2 ^ 64 := by unfold p2; norm_num
theorem p3_lt : p3 < 2 ^ 64 := by unfold p3; norm_num
theorem p4_lt : p4 < 2 ^ 64 := by unfold p4; norm_num

theorem fetch64_le64 (T : Target) (mem : List Byte) (off : Nat) (h : off + 8 ≤ mem.length) :
    fetch64 T mem off = some (le64 mem off) := fetch64_eq T mem off h

theorem tailCase0_eq (T : Target) (a b : Nat) : tailCase0 T a b = digestSpec a b := by
  unfold tailCase0 digestSpec
  rw [mux64_eq T _ _ (rot64_lt _ _ (u64_lt _)) p4_lt]
  rfl

theorem tailCase1_eq (T : Target) (src : List Byte) (v n a b : Nat) (hn : 1 ≤ n)
    (h : v + ((n - 1) % 8 + 1) ≤ src.length) :
    tailCase1 T src v n a b
      = some (digestSpec (u64 (a + muxSpec (leValue (slice src v ((n - 1) % 8 + 1))) p1)) b) := by
  unfold tailCase1
  rw [tail64_eq T src v n hn h, Option.map_some', tailCase0_eq,
    mux64_eq T _ _ (leValue_slice_lt _ _ _ (tail_count_le n)) p1_lt]

theorem tailCase9_eq (T : Target) (src : List Byte) (v n a b : Nat) (hn : 1 ≤ n)
    (h : v + 8 + ((n - 1) % 8 + 1) ≤ src.length) :
    tailCase9 T src v n a b
      = some (digestSpec (u64 (a + muxSpec (leValue (slice src (v + 8) ((n - 1) % 8 + 1))) p1))
          (u64 (b + muxSpec (le64 src v) p2))) := by
  unfold tailCase9
  rw [fetch64_le64 T src v (by omega), Option.some_bind, tailCase1_eq T src (v + 8) n _ _ hn h,
    mux64_eq T _ _ (le64_lt src v) p2_lt]

theorem tailCase17_eq (T : Target) (src : List Byte) (v n a b : Nat) (hn : 1 ≤ n)
    (h : v + 16 + ((n - 1) % 8 + 1) ≤ src.length) :
    tailCase17 T src v n a b
      = some (digestSpec
          (u64 (u64 (a + muxSpec (le64 src v) p3)
            + muxSpec (leValue (slice src (v + 16) ((n - 1) % 8 + 1))) p1))
          (u64 (b + muxSpec (le64 src (v + 8)) p2))) := by
  unfold tailCase17
  rw [fetch64_le64 T src v (by omega), Option.some_bind,
    tailCase9_eq T src (v + 8) n _ _ hn (by omega), mux64_eq T _ _ (le64_lt src v) p3_lt]

theorem tailDefault_eq (T : Target) (src : List Byte) (v n a b : Nat) (hn : 1 ≤ n)
    (h : v + 24 + ((n - 1) % 8 + 1) ≤ src.length) :
    tailDefault T src v n a b
      = some (digestSpec
          (u64 (u64 (a + muxSpec (le64 src (v + 8)) p3)
            + muxSpec (leValue (slice src (v + 24) ((n - 1) % 8 + 1))) p1))
          (u64 (u64 (b + muxSpec (le64 src v) p4) + muxSpec (le64 src (v + 16)) p2))) := by
  unfold tailDefault
  rw [fetch64_le64 T src v (by omega), Option.some_bind,
    tailCase17_eq T src (v + 8) n _ _ hn (by omega), mux64_eq T _ _ (le64_lt src v) p4_lt]

theorem le64_slice (mem : List Byte) (off n pos : Nat) (h : pos + 8 ≤ n) :
    le64 (slice mem off n) pos = le64 mem (off + pos) := by
  unfold le64
  rw [slice_slice mem off n pos 8 h]

/-- The switch computes the guarded stages on the `n` bytes it is given. -/
theorem tailSwitch_eq (T : Target) (src : List Byte) (v n a b : Nat) (hn : n ≤ 32)
    (h : v + n ≤ src.length) :
    tailSwitch T src v n a b = some (tailSpec (slice src v n) n a b) := by
  have hc : (n - 1) % 8 + 1 ≤ 8 := tail_count_le n
  unfold tailSwitch tailSpec guardedStages stage1 stage9 stage17 stage25
  by_cases h0 : n = 0
  · subst h0
    simp [tailCase0_eq]
  by_cases h8 : n ≤ 8
  · have e : (n - 1) % 8 + 1 = n := by omega
    rw [if_neg h0, if_pos ⟨by omega, h8⟩, tailCase1_eq T src v n a b (by omega) (by omega)]
    simp only [ge_iff_le, show ¬ 25 ≤ n from by omega, show ¬ 17 ≤ n from by omega,
      show ¬ 9 ≤ n from by omega, show 1 ≤ n from by omega, if_true, if_false]
    rw [slice_slice src v n 0 _ (by omega)]
    rfl
  by_cases h16 : n ≤ 16
  · have e : (n - 1) % 8 + 1 = n - 8 := by omega
    rw [if_neg h0, if_neg (by omega), if_pos ⟨by omega, h16⟩,
      tailCase9_eq T src v n a b (by omega) (by omega)]
    simp only [ge_iff_le, show ¬ 25 ≤ n from by omega, show ¬ 17 ≤ n from by omega,
      show 9 ≤ n from by omega, show 1 ≤ n from by omega, if_true, if_false]
    rw [le64_slice src v n 0 (by omega), slice_slice src v n (0 + 8) _ (by omega)]
    rfl
  by_cases h24 : n ≤ 24
  · have e : (n - 1) % 8 + 1 = n - 16 := by omega
    rw [if_neg h0, if_neg (by omega), if_neg (by omega), if_pos ⟨by omega, h24⟩,
      tailCase17_eq T src v n a b (by omega) (by omega)]
    simp only [ge_iff_le, show ¬ 25 ≤ n from by omega, show 17 ≤ n from by omega,
      show 9 ≤ n from by omega, show 1 ≤ n from by omega, if_true, if_false]
    rw [le64_slice src v n 0 (by omega), le64_slice src v n (0 + 8) (by omega),
      slice_slice src v n (0 + 8 + 8) _ (by omega)]
    rfl
  · have e : (n - 1) % 8 + 1 = n - 24 := by omega
    rw [if_neg h0, if_neg (by omega), if_neg (by omega), if_neg (by omega),
      tailDefault_eq T src v n a b (by omega) (by omega)]
    simp only [ge_iff_le, show 25 ≤ n from by omega, show 17 ≤ n from by omega,
      show 9 ≤ n from by omega, show 1 ≤ n from by omega, if_true, if_false]
    rw [le64_slice src v n 0 (by omega), le64_slice src v n (0 + 8) (by omega),
      le64_slice src v n (0 + 8 + 8) (by omega), slice_slice src v n (0 + 8 + 8 + 8) _ (by omega)]
    rfl

theorem memcpy_eq (dst src : List Byte) (off n : Nat) (h : off + n ≤ src.length) :
    memcpy dst src off n = some (slice src off n ++ dst.drop n) := by
  simp [memcpy, readBytes_eq src off n h]

/-- Lines 342-378 with or without the copy into `align`. -/
theorem tailStage_eq (T : Target) (needAlign : Bool) (mem align : List Byte)
    (data n a b : Nat) (hn : n ≤ 32) (h : data + n ≤ mem.length) :
    tailStage T needAlign mem align data n a b = some (tailSpec (slice mem data n) n a b) := by
  unfold tailStage
  split
  · have hl : (slice mem data n).length = n := slice_length mem data n h
    rw [memcpy_eq align mem data n h, Option.some_bind,
      tailSwitch_eq T _ 0 n a b hn (by simp [hl]),
      slice_append_left _ _ 0 n (by omega), slice_slice mem data n 0 n (by omega)]
    rfl
  · exact tailSwitch_eq T mem data n a b hn h


/-! ## The block loop -/

theorem le64_append_left (xs ys : List Byte) (pos : Nat) (h : pos + 8 ≤ xs.length) :
    le64 (xs ++ ys) pos = le64 xs pos := by
  unfold le64
  rw [slice_append_left xs ys pos 8 h]

theorem le64_take (mem : List Byte) (len off : Nat) (h : off + 8 ≤ len) :
    le64 (mem.take len) off = le64 mem off := by
  rw [← slice_zero_eq_take, le64_slice mem 0 len off h, Nat.zero_add]

/-- One iteration of the loop body performs steps 1-6 of section 4.3 on the
block at the read pointer and advances the pointer by 32. -/
theorem blockBody_val (T : Target) (needAlign : Bool) (mem : List Byte) (st : LoopState)
    (h : st.data + 32 ≤ mem.length) :
    blockBody T needAlign mem st = some
      { a := (blockSpec (le64 mem st.data) (le64 mem (st.data + 8))
          (le64 mem (st.data + 16)) (le64 mem (st.data + 24)) st.lanes).a
        b := (blockSpec (le64 mem st.data) (le64 mem (st.data + 8))
          (le64 mem (st.data + 16)) (le64 mem (st.data + 24)) st.lanes).b
        c := (blockSpec (le64 mem st.data) (le64 mem (st.data + 8))
          (le64 mem (st.data + 16)) (le64 mem (st.data + 24)) st.lanes).c
        d := (blockSpec (le64 mem st.data) (le64 mem (st.data + 8))
          (le64 mem (st.data + 16)) (le64 mem (st.data + 24)) st.lanes).d
        data := st.data + 32
        align := if needAlign then slice mem st.data 32 ++ st.align.drop 32 else st.align
        iters := st.iters + 1 } := by
  cases needAlign
  · unfold blockBody
    simp only [Bool.false_eq_true, if_false, Option.some_bind]
    rw [fetch64_le64 T mem (st.data + 0) (by omega), Option.some_bind,
      fetch64_le64 T mem (st.data + 8) (by omega), Option.some_bind,
      fetch64_le64 T mem (st.data + 16) (by omega), Option.some_bind,
      fetch64_le64 T mem (st.data + 24) (by omega), Option.some_bind]
    rfl
  · have hl : (slice mem st.data 32).length = 32 := slice_length mem st.data 32 h
    have hl2 : ∀ i, i + 8 ≤ 32 →
        i + 8 ≤ (slice mem st.data 32 ++ st.align.drop 32).length := by
      intro i hi
      rw [List.length_append, hl]
      omega
    have hw : ∀ i, i + 8 ≤ 32 →
        le64 (slice mem st.data 32 ++ st.align.drop 32) i = le64 mem (st.data + i) := by
      intro i hi
      rw [le64_append_left _ _ i (by omega), le64_slice mem st.data 32 i hi]
    unfold blockBody
    simp only [if_true]
    rw [memcpy_eq st.align mem st.data 32 h, Option.some_bind,
      fetch64_le64 T _ (0 + 0) (hl2 _ (by omega)), Option.some_bind,
      fetch64_le64 T _ (0 + 8) (hl2 _ (by omega)), Option.some_bind,
      fetch64_le64 T _ (0 + 16) (hl2 _ (by omega)), Option.some_bind,
      fetch64_le64 T _ (0 + 24) (hl2 _ (by omega)), Option.some_bind,
      hw (0 + 0) (by omega), hw (0 + 8) (by omega), hw (0 + 16) (by omega),
      hw (0 + 24) (by omega)]
    rfl

theorem blockBody_eq (T : Target) (needAlign : Bool) (mem : List Byte) (st : LoopState)
    (h : st.data + 32 ≤ mem.length) :
    ∃ st1, blockBody T needAlign mem st = some st1
      ∧ st1.lanes = blockSpec (le64 mem st.data) (le64 mem (st.data + 8))
          (le64 mem (st.data + 16)) (le64 mem (st.data + 24)) st.lanes
      ∧ st1.data = st.data + 32 ∧ st1.iters = st.iters + 1 :=
  ⟨_, blockBody_val T needAlign mem st h, rfl, rfl, rfl⟩

/-- The loop invariant: started on block `j` with `m + 1` full blocks left
before the end, the loop runs `m + 1` more times and stops. -/
theorem blockLoop_eq (T : Target) (needAlign : Bool) (mem : List Byte) (len : Nat)
    (init : Lanes) (hlen : len ≤ mem.length) :
    ∀ (m j fuel : Nat) (st : LoopState), st.data = 32 * j → 32 * (j + m + 1) ≤ len →
      len < 32 * (j + m + 2) → m < fuel → st.lanes = blocksSpec mem j init →
      ∃ st1, blockLoop T needAlign mem (len - 31) fuel st = some st1
        ∧ st1.data = 32 * (j + m + 1) ∧ st1.lanes = blocksSpec mem (j + m + 1) init
        ∧ st1.iters = st.iters + (m + 1) := by
  intro m
  induction m with
  | zero =>
    intro j fuel st hd h1 h2 hf hl
    obtain ⟨st1, hb, hl1, hd1, hi1⟩ := blockBody_eq T needAlign mem st (by omega)
    obtain ⟨f, rfl⟩ : ∃ f, fuel = f + 1 := ⟨fuel - 1, by omega⟩
    refine ⟨st1, ?_, by omega, ?_, by omega⟩
    · simp only [blockLoop, hb]
      rw [if_neg (by omega)]
    · rw [hl1, hl, hd]
      rfl
  | succ m ih =>
    intro j fuel st hd h1 h2 hf hl
    obtain ⟨st1, hb, hl1, hd1, hi1⟩ := blockBody_eq T needAlign mem st (by omega)
    obtain ⟨f, rfl⟩ : ∃ f, fuel = f + 1 := ⟨fuel - 1, by omega⟩
    have hl1' : st1.lanes = blocksSpec mem (j + 1) init := by
      rw [hl1, hl, hd]
      rfl
    obtain ⟨st2, hr, hd2, hl2, hi2⟩ :=
      ih (j + 1) f st1 (by omega) (by omega) (by omega) (by omega) hl1'
    refine ⟨st2, ?_, by omega, ?_, by omega⟩
    · simp only [blockLoop, hb]
      rw [if_pos (by omega)]
      exact hr
    · rw [hl2]
      congr 1
      omega

theorem blocksSpec_take (mem : List Byte) (len : Nat) (s : Lanes) :
    ∀ k, 32 * k ≤ len → blocksSpec (mem.take len) k s = blocksSpec mem k s := by
  intro k
  induction k with
  | zero => intro _; rfl
  | succ k ih =>
    intro h
    simp only [blocksSpec]
    rw [ih (by omega), le64_take mem len _ (by omega), le64_take mem len _ (by omega),
      le64_take mem len _ (by omega), le64_take mem len _ (by omega)]

/-! ## The hash against its specification -/

/-- Inputs longer than 32 bytes. -/
theorem t1ha_long (T : Target) (addr : Nat) (align mem : List Byte) (len seed : Nat)
    (hlen : 32 < len) (hmem : len ≤ mem.length) :
    ∃ st, blockLoop T ((addr &&& 7 != 0) && !T.unalignedOk) mem (len - 31) len
        { a := seed, b := len, c := u64 (rot64 len s1 + seed), d := len ^^^ rot64 seed s1,
          data := 0, align := align, iters := 0 } = some st
      ∧ st.iters = len / 32 ∧ st.data = 32 * (len / 32)
      ∧ t1ha T addr align mem len seed = some (longSpec (mem.take len) len seed) := by
  obtain ⟨st, hloop, hd, hl, hi⟩ := blockLoop_eq T ((addr &&& 7 != 0) && !T.unalignedOk) mem len
    (initLanes len seed) hmem (len / 32 - 1) 0 len
    { a := seed, b := len, c := u64 (rot64 len s1 + seed), d := len ^^^ rot64 seed s1,
      data := 0, align := align, iters := 0 } rfl (by omega) (by omega) (by omega) rfl
  have hk : 0 + (len / 32 - 1) + 1 = len / 32 := by omega
  rw [hk] at hd hl
  refine ⟨st, hloop, by simp only [hi]; omega, hd, ?_⟩
  unfold t1ha
  simp only [gt_iff_lt, hlen, if_true, hloop]
  rw [and_thirtyone, hd, tailStage_eq T _ mem st.align _ _ _ _ (by omega) (by omega)]
  unfold longSpec
  rw [blocksSpec_take mem len _ _ (by omega), ← slice_zero_eq_take,
    slice_slice mem 0 len _ _ (by omega), Nat.zero_add, ← hl]
  rfl

theorem t1ha_long_digest (T : Target) (addr : Nat) (align mem : List Byte) (len seed : Nat)
    (hlen : 32 < len) (hmem : len ≤ mem.length) :
    t1ha T addr align mem len seed = some (longSpec (mem.take len) len seed) := by
  obtain ⟨_, _, _, _, h⟩ := t1ha_long T addr align mem len seed hlen hmem
  exact h

/-- Inputs of at most 32 bytes. -/
theorem t1ha_short (T : Target) (addr : Nat) (align mem : List Byte) (len seed : Nat)
    (hlen : len ≤ 32) (hmem : len ≤ mem.length) :
    t1ha T addr align mem len seed = some (shortSpec (mem.take len) len seed) := by
  unfold t1ha
  simp only [gt_iff_lt, show ¬ 32 < len from by omega, if_false]
  rw [tailStage_eq T _ mem align 0 len _ _ hlen (by omega), slice_zero_eq_take]
  rfl

/-- On every target, for every alignment of the pointer and every content of the
scratch array, the hash of a readable input is the digest of the specification. -/
theorem t1ha_eq_spec (T : Target) (addr : Nat) (align mem : List Byte) (len seed : Nat)
    (hmem : len ≤ mem.length) :
    t1ha T addr align mem len seed = some (t1haSpec (mem.take len) len seed) := by
  unfold t1haSpec
  by_cases h : 32 < len
  · rw [if_pos h]
    exact t1ha_long_digest T addr align mem len seed h hmem
  · rw [if_neg h]
    exact t1ha_short T addr align mem len seed (by omega) hmem


/-! ## The scratch array -/

theorem memcpyScratch_eq (poison : Bool) (dst src : List Byte) (off n : Nat)
    (h : off + n ≤ src.length) :
    memcpyScratch poison dst src off n
      = some (slice src off n ++ (if poison then [] else dst.drop n)) := by
  unfold memcpyScratch
  cases poison
  · simp only [Bool.false_eq_true, if_false]
    exact memcpy_eq dst src off n h
  · simp only [if_true, List.append_nil]
    exact readBytes_eq src off n h

theorem blockBodyScratch_false (T : Target) (needAlign : Bool) (mem : List Byte)
    (st : LoopState) :
    blockBodyScratch false T needAlign mem st = blockBody T needAlign mem st := by
  unfold blockBodyScratch blockBody memcpyScratch
  simp only [Bool.false_eq_true, if_false]

theorem blockLoopScratch_false (T : Target) (needAlign : Bool) (mem : List Byte) (detent : Nat) :
    ∀ (fuel : Nat) (st : LoopState),
      blockLoopScratch false T needAlign mem detent fuel st
        = blockLoop T needAlign mem detent fuel st := by
  intro fuel
  induction fuel with
  | zero => intro st; rfl
  | succ f ih =>
    intro st
    simp only [blockLoopScratch, blockLoop, blockBodyScratch_false]
    cases blockBody T needAlign mem st with
    | none => rfl
    | some st1 =>
      simp only [ih]

theorem tailStageScratch_false (T : Target) (needAlign : Bool) (mem align : List Byte)
    (data len a b : Nat) :
    tailStageScratch false T needAlign mem align data len a b
      = tailStage T needAlign mem align data len a b := by
  unfold tailStageScratch tailStage memcpyScratch
  simp only [Bool.false_eq_true, if_false]

/-- Without poisoning, the hash over `memcpyScratch` is `t1ha`, on every input
(readable or not). -/
theorem t1haScratch_false (T : Target) (addr : Nat) (align mem : List Byte) (len seed : Nat) :
    t1haScratch false T addr align mem len seed = t1ha T addr align mem len seed := by
  unfold t1haScratch t1ha
  simp only [blockLoopScratch_false, tailStageScratch_false]

theorem blockBodyScratch_val (poison : Bool) (T : Target) (needAlign : Bool) (mem : List Byte)
    (st : LoopState) (h : st.data + 32 ≤ mem.length) :
    blockBodyScratch poison T needAlign mem st = some
      { a := (blockSpec (le64 mem st.data) (le64 mem (st.data + 8))
          (le64 mem (st.data + 16)) (le64 mem (st.data + 24)) st.lanes).a
        b := (blockSpec (le64 mem st.data) (le64 mem (st.data + 8))
          (le64 mem (st.data + 16)) (le64 mem (st.data + 24)) st.lanes).b
        c := (blockSpec (le64 mem st.data) (le64 mem (st.data + 8))
          (le64 mem (st.data + 16)) (le64 mem (st.data + 24)) st.lanes).c
        d := (blockSpec (le64 mem st.data) (le64 mem (st.data + 8))
          (le64 mem (st.data + 16)) (le64 mem (st.data + 24)) st.lanes).d
        data := st.data + 32
        align := if needAlign then
            slice mem st.data 32 ++ (if poison then [] else st.align.drop 32)
          else st.align
        iters := st.iters + 1 } := by
  cases needAlign
  · unfold blockBodyScratch
    simp only [Bool.false_eq_true, if_false, Option.some_bind]
    rw [fetch64_le64 T mem (st.data + 0) (by omega), Option.some_bind,
      fetch64_le64 T mem (st.data + 8) (by omega), Option.some_bind,
      fetch64_le64 T mem (st.data + 16) (by omega), Option.some_bind,
      fetch64_le64 T mem (st.data + 24) (by omega), Option.some_bind]
    rfl
  · have hl : (slice mem st.data 32).length = 32 := slice_length mem st.data 32 h
    have hl2 : ∀ (rest : List Byte) (i : Nat), i + 8 ≤ 32 →
        i + 8 ≤ (slice mem st.data 32 ++ rest).length := by
      intro rest i hi
      rw [List.length_append, hl]
      omega
    have hw : ∀ (rest : List Byte) (i : Nat), i + 8 ≤ 32 →
        le64 (slice mem st.data 32 ++ rest) i = le64 mem (st.data + i) := by
      intro rest i hi
      rw [le64_append_left _ _ i (by omega), le64_slice mem st.data 32 i hi]
    unfold blockBodyScratch
    simp only [if_true]
    rw [memcpyScratch_eq poison st.align mem st.data 32 h, Option.some_bind,
      fetch64_le64 T _ (0 + 0) (hl2 _ _ (by omega)), Option.some_bind,
      fetch64_le64 T _ (0 + 8) (hl2 _ _ (by omega)), Option.some_bind,
      fetch64_le64 T _ (0 + 16) (hl2 _ _ (by omega)), Option.some_bind,
      fetch64_le64 T _ (0 + 24) (hl2 _ _ (by omega)), Option.some_bind,
      hw _ (0 + 0) (by omega), hw _ (0 + 8) (by omega), hw _ (0 + 16) (by omega),
      hw _ (0 + 24) (by omega)]
    rfl

theorem blockBodyScratch_eq (poison : Bool) (T : Target) (needAlign : Bool) (mem : List Byte)
    (st : LoopState) (h : st.data + 32 ≤ mem.length) :
    ∃ st1, blockBodyScratch poison T needAlign mem st = some st1
      ∧ st1.lanes = blockSpec (le64 mem st.data) (le64 mem (st.data + 8))
          (le64 mem (st.data + 16)) (le64 mem (st.data + 24)) st.lanes
      ∧ st1.data = st.data + 32 ∧ st1.iters = st.iters + 1 :=
  ⟨_, blockBodyScratch_val poison T needAlign mem st h, rfl, rfl, rfl⟩

theorem blockLoopScratch_eq (poison : Bool) (T : Target) (needAlign : Bool) (mem : List Byte)
    (len : Nat) (init : Lanes) (hlen : len ≤ mem.length) :
    ∀ (m j fuel : Nat) (st : LoopState), st.data = 32 * j → 32 * (j + m + 1) ≤ len →
      len < 32 * (j + m + 2) → m < fuel → st.lanes = blocksSpec mem j init →
      ∃ st1, blockLoopScratch poison T needAlign mem (len - 31) fuel st = some st1
        ∧ st1.data = 32 * (j + m + 1) ∧ st1.lanes = blocksSpec mem (j + m + 1) init
        ∧ st1.iters = st.iters + (m + 1) := by
  intro m
  induction m with
  | zero =>
    intro j fuel st hd h1 h2 hf hl
    obtain ⟨st1, hb, hl1, hd1, hi1⟩ := blockBodyScratch_eq poison T needAlign mem st (by omega)
    obtain ⟨f, rfl⟩ : ∃ f, fuel = f + 1 := ⟨fuel - 1, by omega⟩
    refine ⟨st1, ?_, by omega, ?_, by omega⟩
    · simp only [blockLoopScratch, hb]
      rw [if_neg (by omega)]
    · rw [hl1, hl, hd]
      rfl
  | succ m ih =>
    intro j fuel st hd h1 h2 hf hl
    obtain ⟨st1, hb, hl1, hd1, hi1⟩ := blockBodyScratch_eq poison T needAlign mem st (by omega)
    obtain ⟨f, rfl⟩ : ∃ f, fuel = f + 1 := ⟨fuel - 1, by omega⟩
    have hl1' : st1.lanes = blocksSpec mem (j + 1) init := by
      rw [hl1, hl, hd]
      rfl
    obtain ⟨st2, hr, hd2, hl2, hi2⟩ :=
      ih (j + 1) f st1 (by omega) (by omega) (by omega) (by omega) hl1'
    refine ⟨st2, ?_, by omega, ?_, by omega⟩
    · simp only [blockLoopScratch, hb]
      rw [if_pos (by omega)]
      exact hr
    · rw [hl2]
      congr 1
      omega

theorem tailStageScratch_eq (poison : Bool) (T : Target) (needAlign : Bool)
    (mem align : List Byte) (data n a b : Nat) (hn : n ≤ 32) (h : data + n ≤ mem.length) :
    tailStageScratch poison T needAlign mem align data n a b
      = some (tailSpec (slice mem data n) n a b) := by
  unfold tailStageScratch
  split
  · have hl : (slice mem data n).length = n := slice_length mem data n h
    rw [memcpyScratch_eq poison align mem data n h, Option.some_bind,
      tailSwitch_eq T _ 0 n a b hn (by simp [hl]),
      slice_append_left _ _ 0 n (by omega), slice_slice mem data n 0 n (by omega)]
    rfl
  · exact tailSwitch_eq T mem data n a b hn h

/-- With or without poisoning, the hash over `memcpyScratch` returns the digest
of the specification on a readable input. -/
theorem t1haScratch_eq_spec (poison : Bool) (T : Target) (addr : Nat) (align mem : List Byte)
    (len seed : Nat) (hmem : len ≤ mem.length) :
    t1haScratch poison T addr align mem len seed = some (t1haSpec (mem.take len) len seed) := by
  unfold t1haSpec
  by_cases hlen : 32 < len
  · rw [if_pos hlen]
    obtain ⟨st, hloop, hd, hl, _⟩ := blockLoopScratch_eq poison T
      ((addr &&& 7 != 0) && !T.unalignedOk) mem len
      (initLanes len seed) hmem (len / 32 - 1) 0 len
      { a := seed, b := len, c := u64 (rot64 len s1 + seed), d := len ^^^ rot64 seed s1,
        data := 0, align := align, iters := 0 } rfl (by omega) (by omega) (by omega) rfl
    have hk : 0 + (len / 32 - 1) + 1 = len / 32 := by omega
    rw [hk] at hd hl
    unfold t1haScratch
    simp only [gt_iff_lt, hlen, if_true, hloop]
    rw [and_thirtyone, hd,
      tailStageScratch_eq poison T _ mem st.align _ _ _ _ (by omega) (by omega)]
    unfold longSpec
    rw [blocksSpec_take mem len _ _ (by omega), ← slice_zero_eq_take,
      slice_slice mem 0 len _ _ (by omega), Nat.zero_add, ← hl]
    rfl
  · rw [if_neg hlen]
    unfold t1haScratch
    simp only [gt_iff_lt, hlen, if_false]
    rw [tailStageScratch_eq poison T _ mem align 0 len _ _ (by omega) (by omega),
      slice_zero_eq_take]
    rfl

/-! ## Consequences used by the properties below -/

theorem tail64Fast_eq (T : Target) (mem : List Byte) (p n : Nat) (h1 : 1 ≤ n) (h8 : n ≤ 8)
    (h : p + n ≤ mem.length) : tail64Fast T mem p n = some (leValue (slice mem p n)) := by
  interval_cases n
  · exact tail64Fast_res1 T mem p 1 rfl h
  · exact tail64Fast_res2 T mem p 2 rfl h
  · exact tail64Fast_res3 T mem p 3 rfl h
  · exact tail64Fast_res4 T mem p 4 rfl h
  · exact tail64Fast_res5 T mem p 5 rfl h
  · exact tail64Fast_res6 T mem p 6 rfl h
  · exact tail64Fast_res7 T mem p 7 rfl h
  · exact tail64Fast_res0 T mem p 8 rfl h

theorem tail64Bytes_eq (mem : List Byte) (p n : Nat) (h1 : 1 ≤ n) (h8 : n ≤ 8)
    (h : p + n ≤ mem.length) : tail64Bytes mem p n = some (leValue (slice mem p n)) := by
  interval_cases n
  · exact tail64Bytes_res1 mem p 1 rfl h
  · exact tail64Bytes_res2 mem p 2 rfl h
  · exact tail64Bytes_res3 mem p 3 rfl h
  · exact tail64Bytes_res4 mem p 4 rfl h
  · exact tail64Bytes_res5 mem p 5 rfl h
  · exact tail64Bytes_res6 mem p 6 rfl h
  · exact tail64Bytes_res7 mem p 7 rfl h
  · exact tail64Bytes_res0 mem p 8 rfl h

theorem slice_take_self (mem : List Byte) (n : Nat) : slice (mem.take n) 0 n = slice mem 0 n := by
  rw [slice_zero_eq_take, slice_zero_eq_take, List.take_take, Nat.min_self]

theorem tail64Fast_take (T : Target) (mem : List Byte) (n : Nat) (h1 : 1 ≤ n) (h8 : n ≤ 8) :
    tail64Fast T mem 0 n = tail64Fast T (mem.take n) 0 n := by
  by_cases h : n ≤ mem.length
  · rw [tail64Fast_eq T mem 0 n h1 h8 (by omega),
      tail64Fast_eq T (mem.take n) 0 n h1 h8 (by simp; omega), slice_take_self]
  · rw [List.take_of_length_le (by omega)]

theorem tail64Bytes_take (mem : List Byte) (n : Nat) (h1 : 1 ≤ n) (h8 : n ≤ 8) :
    tail64Bytes mem 0 n = tail64Bytes (mem.take n) 0 n := by
  by_cases h : n ≤ mem.length
  · rw [tail64Bytes_eq mem 0 n h1 h8 (by omega),
      tail64Bytes_eq (mem.take n) 0 n h1 h8 (by simp; omega), slice_take_self]
  · rw [List.take_of_length_le (by omega)]

theorem length_eq_two (bs : List Byte) (h : bs.length = 2) : ∃ b0 b1, bs = [b0, b1] := by
  match bs, h with
  | [b0, b1], _ => exact ⟨b0, b1, rfl⟩

theorem length_eq_four (bs : List Byte) (h : bs.length = 4) :
    ∃ b0 b1 b2 b3, bs = [b0, b1, b2, b3] := by
  match bs, h with
  | [b0, b1, b2, b3], _ => exact ⟨b0, b1, b2, b3, rfl⟩

theorem length_eq_eight (bs : List Byte) (h : bs.length = 8) :
    ∃ b0 b1 b2 b3 b4 b5 b6 b7, bs = [b0, b1, b2, b3, b4, b5, b6, b7] := by
  match bs, h with
  | [b0, b1, b2, b3, b4, b5, b6, b7], _ => exact ⟨b0, b1, b2, b3, b4, b5, b6, b7, rfl⟩

theorem bswap64_reverse (bs : List Byte) (h : bs.length = 8) :
    bswap64 (leValue bs) = leValue bs.reverse := by
  obtain ⟨b0, b1, b2, b3, b4, b5, b6, b7, rfl⟩ := length_eq_eight bs h
  have e := bswap64_bytes b0.val b1.val b2.val b3.val b4.val b5.val b6.val b7.val
    b0.isLt b1.isLt b2.isLt b3.isLt b4.isLt b5.isLt b6.isLt b7.isLt
  simpa [leValue] using e

theorem bswap32_reverse (bs : List Byte) (h : bs.length = 4) :
    bswap32 (leValue bs) = leValue bs.reverse := by
  obtain ⟨b0, b1, b2, b3, rfl⟩ := length_eq_four bs h
  have e := bswap32_bytes b0.val b1.val b2.val b3.val b0.isLt b1.isLt b2.isLt b3.isLt
  simpa [leValue] using e

theorem bswap16_reverse (bs : List Byte) (h : bs.length = 2) :
    bswap16 (leValue bs) = leValue bs.reverse := by
  obtain ⟨b0, b1, rfl⟩ := length_eq_two bs h
  have e := bswap16_bytes b0.val b1.val b0.isLt b1.isLt
  simpa [leValue] using e

theorem slice_all (bs : List Byte) (n : Nat) (h : bs.length = n) : slice bs 0 n = bs := by
  rw [slice_zero_eq_take, List.take_of_length_le (by omega)]


/-! ## The properties of the specification -/

/-- C1: for every input with `len > 32` and every seed, `t1ha` returns the
finalizer applied to the tail stage run on the last `len mod 32` bytes starting
at offset `32 * k`, `k = len / 32`, from the lanes `(a', b')` obtained by running
the six block steps on the `k` consecutive 32-byte blocks from the initial lanes
`a = seed`, `b = len`, `c = rotr(len,17) + seed`, `d = len xor rotr(seed,17)` and
then folding `a' = a xor p6*(rotr(c,17)+d)`, `b' = b xor p5*(c+rotr(d,17))`.
This holds on every target, for every pointer alignment and scratch content. -/
theorem C1_long_input_digest (T : Target) (addr : Nat) (align mem : List Byte) (len seed : Nat)
    (hlen : 32 < len) (hmem : len ≤ mem.length) :
    t1ha T addr align mem len seed
      = some (tailSpec (slice (mem.take len) (32 * (len / 32)) (len % 32)) (len % 32)
          (foldA (blocksSpec (mem.take len) (len / 32) (initLanes len seed)))
          (foldB (blocksSpec (mem.take len) (len / 32) (initLanes len seed)))) :=
  t1ha_long_digest T addr align mem len seed hlen hmem

theorem C1_witness :
    32 < 70 ∧ 70 ≤ (sampleBytes 75).length ∧
    t1ha sampleTarget 3 [] (sampleBytes 75) 70 11
      = some (tailSpec (slice ((sampleBytes 75).take 70) (32 * (70 / 32)) (70 % 32)) (70 % 32)
          (foldA (blocksSpec ((sampleBytes 75).take 70) (70 / 32) (initLanes 70 11)))
          (foldB (blocksSpec ((sampleBytes 75).take 70) (70 / 32) (initLanes 70 11)))) :=
  ⟨by decide, by decide,
    C1_long_input_digest sampleTarget 3 [] (sampleBytes 75) 70 11 (by decide) (by decide)⟩

/-- C2: for every input of `n <= 32` bytes and every seed, `t1ha` (the C switch
with fallthrough) equals the ordered sequence of range-guarded stages
`n >= 25`, `n >= 17`, `n >= 9`, `n >= 1` started from `a = seed`, `b = n`,
followed by the finalizer. -/
theorem C2_switch_is_guarded_stages (T : Target) (addr : Nat) (align mem : List Byte)
    (n seed : Nat) (hn : n ≤ 32) (hmem : n ≤ mem.length) :
    t1ha T addr align mem n seed
      = some (digestSpec (guardedStages (mem.take n) n seed n).a
          (guardedStages (mem.take n) n seed n).b) :=
  t1ha_short T addr align mem n seed hn hmem

theorem C2_witness :
    20 ≤ 32 ∧ 20 ≤ (sampleBytes 20).length ∧
    t1ha sampleTarget 3 [] (sampleBytes 20) 20 11
      = some (digestSpec (guardedStages ((sampleBytes 20).take 20) 20 11 20).a
          (guardedStages ((sampleBytes 20).take 20) 20 11 20).b) :=
  ⟨by decide, by decide,
    C2_switch_is_guarded_stages sampleTarget 3 [] (sampleBytes 20) 20 11 (by decide) (by decide)⟩

/-- C3: for all 64-bit `v` and `p`, every compiled form of `mux64(v, p)` equals
`(P mod 2^64) xor (P div 2^64)` for the exact product `P = v * p`; the portable
fallback equals the 128-bit path for either evaluation order of the two
`add_with_carry` calls. -/
theorem C3_mux64_exact (T : Target) (swap : Bool) (v p : Nat) (hv : v < 2 ^ 64)
    (hp : p < 2 ^ 64) :
    mux64 T v p = (v * p) % 2 ^ 64 ^^^ (v * p) / 2 ^ 64
      ∧ mux64Portable swap v p = mux64Wide v p
      ∧ mux64Portable true v p = mux64Portable false v p :=
  ⟨mux64_eq T v p hv hp,
    (mux64Portable_eq swap v p hv hp).trans (mux64Wide_eq v p hv hp).symm,
    (mux64Portable_eq true v p hv hp).trans (mux64Portable_eq false v p hv hp).symm⟩

theorem C3_witness :
    18446744073709551615 < 2 ^ 64 ∧ p4 < 2 ^ 64 ∧
    (mux64 sampleTarget 18446744073709551615 p4
        = (18446744073709551615 * p4) % 2 ^ 64 ^^^ (18446744073709551615 * p4) / 2 ^ 64
      ∧ mux64Portable true 18446744073709551615 p4 = mux64Wide 18446744073709551615 p4
      ∧ mux64Portable true 18446744073709551615 p4
          = mux64Portable false 18446744073709551615 p4) :=
  ⟨by decide, by decide,
    C3_mux64_exact sampleTarget true 18446744073709551615 p4 (by decide) (by decide)⟩

/-- C4: for every sequence of 8, 4 or 2 bytes, `fetch64` / `fetch32` / `fetch16`
return its little-endian value on both byte-order paths (any target), and each
portable `bswap` is an exact byte reversal. -/
theorem C4_fetch_little_endian (T : Target) (b8 b4 b2 : List Byte) (h8 : b8.length = 8)
    (h4 : b4.length = 4) (h2 : b2.length = 2) :
    (fetch64 T b8 0 = some (leValue b8) ∧ bswap64 (leValue b8) = leValue b8.reverse)
      ∧ (fetch32 T b4 0 = some (leValue b4) ∧ bswap32 (leValue b4) = leValue b4.reverse)
      ∧ (fetch16 T b2 0 = some (leValue b2) ∧ bswap16 (leValue b2) = leValue b2.reverse) := by
  refine ⟨⟨?_, bswap64_reverse b8 h8⟩, ⟨?_, bswap32_reverse b4 h4⟩,
    ⟨?_, bswap16_reverse b2 h2⟩⟩
  · rw [fetch64_eq T b8 0 (by omega), slice_all b8 8 h8]
  · rw [fetch32_eq T b4 0 (by omega), slice_all b4 4 h4]
  · rw [fetch16_eq T b2 0 (by omega), slice_all b2 2 h2]

theorem C4_witness :
    (sampleBytes 8).length = 8 ∧ (sampleBytes 4).length = 4 ∧ (sampleBytes 2).length = 2 ∧
    ((fetch64 sampleTarget (sampleBytes 8) 0 = some (leValue (sampleBytes 8))
        ∧ bswap64 (leValue (sampleBytes 8)) = leValue (sampleBytes 8).reverse)
      ∧ (fetch32 sampleTarget (sampleBytes 4) 0 = some (leValue (sampleBytes 4))
        ∧ bswap32 (leValue (sampleBytes 4)) = leValue (sampleBytes 4).reverse)
      ∧ (fetch16 sampleTarget (sampleBytes 2) 0 = some (leValue (sampleBytes 2))
        ∧ bswap16 (leValue (sampleBytes 2)) = leValue (sampleBytes 2).reverse)) :=
  ⟨by decide, by decide, by decide,
    C4_fetch_little_endian sampleTarget (sampleBytes 8) (sampleBytes 4) (sampleBytes 2)
      (by decide) (by decide) (by decide)⟩

/-- C5: for `1 <= n <= 8`, `tail64(p, n)` returns `sum_{i<n} p[i] * 256^i`; both
compile-time variants of the cascade return this value; `tail = 8` is
dispatched through `case 0` (`8 & 7 = 0`) and absorbs all 8 bytes. -/
theorem C5_tail64_value (T : Target) (mem : List Byte) (p n : Nat) (h1 : 1 ≤ n) (h8 : n ≤ 8)
    (h : p + n ≤ mem.length) :
    tail64 T mem p n = some (leValue (slice mem p n))
      ∧ tail64Fast T mem p n = some (leValue (slice mem p n))
      ∧ tail64Bytes mem p n = some (leValue (slice mem p n))
      ∧ (n = 8 → n &&& 7 = 0) := by
  have e : (n - 1) % 8 + 1 = n := by omega
  have ht := tail64_eq T mem p n h1 (by omega)
  rw [e] at ht
  refine ⟨ht, tail64Fast_eq T mem p n h1 h8 h, tail64Bytes_eq mem p n h1 h8 h, ?_⟩
  intro hn
  subst hn
  rfl

theorem C5_witness :
    1 ≤ 8 ∧ 8 ≤ 8 ∧ 2 + 8 ≤ (sampleBytes 10).length ∧
    (tail64 sampleTarget (sampleBytes 10) 2 8 = some (leValue (slice (sampleBytes 10) 2 8))
      ∧ tail64Fast sampleTarget (sampleBytes 10) 2 8
          = some (leValue (slice (sampleBytes 10) 2 8))
      ∧ tail64Bytes (sampleBytes 10) 2 8 = some (leValue (slice (sampleBytes 10) 2 8))
      ∧ (8 = 8 → 8 &&& 7 = 0)) ∧
    tail64 sampleTarget (sampleBytes 10) 2 8 = some 4772465598646917137 :=
  ⟨by decide, by decide, by decide,
    C5_tail64_value sampleTarget (sampleBytes 10) 2 8 (by decide) (by decide) (by decide),
    by decide⟩

/-- C6: on a buffer holding exactly `len` bytes every load of `t1ha` (the four
64-bit loads of each block, the 64-bit loads of the tail stage, `tail64`, and
the copies into `align`) is in bounds: the hash returns a digest. -/
theorem C6_no_read_past_len (T : Target) (addr : Nat) (align mem : List Byte) (len seed : Nat)
    (hmem : mem.length = len) :
    ∃ digest, t1ha T addr align mem len seed = some digest :=
  ⟨_, t1ha_eq_spec T addr align mem len seed (by omega)⟩

theorem C6_witness :
    (sampleBytes 40).length = 40 ∧
    ∃ digest, t1ha sampleTarget 3 [] (sampleBytes 40) 40 11 = some digest :=
  ⟨by decide, C6_no_read_past_len sampleTarget 3 [] (sampleBytes 40) 40 11 (by decide)⟩

/-- C7: for `1 <= n <= 8`, `tail64(p, n)` depends on the bytes `p[0..n)` only:
two buffers that agree on their first `n` bytes give the same result, and on a
buffer of exactly `n` bytes it succeeds, in both compile-time variants. -/
theorem C7_tail64_no_overread (T : Target) (buf1 buf2 : List Byte) (n : Nat) (h1 : 1 ≤ n)
    (h8 : n ≤ 8) (hagree : buf1.take n = buf2.take n) :
    tail64Fast T buf1 0 n = tail64Fast T buf2 0 n
      ∧ tail64Bytes buf1 0 n = tail64Bytes buf2 0 n
      ∧ tail64 T buf1 0 n = tail64 T buf2 0 n
      ∧ (buf1.length = n →
          (∃ r, tail64Fast T buf1 0 n = some r) ∧ (∃ r, tail64Bytes buf1 0 n = some r)) := by
  have hf : tail64Fast T buf1 0 n = tail64Fast T buf2 0 n := by
    rw [tail64Fast_take T buf1 n h1 h8, tail64Fast_take T buf2 n h1 h8, hagree]
  have hb : tail64Bytes buf1 0 n = tail64Bytes buf2 0 n := by
    rw [tail64Bytes_take buf1 n h1 h8, tail64Bytes_take buf2 n h1 h8, hagree]
  refine ⟨hf, hb, ?_, ?_⟩
  · unfold tail64
    rw [hf, hb]
  · intro hl
    exact ⟨⟨_, tail64Fast_eq T buf1 0 n h1 h8 (by omega)⟩,
      ⟨_, tail64Bytes_eq buf1 0 n h1 h8 (by omega)⟩⟩

theorem C7_witness :
    1 ≤ 5 ∧ 5 ≤ 8 ∧ (sampleBytes 5).take 5 = (sampleBytes 9).take 5 ∧
    (tail64Fast sampleTarget (sampleBytes 5) 0 5 = tail64Fast sampleTarget (sampleBytes 9) 0 5
      ∧ tail64Bytes (sampleBytes 5) 0 5 = tail64Bytes (sampleBytes 9) 0 5
      ∧ tail64 sampleTarget (sampleBytes 5) 0 5 = tail64 sampleTarget (sampleBytes 9) 0 5
      ∧ ((sampleBytes 5).length = 5 →
          (∃ r, tail64Fast sampleTarget (sampleBytes 5) 0 5 = some r)
            ∧ (∃ r, tail64Bytes (sampleBytes 5) 0 5 = some r))) ∧
    (sampleBytes 5).length = 5 ∧
    ((∃ r, tail64Fast sampleTarget (sampleBytes 5) 0 5 = some r)
      ∧ (∃ r, tail64Bytes (sampleBytes 5) 0 5 = some r)) :=
  ⟨by decide, by decide, by decide,
    C7_tail64_no_overread sampleTarget (sampleBytes 5) (sampleBytes 9) 5 (by decide) (by decide)
      (by decide),
    by decide,
    (C7_tail64_no_overread sampleTarget (sampleBytes 5) (sampleBytes 9) 5 (by decide) (by decide)
      (by decide)).2.2.2 (by decide)⟩

/-- C8: the digest is a function of the first `len` bytes, `len` and `seed`
only: two readable buffers whose first `len` bytes coincide give the same
result (whatever follows them, wherever they are, whatever the scratch array
held, on whichever target), and that result is the digest of the specification
on those bytes. -/
theorem C8_digest_of_first_len_bytes (T1 T2 : Target) (addr1 addr2 : Nat)
    (align1 align2 mem1 mem2 : List Byte) (len seed : Nat) (h1 : len ≤ mem1.length)
    (h2 : len ≤ mem2.length) (hagree : mem1.take len = mem2.take len) :
    t1ha T1 addr1 align1 mem1 len seed = t1ha T2 addr2 align2 mem2 len seed
      ∧ t1ha T1 addr1 align1 mem1 len seed = some (t1haSpec (mem1.take len) len seed) := by
  refine ⟨?_, t1ha_eq_spec T1 addr1 align1 mem1 len seed h1⟩
  rw [t1ha_eq_spec T1 addr1 align1 mem1 len seed h1,
    t1ha_eq_spec T2 addr2 align2 mem2 len seed h2, hagree]

theorem C8_witness :
    35 ≤ (sampleBytes 35).length ∧ 35 ≤ (sampleBytes 50).length ∧
    (sampleBytes 35).take 35 = (sampleBytes 50).take 35 ∧
    (t1ha sampleTarget 3 [] (sampleBytes 35) 35 11
        = t1ha { sampleTarget with littleEndian := true } 8 [1, 2] (sampleBytes 50) 35 11
      ∧ t1ha sampleTarget 3 [] (sampleBytes 35) 35 11
        = some (t1haSpec ((sampleBytes 35).take 35) 35 11)) :=
  ⟨by decide, by decide, by decide,
    C8_digest_of_first_len_bytes sampleTarget { sampleTarget with littleEndian := true } 3 8 []
      [1, 2]
      (sampleBytes 35) (sampleBytes 50) 35 11 (by decide) (by decide) (by decide)⟩

/-- C9: for `len = 0` and every seed, `t1ha` reads no byte (it succeeds on any
buffer, the empty one included) and returns
`mux64(rotr(seed,17), p4) + mix(seed, p0)`; for seed 0 the digest is 0. -/
theorem C9_empty_input (T : Target) (addr : Nat) (align mem : List Byte) (seed : Nat)
    (hseed : seed < 2 ^ 64) :
    t1ha T addr align mem 0 seed = some (u64 (mux64 T (rot64 seed 17) p4 + mix seed p0))
      ∧ t1ha T addr align [] 0 seed = t1ha T addr align mem 0 seed
      ∧ t1ha T addr align mem 0 0 = some 0 := by
  have hgen : ∀ (m : List Byte) (s : Nat), s < 2 ^ 64 →
      t1ha T addr align m 0 s = some (u64 (mux64 T (rot64 s 17) p4 + mix s p0)) := by
    intro m s hs
    simp [t1ha, tailStage, tailSwitch, tailCase0, s1, u64_of_lt hs]
  refine ⟨hgen mem seed hseed, by rw [hgen [] seed hseed, hgen mem seed hseed], ?_⟩
  rw [hgen mem 0 (by norm_num), mux64_eq T _ _ (rot64_lt _ _ (by norm_num)) p4_lt]
  decide

theorem C9_witness :
    11 < 2 ^ 64 ∧
    (t1ha sampleTarget 3 [] (sampleBytes 4) 0 11
        = some (u64 (mux64 sampleTarget (rot64 11 17) p4 + mix 11 p0))
      ∧ t1ha sampleTarget 3 [] [] 0 11 = t1ha sampleTarget 3 [] (sampleBytes 4) 0 11
      ∧ t1ha sampleTarget 3 [] (sampleBytes 4) 0 0 = some 0) :=
  ⟨by decide, C9_empty_input sampleTarget 3 [] (sampleBytes 4) 11 (by decide)⟩

/-- C10: on a readable input the block loop terminates; it runs exactly
`len / 32` times when `len > 32` (ending with the read pointer at `32 * (len / 32)`
and at most 31 bytes, `len mod 32`, left for the tail stage), and it is not
entered when `len <= 32`, where all `len` bytes go to the tail stage. So
`len = 32` gives no iteration, `len = 33` one iteration and a 1-byte tail,
`len = 64` two iterations and an empty tail. -/
theorem C10_block_loop_count (T : Target) (addr : Nat) (align mem : List Byte) (len seed : Nat)
    (hmem : len ≤ mem.length) :
    (32 < len → ∃ st,
        blockLoop T ((addr &&& 7 != 0) && !T.unalignedOk) mem (len - 31) len
          { a := seed, b := len, c := u64 (rot64 len s1 + seed), d := len ^^^ rot64 seed s1,
            data := 0, align := align, iters := 0 } = some st
        ∧ st.iters = len / 32 ∧ st.data = 32 * (len / 32)
        ∧ st.data + (len &&& 31) = len ∧ (len &&& 31) ≤ 31
        ∧ t1ha T addr align mem len seed
            = tailStage T ((addr &&& 7 != 0) && !T.unalignedOk) mem st.align st.data
                (len &&& 31) (st.a ^^^ u64 (p6 * u64 (rot64 st.c s1 + st.d)))
                (st.b ^^^ u64 (p5 * u64 (st.c + rot64 st.d s1))))
      ∧ (len ≤ 32 → t1ha T addr align mem len seed
            = tailStage T ((addr &&& 7 != 0) && !T.unalignedOk) mem align 0 len seed len) := by
  constructor
  · intro hlen
    obtain ⟨st, hloop, hi, hd, _⟩ := t1ha_long T addr align mem len seed hlen hmem
    refine ⟨st, hloop, hi, hd, ?_, ?_, ?_⟩
    · rw [and_thirtyone, hd]; omega
    · rw [and_thirtyone]; omega
    · unfold t1ha
      simp only [gt_iff_lt, hlen, if_true, hloop]
  · intro hlen
    unfold t1ha
    simp only [gt_iff_lt, show ¬ 32 < len from by omega, if_false]

theorem C10_witness :
    33 ≤ (sampleBytes 33).length ∧ 32 < 33 ∧
    (∃ st,
        blockLoop sampleTarget ((3 &&& 7 != 0) && !sampleTarget.unalignedOk) (sampleBytes 33)
          (33 - 31) 33
          { a := 11, b := 33, c := u64 (rot64 33 s1 + 11), d := 33 ^^^ rot64 11 s1,
            data := 0, align := [], iters := 0 } = some st
        ∧ st.iters = 33 / 32 ∧ st.data = 32 * (33 / 32)
        ∧ st.data + (33 &&& 31) = 33 ∧ (33 &&& 31) ≤ 31
        ∧ t1ha sampleTarget 3 [] (sampleBytes 33) 33 11
            = tailStage sampleTarget ((3 &&& 7 != 0) && !sampleTarget.unalignedOk)
                (sampleBytes 33) st.align st.data
                (33 &&& 31) (st.a ^^^ u64 (p6 * u64 (rot64 st.c s1 + st.d)))
                (st.b ^^^ u64 (p5 * u64 (st.c + rot64 st.d s1)))) :=
  ⟨by decide, by decide,
    (C10_block_loop_count sampleTarget 3 [] (sampleBytes 33) 33 11 (by decide)).1 (by decide)⟩

/-! ## Algebra of `mux64` -/

theorem muxSpec_comm (v p : Nat) : muxSpec v p = muxSpec p v := by
  unfold muxSpec
  rw [Nat.mul_comm]

theorem muxSpec_zero (p : Nat) : muxSpec 0 p = 0 := by
  simp [muxSpec]

theorem muxSpec_one (v : Nat) (hv : v < 2 ^ 64) : muxSpec v 1 = v := by
  unfold muxSpec
  rw [Nat.mul_one, Nat.mod_eq_of_lt hv, Nat.div_eq_of_lt hv, Nat.xor_zero]

/-! ## Rotation -/

theorem testBit_of_lt_two_pow (v i : Nat) (hv : v < 2 ^ 64) (hi : 64 ≤ i) :
    v.testBit i = false :=
  Nat.testBit_lt_two_pow (Nat.lt_of_lt_of_le hv (Nat.pow_le_pow_right (by norm_num) hi))

/-- Bit `i` of `rot64 v s` is bit `(i + s) mod 64` of `v`. -/
theorem rot64_testBit (v s i : Nat) (hv : v < 2 ^ 64) (hs : s ≤ 63) :
    (rot64 v s).testBit i = (decide (i < 64) && v.testBit ((i + s) % 64)) := by
  unfold rot64 u64
  rw [Nat.testBit_or, Nat.testBit_shiftRight, Nat.testBit_mod_two_pow, Nat.testBit_shiftLeft]
  by_cases h64 : i < 64
  · by_cases hlow : i + s < 64
    · have e1 : (i + s) % 64 = i + s := Nat.mod_eq_of_lt hlow
      have e2 : ¬ (i ≥ 64 - s) := by omega
      rw [e1, Nat.add_comm s i]
      simp [h64, e2]
    · have e1 : (i + s) % 64 = i - (64 - s) := by omega
      have e2 : i ≥ 64 - s := by omega
      have e3 : v.testBit (s + i) = false := testBit_of_lt_two_pow v (s + i) hv (by omega)
      rw [e1, e3]
      simp [h64, e2]
  · have e3 : v.testBit (s + i) = false := testBit_of_lt_two_pow v (s + i) hv (by omega)
    rw [e3]
    simp [h64]

theorem rot64Checked_none (v s : Nat) (hs : s = 0 ∨ 64 ≤ s) : rot64Checked v s = none := by
  unfold rot64Checked shr64 shl64
  rcases hs with h | h
  · subst h
    simp
  · rw [if_neg (by omega)]
    rfl

/-! ## Multiplication by an odd constant -/

theorem coprime_two_pow_of_odd (p : Nat) (hodd : p % 2 = 1) : Nat.Coprime p (2 ^ 64) := by
  apply Nat.Coprime.pow_right
  rw [Nat.coprime_comm, Nat.Prime.coprime_iff_not_dvd Nat.prime_two]
  omega

theorem mul_odd_injective (p v w : Nat) (hodd : p % 2 = 1) (hv : v < 2 ^ 64) (hw : w < 2 ^ 64)
    (h : u64 (v * p) = u64 (w * p)) : v = w := by
  have hc : Nat.gcd (2 ^ 64) p = 1 := Nat.Coprime.symm (coprime_two_pow_of_odd p hodd)
  have hm : v ≡ w [MOD 2 ^ 64] := Nat.ModEq.cancel_right_of_coprime hc h
  unfold Nat.ModEq at hm
  rw [Nat.mod_eq_of_lt hv, Nat.mod_eq_of_lt hw] at hm
  exact hm

theorem mul_odd_surjective (p w : Nat) (hodd : p % 2 = 1) :
    ∃ v, v < 2 ^ 64 ∧ u64 (v * p) = u64 w := by
  obtain ⟨q, hq⟩ := Nat.exists_mul_emod_eq_one_of_coprime (coprime_two_pow_of_odd p hodd)
    (by norm_num)
  refine ⟨(w * q) % 2 ^ 64, Nat.mod_lt _ (by norm_num), ?_⟩
  unfold u64
  calc (w * q % 2 ^ 64 * p) % 2 ^ 64 = (w * q * p) % 2 ^ 64 := by
        rw [Nat.mul_mod, Nat.mod_mod, ← Nat.mul_mod]
    _ = (w * (p * q)) % 2 ^ 64 := by rw [Nat.mul_assoc, Nat.mul_comm q p]
    _ = (w % 2 ^ 64 * (p * q % 2 ^ 64)) % 2 ^ 64 := by rw [Nat.mul_mod]
    _ = w % 2 ^ 64 := by rw [hq, Nat.mul_one, Nat.mod_mod]

/-! ## Zero bytes and the seed in the tail stage -/

theorem leValue_replicate_zero (k : Nat) : leValue (List.replicate k (0 : Byte)) = 0 := by
  induction k with
  | zero => rfl
  | succ k ih => simp [List.replicate_succ, leValue, ih]

theorem leValue_slice_zeroBytes (k off w : Nat) : leValue (slice (zeroBytes k) off w) = 0 := by
  unfold slice zeroBytes
  rw [List.drop_replicate, List.take_replicate]
  exact leValue_replicate_zero _

theorem le64_zeroBytes (k off : Nat) : le64 (zeroBytes k) off = 0 :=
  leValue_slice_zeroBytes k off 8

/-- Zero bytes leave both lanes of the guarded stages unchanged. -/
theorem guardedStages_zeroBytes (k n a b : Nat) (ha : a < 2 ^ 64) (hb : b < 2 ^ 64) :
    (guardedStages (zeroBytes k) n a b).a = a ∧ (guardedStages (zeroBytes k) n a b).b = b := by
  unfold guardedStages stage1 stage9 stage17 stage25
  constructor
  · by_cases h25 : n ≥ 25 <;> by_cases h17 : n ≥ 17 <;> by_cases h9 : n ≥ 9 <;>
      by_cases h1 : n ≥ 1 <;>
      simp only [h25, h17, h9, h1, if_true, if_false, le64_zeroBytes, leValue_slice_zeroBytes,
        muxSpec_zero, Nat.add_zero, u64_of_lt ha]
  · by_cases h25 : n ≥ 25 <;> by_cases h17 : n ≥ 17 <;> by_cases h9 : n ≥ 9 <;>
      by_cases h1 : n ≥ 1 <;>
      simp only [h25, h17, h9, h1, if_true, if_false, le64_zeroBytes, leValue_slice_zeroBytes,
        muxSpec_zero, Nat.add_zero, u64_of_lt hb]

theorem take_zeroBytes (n : Nat) : (zeroBytes n).take n = zeroBytes n := by
  unfold zeroBytes
  rw [List.take_replicate, Nat.min_self]

theorem digestSpec_comm (a b : Nat) : digestSpec a b = digestSpec b a := by
  unfold digestSpec
  rw [Nat.add_comm a b, Nat.xor_comm a b]

theorem t1ha_zeroBytes (T : Target) (addr : Nat) (align : List Byte) (n seed : Nat)
    (hn : n ≤ 32) (hseed : seed < 2 ^ 64) :
    t1ha T addr align (zeroBytes n) n seed = some (digestSpec seed n) := by
  rw [t1ha_short T addr align (zeroBytes n) n seed hn (by simp [zeroBytes]), take_zeroBytes]
  unfold shortSpec tailSpec
  obtain ⟨h1, h2⟩ := guardedStages_zeroBytes n n seed n hseed (by omega)
  rw [h1, h2]

/-- The seed enters lane `a` of the guarded stages additively and lane `b` not
at all. -/
theorem guardedStages_seed (bytes : List Byte) (n s b : Nat) (hs : s < 2 ^ 64) :
    (guardedStages bytes n s b).a = u64 ((guardedStages bytes n 0 b).a + s)
      ∧ (guardedStages bytes n s b).b = (guardedStages bytes n 0 b).b := by
  unfold guardedStages stage1 stage9 stage17 stage25
  constructor
  · by_cases h25 : n ≥ 25 <;> by_cases h17 : n ≥ 17 <;> by_cases h9 : n ≥ 9 <;>
      by_cases h1 : n ≥ 1 <;> simp only [h25, h17, h9, h1, if_true, if_false] <;>
      unfold u64 <;> omega
  · by_cases h25 : n ≥ 25 <;> by_cases h17 : n ≥ 17 <;> by_cases h9 : n ≥ 9 <;>
      by_cases h1 : n ≥ 1 <;> simp only [h25, h17, h9, h1, if_true, if_false]

theorem guardedStages_lt (bytes : List Byte) (n a b : Nat) (ha : a < 2 ^ 64) (hb : b < 2 ^ 64) :
    (guardedStages bytes n a b).a < 2 ^ 64 ∧ (guardedStages bytes n a b).b < 2 ^ 64 := by
  unfold guardedStages stage1 stage9 stage17 stage25
  constructor
  · by_cases h25 : n ≥ 25 <;> by_cases h17 : n ≥ 17 <;> by_cases h9 : n ≥ 9 <;>
      by_cases h1 : n ≥ 1 <;> simp only [h25, h17, h9, h1, if_true, if_false] <;>
      first | exact u64_lt _ | exact ha
  · by_cases h25 : n ≥ 25 <;> by_cases h17 : n ≥ 17 <;> by_cases h9 : n ≥ 9 <;>
      by_cases h1 : n ≥ 1 <;> simp only [h25, h17, h9, h1, if_true, if_false] <;>
      first | exact u64_lt _ | exact hb

/-! ## The recorded switch -/

theorem tail64Span_eq (n : Nat) (hn : 1 ≤ n) : tail64Span n = (n - 1) % 8 + 1 := by
  unfold tail64Span
  rw [and_seven]
  split <;> omega

theorem runCase1_erase (T : Target) (src : List Byte) (v len a b : Nat) (fired : List Fired) :
    tailCase1 T src v len a b
      = (runCase1 T src v len a b fired).map (fun r => tailCase0 T r.a r.b) := by
  unfold tailCase1 runCase1
  cases tail64 T src v len <;> rfl

theorem runCase9_erase (T : Target) (src : List Byte) (v len a b : Nat) (fired : List Fired) :
    tailCase9 T src v len a b
      = (runCase9 T src v len a b fired).map (fun r => tailCase0 T r.a r.b) := by
  unfold tailCase9 runCase9
  cases fetch64 T src v with
  | none => rfl
  | some w => exact runCase1_erase T src (v + 8) len _ _ _

theorem runCase17_erase (T : Target) (src : List Byte) (v len a b : Nat) (fired : List Fired) :
    tailCase17 T src v len a b
      = (runCase17 T src v len a b fired).map (fun r => tailCase0 T r.a r.b) := by
  unfold tailCase17 runCase17
  cases fetch64 T src v with
  | none => rfl
  | some w => exact runCase9_erase T src (v + 8) len _ _ _

theorem runDefault_erase (T : Target) (src : List Byte) (v len a b : Nat) (fired : List Fired) :
    tailDefault T src v len a b
      = (runDefault T src v len a b fired).map (fun r => tailCase0 T r.a r.b) := by
  unfold tailDefault runDefault
  cases fetch64 T src v with
  | none => rfl
  | some w => exact runCase17_erase T src (v + 8) len _ _ _

/-- Dropping the record from the recorded switch and applying the statement
under `case 0` gives the switch. -/
theorem runSwitch_erase (T : Target) (src : List Byte) (v len a b : Nat) :
    tailSwitch T src v len a b
      = (runSwitch T src v len a b).map (fun r => tailCase0 T r.a r.b) := by
  unfold tailSwitch runSwitch
  split
  · rfl
  · split
    · exact runCase1_erase T src v len a b []
    · split
      · exact runCase9_erase T src v len a b []
      · split
        · exact runCase17_erase T src v len a b []
        · exact runDefault_erase T src v len a b []

theorem runStage_erase (T : Target) (needAlign : Bool) (mem align : List Byte)
    (data len a b : Nat) :
    tailStage T needAlign mem align data len a b
      = (runStage T needAlign mem align data len a b).map (fun r => tailCase0 T r.a r.b) := by
  unfold tailStage runStage
  split
  · cases memcpy align mem data len with
    | none => rfl
    | some al => exact runSwitch_erase T al 0 len a b
  · exact runSwitch_erase T mem data len a b

theorem runCase1_eq (T : Target) (src : List Byte) (v n a b : Nat) (fired : List Fired)
    (hn : 1 ≤ n) (h : v + ((n - 1) % 8 + 1) ≤ src.length) :
    runCase1 T src v n a b fired
      = some { a := u64 (a + muxSpec (leValue (slice src v ((n - 1) % 8 + 1))) p1), b := b,
               fired := fired ++ [{ stage := Stage.viaP1, off := v,
                                    width := (n - 1) % 8 + 1 }] } := by
  unfold runCase1
  rw [tail64_eq T src v n hn h, Option.map_some', tail64Span_eq n hn,
    mux64_eq T _ _ (leValue_slice_lt _ _ _ (tail_count_le n)) p1_lt]

theorem runCase9_eq (T : Target) (src : List Byte) (v n a b : Nat) (fired : List Fired)
    (hn : 1 ≤ n) (h : v + 8 + ((n - 1) % 8 + 1) ≤ src.length) :
    runCase9 T src v n a b fired
      = some { a := u64 (a + muxSpec (leValue (slice src (v + 8) ((n - 1) % 8 + 1))) p1),
               b := u64 (b + muxSpec (le64 src v) p2),
               fired := fired ++ [{ stage := Stage.viaP2, off := v, width := 8 }]
                 ++ [{ stage := Stage.viaP1, off := v + 8, width := (n - 1) % 8 + 1 }] } := by
  unfold runCase9
  rw [fetch64_le64 T src v (by omega), Option.some_bind, runCase1_eq T src (v + 8) n _ _ _ hn h,
    mux64_eq T _ _ (le64_lt src v) p2_lt]

theorem runCase17_eq (T : Target) (src : List Byte) (v n a b : Nat) (fired : List Fired)
    (hn : 1 ≤ n) (h : v + 16 + ((n - 1) % 8 + 1) ≤ src.length) :
    runCase17 T src v n a b fired
      = some { a := u64 (u64 (a + muxSpec (le64 src v) p3)
                 + muxSpec (leValue (slice src (v + 16) ((n - 1) % 8 + 1))) p1),
               b := u64 (b + muxSpec (le64 src (v + 8)) p2),
               fired := fired ++ [{ stage := Stage.viaP3, off := v, width := 8 }]
                 ++ [{ stage := Stage.viaP2, off := v + 8, width := 8 }]
                 ++ [{ stage := Stage.viaP1, off := v + 16, width := (n - 1) % 8 + 1 }] } := by
  unfold runCase17
  rw [fetch64_le64 T src v (by omega), Option.some_bind,
    runCase9_eq T src (v + 8) n _ _ _ hn (by omega), mux64_eq T _ _ (le64_lt src v) p3_lt]

theorem runDefault_eq (T : Target) (src : List Byte) (v n a b : Nat) (fired : List Fired)
    (hn : 1 ≤ n) (h : v + 24 + ((n - 1) % 8 + 1) ≤ src.length) :
    runDefault T src v n a b fired
      = some { a := u64 (u64 (a + muxSpec (le64 src (v + 8)) p3)
                 + muxSpec (leValue (slice src (v + 24) ((n - 1) % 8 + 1))) p1),
               b := u64 (u64 (b + muxSpec (le64 src v) p4) + muxSpec (le64 src (v + 16)) p2),
               fired := fired ++ [{ stage := Stage.viaP4, off := v, width := 8 }]
                 ++ [{ stage := Stage.viaP3, off := v + 8, width := 8 }]
                 ++ [{ stage := Stage.viaP2, off := v + 16, width := 8 }]
                 ++ [{ stage := Stage.viaP1, off := v + 24, width := (n - 1) % 8 + 1 }] } := by
  unfold runDefault
  rw [fetch64_le64 T src v (by omega), Option.some_bind,
    runCase17_eq T src (v + 8) n _ _ _ hn (by omega), mux64_eq T _ _ (le64_lt src v) p4_lt]

/-- The recorded switch on `n <= 32` readable bytes: the lanes are those of the
guarded stages and the record is `expectedFired`. -/
theorem runSwitch_eq (T : Target) (src : List Byte) (v n a b : Nat) (hn : n ≤ 32)
    (h : v + n ≤ src.length) :
    runSwitch T src v n a b
      = some { a := (guardedStages (slice src v n) n a b).a,
               b := (guardedStages (slice src v n) n a b).b,
               fired := expectedFired v n } := by
  have hc : (n - 1) % 8 + 1 ≤ 8 := tail_count_le n
  unfold runSwitch expectedFired guardedStages stage1 stage9 stage17 stage25
  by_cases h0 : n = 0
  · subst h0
    simp
  by_cases h8 : n ≤ 8
  · have e : (n - 1) % 8 + 1 = n := by omega
    rw [if_neg h0, if_pos ⟨by omega, h8⟩, runCase1_eq T src v n a b [] (by omega) (by omega)]
    simp only [ge_iff_le, show ¬ 25 ≤ n from by omega, show ¬ 17 ≤ n from by omega,
      show ¬ 9 ≤ n from by omega, show 1 ≤ n from by omega, if_true, if_false, h0, h8]
    rw [slice_slice src v n 0 _ (by omega), e]
    rfl
  by_cases h16 : n ≤ 16
  · have e : (n - 1) % 8 + 1 = n - 8 := by omega
    rw [if_neg h0, if_neg (by omega), if_pos ⟨by omega, h16⟩,
      runCase9_eq T src v n a b [] (by omega) (by omega)]
    simp only [ge_iff_le, show ¬ 25 ≤ n from by omega, show ¬ 17 ≤ n from by omega,
      show 9 ≤ n from by omega, show 1 ≤ n from by omega, if_true, if_false, h0, h8, h16]
    rw [le64_slice src v n 0 (by omega), slice_slice src v n (0 + 8) _ (by omega), e]
    rfl
  by_cases h24 : n ≤ 24
  · have e : (n - 1) % 8 + 1 = n - 16 := by omega
    rw [if_neg h0, if_neg (by omega), if_neg (by omega), if_pos ⟨by omega, h24⟩,
      runCase17_eq T src v n a b [] (by omega) (by omega)]
    simp only [ge_iff_le, show ¬ 25 ≤ n from by omega, show 17 ≤ n from by omega,
      show 9 ≤ n from by omega, show 1 ≤ n from by omega, if_true, if_false, h0, h8, h16, h24]
    rw [le64_slice src v n 0 (by omega), le64_slice src v n (0 + 8) (by omega),
      slice_slice src v n (0 + 8 + 8) _ (by omega), e]
    rfl
  · have e : (n - 1) % 8 + 1 = n - 24 := by omega
    rw [if_neg h0, if_neg (by omega), if_neg (by omega), if_neg (by omega),
      runDefault_eq T src v n a b [] (by omega) (by omega)]
    simp only [ge_iff_le, show 25 ≤ n from by omega, show 17 ≤ n from by omega,
      show 9 ≤ n from by omega, show 1 ≤ n from by omega, if_true, if_false, h0, h8, h16, h24]
    rw [le64_slice src v n 0 (by omega), le64_slice src v n (0 + 8) (by omega),
      le64_slice src v n (0 + 8 + 8) (by omega), slice_slice src v n (0 + 8 + 8 + 8) _ (by omega),
      e]
    rfl

theorem runStage_eq (T : Target) (needAlign : Bool) (mem align : List Byte)
    (data n a b : Nat) (hn : n ≤ 32) (h : data + n ≤ mem.length) :
    runStage T needAlign mem align data n a b
      = some { a := (guardedStages (slice mem data n) n a b).a,
               b := (guardedStages (slice mem data n) n a b).b,
               fired := expectedFired
                 (if (needAlign && decide (n > 8)) = true then 0 else data) n } := by
  unfold runStage
  split
  · have hl : (slice mem data n).length = n := slice_length mem data n h
    rw [memcpy_eq align mem data n h, Option.some_bind,
      runSwitch_eq T _ 0 n a b hn (by simp [hl]),
      slice_append_left _ _ 0 n (by omega), slice_slice mem data n 0 n (by omega)]
    rfl
  · exact runSwitch_eq T mem data n a b hn h

/-- The lanes absorbed from the ranges of the expected record are those of the
guarded stages. -/
theorem absorbFired_expected (src : List Byte) (v n a b : Nat) (hn : n ≤ 32)
    (h : v + n ≤ src.length) :
    absorbFired src (expectedFired v n) a b
      = ((guardedStages (slice src v n) n a b).a, (guardedStages (slice src v n) n a b).b) := by
  unfold expectedFired guardedStages stage1 stage9 stage17 stage25
  by_cases h0 : n = 0
  · subst h0
    simp [absorbFired]
  by_cases h8 : n ≤ 8
  · have e : (n - 1) % 8 + 1 = n := by omega
    simp only [ge_iff_le, show ¬ 25 ≤ n from by omega, show ¬ 17 ≤ n from by omega,
      show ¬ 9 ≤ n from by omega, show 1 ≤ n from by omega, if_true, if_false, h0, h8,
      absorbFired, Stage.intoA, Stage.multiplier]
    rw [slice_slice src v n 0 _ (by omega), e]
    rfl
  by_cases h16 : n ≤ 16
  · have e : (n - 1) % 8 + 1 = n - 8 := by omega
    simp only [ge_iff_le, show ¬ 25 ≤ n from by omega, show ¬ 17 ≤ n from by omega,
      show 9 ≤ n from by omega, show 1 ≤ n from by omega, if_true, if_false, h0, h8, h16,
      absorbFired, Stage.intoA, Stage.multiplier, Bool.false_eq_true]
    rw [le64_slice src v n 0 (by omega), slice_slice src v n (0 + 8) _ (by omega), e]
    rfl
  by_cases h24 : n ≤ 24
  · have e : (n - 1) % 8 + 1 = n - 16 := by omega
    simp only [ge_iff_le, show ¬ 25 ≤ n from by omega, show 17 ≤ n from by omega,
      show 9 ≤ n from by omega, show 1 ≤ n from by omega, if_true, if_false, h0, h8, h16, h24,
      absorbFired, Stage.intoA, Stage.multiplier, Bool.false_eq_true]
    rw [le64_slice src v n 0 (by omega), le64_slice src v n (0 + 8) (by omega),
      slice_slice src v n (0 + 8 + 8) _ (by omega), e]
    rfl
  · have e : (n - 1) % 8 + 1 = n - 24 := by omega
    simp only [ge_iff_le, show 25 ≤ n from by omega, show 17 ≤ n from by omega,
      show 9 ≤ n from by omega, show 1 ≤ n from by omega, if_true, if_false, h0, h8, h16, h24,
      absorbFired, Stage.intoA, Stage.multiplier, Bool.false_eq_true]
    rw [le64_slice src v n 0 (by omega), le64_slice src v n (0 + 8) (by omega),
      le64_slice src v n (0 + 8 + 8) (by omega), slice_slice src v n (0 + 8 + 8 + 8) _ (by omega),
      e]
    rfl

/-! ## Loads that fail -/

theorem readBytes_none (mem : List Byte) (off n : Nat) (h : mem.length < off + n) :
    readBytes mem off n = none := by
  simp [readBytes]; omega

theorem peek_none (mem : List Byte) (i : Nat) (h : mem.length ≤ i) : peek mem i = none := by
  simp [peek, readBytes_none mem i 1 (by omega)]

theorem fetch64_none (T : Target) (mem : List Byte) (off : Nat) (h : mem.length < off + 8) :
    fetch64 T mem off = none := by
  unfold fetch64 deref
  rw [readBytes_none mem off 8 h]
  split <;> rfl

theorem fetch32_none (T : Target) (mem : List Byte) (off : Nat) (h : mem.length < off + 4) :
    fetch32 T mem off = none := by
  unfold fetch32 deref
  rw [readBytes_none mem off 4 h]
  split <;> rfl

theorem fetch16_none (T : Target) (mem : List Byte) (off : Nat) (h : mem.length < off + 2) :
    fetch16 T mem off = none := by
  unfold fetch16 deref
  rw [readBytes_none mem off 2 h]
  split <;> rfl

theorem tail64Bytes_none0 (mem : List Byte) (p n : Nat) (hr : n % 8 = 0)
    (h : mem.length < p + 8) : tail64Bytes mem p n = none := by
  unfold tail64Bytes
  rw [and_seven, hr]
  simp only [tail64BytesCase0, peek_none mem (p + 7) (by omega), Option.none_bind, Option.map_none']

theorem tail64Bytes_none1 (mem : List Byte) (p n : Nat) (hr : n % 8 = 1)
    (h : mem.length < p + 1) : tail64Bytes mem p n = none := by
  unfold tail64Bytes
  rw [and_seven, hr]
  simp only [tail64BytesCase1, peek_none mem p (by omega), Option.none_bind, Option.map_none']

theorem tail64Bytes_none2 (mem : List Byte) (p n : Nat) (hr : n % 8 = 2)
    (h : mem.length < p + 2) : tail64Bytes mem p n = none := by
  unfold tail64Bytes
  rw [and_seven, hr]
  simp only [tail64BytesCase2, peek_none mem (p + 1) (by omega), Option.none_bind, Option.map_none']

theorem tail64Bytes_none3 (mem : List Byte) (p n : Nat) (hr : n % 8 = 3)
    (h : mem.length < p + 3) : tail64Bytes mem p n = none := by
  unfold tail64Bytes
  rw [and_seven, hr]
  simp only [tail64BytesCase3, peek_none mem (p + 2) (by omega), Option.none_bind, Option.map_none']

theorem tail64Bytes_none4 (mem : List Byte) (p n : Nat) (hr : n % 8 = 4)
    (h : mem.length < p + 4) : tail64Bytes mem p n = none := by
  unfold tail64Bytes
  rw [and_seven, hr]
  simp only [tail64BytesCase4, peek_none mem (p + 3) (by omega), Option.none_bind, Option.map_none']

theorem tail64Bytes_none5 (mem : List Byte) (p n : Nat) (hr : n % 8 = 5)
    (h : mem.length < p + 5) : tail64Bytes mem p n = none := by
  unfold tail64Bytes
  rw [and_seven, hr]
  simp only [tail64BytesCase5, peek_none mem (p + 4) (by omega), Option.none_bind, Option.map_none']

theorem tail64Bytes_none6 (mem : List Byte) (p n : Nat) (hr : n % 8 = 6)
    (h : mem.length < p + 6) : tail64Bytes mem p n = none := by
  unfold tail64Bytes
  rw [and_seven, hr]
  simp only [tail64BytesCase6, peek_none mem (p + 5) (by omega), Option.none_bind, Option.map_none']

theorem tail64Bytes_none7 (mem : List Byte) (p n : Nat) (hr : n % 8 = 7)
    (h : mem.length < p + 7) : tail64Bytes mem p n = none := by
  unfold tail64Bytes
  rw [and_seven, hr]
  simp only [tail64BytesCase7, peek_none mem (p + 6) (by omega), Option.none_bind, Option.map_none']

theorem tail64Fast_none0 (T : Target) (mem : List Byte) (p n : Nat) (hr : n % 8 = 0)
    (h : mem.length < p + 8) : tail64Fast T mem p n = none := by
  unfold tail64Fast
  rw [and_seven, hr]
  simp only [fetch64_none T mem p (by omega)]

theorem tail64Fast_none1 (T : Target) (mem : List Byte) (p n : Nat) (hr : n % 8 = 1)
    (h : mem.length < p + 1) : tail64Fast T mem p n = none := by
  unfold tail64Fast
  rw [and_seven, hr]
  simp only [peek_none mem p (by omega)]

theorem tail64Fast_none2 (T : Target) (mem : List Byte) (p n : Nat) (hr : n % 8 = 2)
    (h : mem.length < p + 2) : tail64Fast T mem p n = none := by
  unfold tail64Fast
  rw [and_seven, hr]
  simp only [tail64FastCase2, fetch16_none T mem p (by omega), Option.none_bind, Option.map_none']

theorem tail64Fast_none3 (T : Target) (mem : List Byte) (p n : Nat) (hr : n % 8 = 3)
    (h : mem.length < p + 3) : tail64Fast T mem p n = none := by
  unfold tail64Fast
  rw [and_seven, hr]
  simp only [tail64FastCase3, peek_none mem (p + 2) (by omega), Option.none_bind, Option.map_none']

theorem tail64Fast_none4 (T : Target) (mem : List Byte) (p n : Nat) (hr : n % 8 = 4)
    (h : mem.length < p + 4) : tail64Fast T mem p n = none := by
  unfold tail64Fast
  rw [and_seven, hr]
  simp only [tail64FastCase4, fetch32_none T mem p (by omega), Option.none_bind, Option.map_none']

theorem tail64Fast_none5 (T : Target) (mem : List Byte) (p n : Nat) (hr : n % 8 = 5)
    (h : mem.length < p + 5) : tail64Fast T mem p n = none := by
  unfold tail64Fast
  rw [and_seven, hr]
  simp only [tail64FastCase5, peek_none mem (p + 4) (by omega), Option.none_bind, Option.map_none']

theorem tail64Fast_none6 (T : Target) (mem : List Byte) (p n : Nat) (hr : n % 8 = 6)
    (h : mem.length < p + 6) : tail64Fast T mem p n = none := by
  unfold tail64Fast
  rw [and_seven, hr]
  simp only [tail64FastCase6, peek_none mem (p + 5) (by omega), Option.none_bind, Option.map_none']

theorem tail64Fast_none7 (T : Target) (mem : List Byte) (p n : Nat) (hr : n % 8 = 7)
    (h : mem.length < p + 7) : tail64Fast T mem p n = none := by
  unfold tail64Fast
  rw [and_seven, hr]
  simp only [tail64FastCase7, peek_none mem (p + 6) (by omega), Option.none_bind, Option.map_none']

/-- Either variant of `tail64` fails on a buffer that lacks one of the
`((n - 1) mod 8) + 1` bytes from `p` on. -/
theorem tail64_none (T : Target) (mem : List Byte) (p n : Nat) (hn : 1 ≤ n)
    (h : mem.length < p + ((n - 1) % 8 + 1)) : tail64 T mem p n = none := by
  have hlt : n % 8 < 8 := Nat.mod_lt _ (by norm_num)
  unfold tail64
  split
  · interval_cases hr : n % 8
    · exact tail64Fast_none0 T mem p n hr (by omega)
    · exact tail64Fast_none1 T mem p n hr (by omega)
    · exact tail64Fast_none2 T mem p n hr (by omega)
    · exact tail64Fast_none3 T mem p n hr (by omega)
    · exact tail64Fast_none4 T mem p n hr (by omega)
    · exact tail64Fast_none5 T mem p n hr (by omega)
    · exact tail64Fast_none6 T mem p n hr (by omega)
    · exact tail64Fast_none7 T mem p n hr (by omega)
  · interval_cases hr : n % 8
    · exact tail64Bytes_none0 mem p n hr (by omega)
    · exact tail64Bytes_none1 mem p n hr (by omega)
    · exact tail64Bytes_none2 mem p n hr (by omega)
    · exact tail64Bytes_none3 mem p n hr (by omega)
    · exact tail64Bytes_none4 mem p n hr (by omega)
    · exact tail64Bytes_none5 mem p n hr (by omega)
    · exact tail64Bytes_none6 mem p n hr (by omega)
    · exact tail64Bytes_none7 mem p n hr (by omega)

/-- The call `tail64(p, n)` reads exactly the `((n - 1) mod 8) + 1` bytes from
`p` on: it succeeds on the buffers that hold them and on no other. -/
theorem tail64_isSome_iff (T : Target) (mem : List Byte) (p n : Nat) (hn : 1 ≤ n) :
    (tail64 T mem p n).isSome = true ↔ p + ((n - 1) % 8 + 1) ≤ mem.length := by
  constructor
  · intro hs
    by_contra hc
    rw [tail64_none T mem p n hn (by omega)] at hs
    simp at hs
  · intro hle
    rw [tail64_eq T mem p n hn hle]
    rfl

theorem fetch64_isSome_iff (T : Target) (mem : List Byte) (off : Nat) :
    (fetch64 T mem off).isSome = true ↔ off + 8 ≤ mem.length := by
  constructor
  · intro hs
    by_contra hc
    rw [fetch64_none T mem off (by omega)] at hs
    simp at hs
  · intro hle
    rw [fetch64_eq T mem off hle]
    rfl

theorem tailCase1_none (T : Target) (m : List Byte) (v n a b : Nat) (h1 : 1 ≤ n)
    (h : m.length < v + ((n - 1) % 8 + 1)) : tailCase1 T m v n a b = none := by
  unfold tailCase1
  rw [tail64_none T m v n h1 h]
  rfl

theorem tailCase9_none (T : Target) (m : List Byte) (v n a b : Nat) (h1 : 1 ≤ n)
    (h : m.length < v + 8 + ((n - 1) % 8 + 1)) : tailCase9 T m v n a b = none := by
  unfold tailCase9
  cases fetch64 T m v with
  | none => rfl
  | some w => exact tailCase1_none T m (v + 8) n _ _ h1 h

theorem tailCase17_none (T : Target) (m : List Byte) (v n a b : Nat) (h1 : 1 ≤ n)
    (h : m.length < v + 16 + ((n - 1) % 8 + 1)) : tailCase17 T m v n a b = none := by
  unfold tailCase17
  cases fetch64 T m v with
  | none => rfl
  | some w => exact tailCase9_none T m (v + 8) n _ _ h1 (by omega)

theorem tailDefault_none (T : Target) (m : List Byte) (v n a b : Nat) (h1 : 1 ≤ n)
    (h : m.length < v + 24 + ((n - 1) % 8 + 1)) : tailDefault T m v n a b = none := by
  unfold tailDefault
  cases fetch64 T m v with
  | none => rfl
  | some w => exact tailCase17_none T m (v + 8) n _ _ h1 (by omega)

/-- The switch fails on a buffer that lacks one of the `n` bytes of the tail. -/
theorem tailSwitch_none (T : Target) (m : List Byte) (v n a b : Nat) (h1 : 1 ≤ n)
    (h32 : n ≤ 32) (h : m.length < v + n) : tailSwitch T m v n a b = none := by
  unfold tailSwitch
  by_cases h8 : n ≤ 8
  · rw [if_neg (by omega), if_pos ⟨h1, h8⟩]
    exact tailCase1_none T m v n a b h1 (by omega)
  by_cases h16 : n ≤ 16
  · rw [if_neg (by omega), if_neg (by omega), if_pos ⟨by omega, h16⟩]
    exact tailCase9_none T m v n a b h1 (by omega)
  by_cases h24 : n ≤ 24
  · rw [if_neg (by omega), if_neg (by omega), if_neg (by omega), if_pos ⟨by omega, h24⟩]
    exact tailCase17_none T m v n a b h1 (by omega)
  · rw [if_neg (by omega), if_neg (by omega), if_neg (by omega), if_neg (by omega)]
    exact tailDefault_none T m v n a b h1 (by omega)

theorem tailSwitch_isSome_iff (T : Target) (m : List Byte) (v n a b : Nat) (h1 : 1 ≤ n)
    (h32 : n ≤ 32) : (tailSwitch T m v n a b).isSome = true ↔ v + n ≤ m.length := by
  constructor
  · intro hs
    by_contra hc
    rw [tailSwitch_none T m v n a b h1 h32 (by omega)] at hs
    simp at hs
  · intro hle
    rw [tailSwitch_eq T m v n a b h32 hle]
    rfl

/-! ## Bit parity and seed sensitivity -/

theorem zmod_two_add_self (x : ZMod 2) : x + x = 0 := by
  revert x
  decide

theorem bitParity_xor (a b : Nat) : bitParity (a ^^^ b) = bitParity a + bitParity b := by
  unfold bitParity
  rw [← Finset.sum_add_distrib]
  apply Finset.sum_congr rfl
  intro i _
  rw [Nat.testBit_xor]
  cases a.testBit i <;> cases b.testBit i <;> decide

/-- A rotation permutes the 64 bits, so it keeps their parity. -/
theorem bitParity_rot64 (v s : Nat) (hv : v < 2 ^ 64) (hs : s ≤ 63) :
    bitParity (rot64 v s) = bitParity v := by
  unfold bitParity
  apply Finset.sum_bij (fun i _ => (i + s) % 64)
  · intro i _
    exact Finset.mem_range.mpr (Nat.mod_lt _ (by norm_num))
  · intro i hi j hj h
    have hi2 := Finset.mem_range.mp hi
    have hj2 := Finset.mem_range.mp hj
    omega
  · intro j hj
    have hj2 := Finset.mem_range.mp hj
    refine ⟨(j + (64 - s)) % 64, Finset.mem_range.mpr (Nat.mod_lt _ (by norm_num)), ?_⟩
    dsimp only
    omega
  · intro i hi
    have hi2 := Finset.mem_range.mp hi
    rw [rot64_testBit v s i hv hs]
    simp [hi2]

theorem mix_lt (y p : Nat) : mix y p < 2 ^ 64 := by
  unfold mix
  exact Nat.xor_lt_two_pow (u64_lt _) (rot64_lt _ _ (u64_lt _))

/-- The output of `mix` has an even number of one bits. -/
theorem bitParity_mix (y p : Nat) : bitParity (mix y p) = 0 := by
  unfold mix
  simp only
  rw [bitParity_xor, bitParity_rot64 _ _ (u64_lt _) (by unfold s0; norm_num)]
  exact zmod_two_add_self _

/-- Adding `2^63` modulo `2^64` flips the top bit only. -/
theorem bitParity_add_top (w : Nat) : bitParity (u64 (2 ^ 63 + w)) = bitParity w + 1 := by
  have hlow : Finset.sum (Finset.range 63)
        (fun i => if ((2 ^ 63 + w) % 2 ^ 64).testBit i then (1 : ZMod 2) else 0)
      = Finset.sum (Finset.range 63) (fun i => if w.testBit i then (1 : ZMod 2) else 0) := by
    apply Finset.sum_congr rfl
    intro i hi
    have hi2 := Finset.mem_range.mp hi
    rw [Nat.testBit_mod_two_pow, Nat.testBit_two_pow_add_gt hi2]
    simp [show i < 64 from by omega]
  have htop : (if ((2 ^ 63 + w) % 2 ^ 64).testBit 63 then (1 : ZMod 2) else 0)
      = (if w.testBit 63 then (1 : ZMod 2) else 0) + 1 := by
    rw [Nat.testBit_mod_two_pow, Nat.testBit_two_pow_add_eq]
    cases w.testBit 63 <;> decide
  unfold bitParity u64
  rw [Finset.sum_range_succ _ 63, Finset.sum_range_succ _ 63, hlow, htop, add_assoc]

theorem mux_preimage_top : muxSpec (rot64 501633960468597651 17) p4 = 2 ^ 63 := by decide

theorem mux_preimage_zero : muxSpec (rot64 0 17) p4 = 0 := by decide

/-- For every pair of lanes reached with seed 0 there are two seeds whose
digests differ: one makes `a + b` vanish (the digest is then an output of
`mix`, of even parity), the other makes the `mux64` term equal to `2^63` (the
digest then has odd parity). -/
theorem digestSpec_two_seeds (a0 b0 : Nat) (ha : a0 < 2 ^ 64) (hb : b0 < 2 ^ 64) :
    ∃ s1 s2, s1 < 2 ^ 64 ∧ s2 < 2 ^ 64
      ∧ digestSpec (u64 (a0 + s1)) b0 ≠ digestSpec (u64 (a0 + s2)) b0 := by
  refine ⟨(2 ^ 64 + 2 ^ 64 - a0 - b0) % 2 ^ 64,
    (501633960468597651 + 2 ^ 64 + 2 ^ 64 - a0 - b0) % 2 ^ 64,
    Nat.mod_lt _ (by norm_num), Nat.mod_lt _ (by norm_num), ?_⟩
  have e1 : u64 (u64 (a0 + (2 ^ 64 + 2 ^ 64 - a0 - b0) % 2 ^ 64) + b0) = 0 := by
    unfold u64; omega
  have e2 : u64 (u64 (a0 + (501633960468597651 + 2 ^ 64 + 2 ^ 64 - a0 - b0) % 2 ^ 64) + b0)
      = 501633960468597651 := by
    unfold u64; omega
  intro h
  have hp := congrArg bitParity h
  unfold digestSpec at hp
  rw [e1, e2, mux_preimage_top, mux_preimage_zero, Nat.zero_add, u64_of_lt (mix_lt _ _),
    bitParity_add_top, bitParity_mix, bitParity_mix] at hp
  revert hp
  decide

/-! ## Consequences used by the later properties -/

theorem expectedFired_length (v n : Nat) (hn : n ≤ 32) :
    (expectedFired v n).length = (n + 7) / 8 := by
  unfold expectedFired
  split_ifs <;> simp <;> omega

theorem expectedFired_tiles (v n : Nat) : tiles v (expectedFired v n) (v + n) := by
  unfold expectedFired
  split_ifs <;> simp [tiles] <;> omega

theorem expectedFired_last (v n : Nat) (h1 : 1 ≤ n) (hn : n ≤ 32) :
    (expectedFired v n).getLast?
      = some { stage := Stage.viaP1, off := v + 8 * ((n + 7) / 8 - 1),
               width := (n - 1) % 8 + 1 } := by
  unfold expectedFired
  split_ifs with h0 h8 h16 h24
  · omega
  · have e1 : (n + 7) / 8 - 1 = 0 := by omega
    have e2 : (n - 1) % 8 + 1 = n := by omega
    simp [e1, e2]
  · have e1 : (n + 7) / 8 - 1 = 1 := by omega
    have e2 : (n - 1) % 8 + 1 = n - 8 := by omega
    simp [e1, e2]
  · have e1 : (n + 7) / 8 - 1 = 2 := by omega
    have e2 : (n - 1) % 8 + 1 = n - 16 := by omega
    simp [e1, e2]
  · have e1 : (n + 7) / 8 - 1 = 3 := by omega
    have e2 : (n - 1) % 8 + 1 = n - 24 := by omega
    simp [e1, e2]

theorem expectedFired_loads (v n : Nat) (f : Fired) (hf : f ∈ expectedFired v n)
    (hs : f.stage ≠ Stage.viaP1) : f.width = 8 ∧ (f.off - v) % 8 = 0 := by
  unfold expectedFired at hf
  split_ifs at hf <;> simp at hf
  · subst hf; simp at hs
  · rcases hf with rfl | rfl
    · simp
    · simp at hs
  · rcases hf with rfl | rfl | rfl
    · simp
    · simp
    · simp at hs
  · rcases hf with rfl | rfl | rfl | rfl
    · simp
    · simp
    · simp
    · simp at hs

theorem constant_odd (p : Nat) (hp : p ∈ [p0, p1, p2, p3, p4, p5, p6]) :
    p % 2 = 1 ∧ p < 2 ^ 64 := by
  simp only [List.mem_cons, List.mem_singleton, List.not_mem_nil, or_false] at hp
  rcases hp with rfl | rfl | rfl | rfl | rfl | rfl | rfl <;> decide

theorem t1ha_short_run (T : Target) (addr : Nat) (align mem : List Byte) (n seed : Nat)
    (hn : n ≤ 32) :
    t1ha T addr align mem n seed
      = (runStage T ((addr &&& 7 != 0) && !T.unalignedOk) mem align 0 n seed n).map
          (fun r => tailCase0 T r.a r.b) := by
  unfold t1ha
  simp only [gt_iff_lt, show ¬ 32 < n from by omega, if_false]
  exact runStage_erase T _ mem align 0 n seed n

/-! ## The properties of the specification, continued -/

/-- C11: seed sensitivity without the block loop. For every input of at most 32
bytes (so for every input of 1 to 32 bytes) there are two distinct 64-bit seeds
whose digests differ. -/
theorem C11_seed_sensitivity (T : Target) (addr : Nat) (align mem : List Byte) (n : Nat)
    (hn : n ≤ 32) (hmem : n ≤ mem.length) :
    ∃ s1 s2, s1 < 2 ^ 64 ∧ s2 < 2 ^ 64 ∧ s1 ≠ s2
      ∧ t1ha T addr align mem n s1 ≠ t1ha T addr align mem n s2 := by
  obtain ⟨ha, hb⟩ := guardedStages_lt (mem.take n) n 0 n (by norm_num) (by omega)
  obtain ⟨s1, s2, h1, h2, hne⟩ := digestSpec_two_seeds _ _ ha hb
  have hd : t1ha T addr align mem n s1 ≠ t1ha T addr align mem n s2 := by
    rw [t1ha_short T addr align mem n s1 hn hmem, t1ha_short T addr align mem n s2 hn hmem]
    unfold shortSpec tailSpec
    rw [(guardedStages_seed (mem.take n) n s1 n h1).1,
      (guardedStages_seed (mem.take n) n s1 n h1).2,
      (guardedStages_seed (mem.take n) n s2 n h2).1, (guardedStages_seed (mem.take n) n s2 n h2).2]
    intro h
    exact hne (Option.some.inj h)
  refine ⟨s1, s2, h1, h2, ?_, hd⟩
  intro he
  rw [he] at hd
  exact hd rfl

theorem C11_witness :
    5 ≤ 32 ∧ 5 ≤ (sampleBytes 5).length ∧
    ∃ s1 s2, s1 < 2 ^ 64 ∧ s2 < 2 ^ 64 ∧ s1 ≠ s2
      ∧ t1ha sampleTarget 3 [] (sampleBytes 5) 5 s1
          ≠ t1ha sampleTarget 3 [] (sampleBytes 5) 5 s2 :=
  ⟨by decide, by decide,
    C11_seed_sensitivity sampleTarget 3 [] (sampleBytes 5) 5 (by decide) (by decide)⟩

/-- C12: on a tail of `1 <= n <= 32` bytes the switch executes exactly
`ceil(n/8)` absorption statements: 64-bit loads of consecutive 8-byte groups
from the start of the tail, then the `tail64` finisher, which reads the last
`((n-1) mod 8) + 1` bytes; the byte ranges read tile `[0, n)` in order, so every
tail byte is consumed exactly once and none is skipped. The ranges of the
record are the ranges read: the lanes that reach `case 0` are those obtained by
absorbing the little-endian value of exactly the bytes of each recorded range,
in order, and they are the lanes of the guarded stages of the specification;
the switch succeeds on the buffers that hold the `n` bytes and on no other. -/
theorem C12_tail_stages_partition (T : Target) (src : List Byte) (v n a b : Nat) (h1 : 1 ≤ n)
    (h32 : n ≤ 32) (h : v + n ≤ src.length) :
    ∃ r, runSwitch T src v n a b = some r
      ∧ tailSwitch T src v n a b = some (tailCase0 T r.a r.b)
      ∧ r.fired = expectedFired v n
      ∧ r.fired.length = (n + 7) / 8
      ∧ (∀ f ∈ r.fired, f.stage ≠ Stage.viaP1 → f.width = 8 ∧ (f.off - v) % 8 = 0)
      ∧ r.fired.getLast? = some { stage := Stage.viaP1, off := v + 8 * ((n + 7) / 8 - 1),
                                  width := (n - 1) % 8 + 1 }
      ∧ tiles v r.fired (v + n)
      ∧ (∀ m : List Byte, (tail64 T m (v + 8 * ((n + 7) / 8 - 1)) n).isSome = true
            ↔ v + n ≤ m.length)
      ∧ (∀ (m : List Byte) (off : Nat),
            (fetch64 T m off).isSome = true ↔ off + 8 ≤ m.length)
      ∧ absorbFired src r.fired a b = (r.a, r.b)
      ∧ r.a = (guardedStages (slice src v n) n a b).a
      ∧ r.b = (guardedStages (slice src v n) n a b).b
      ∧ (∀ m : List Byte, (tailSwitch T m v n a b).isSome = true ↔ v + n ≤ m.length) := by
  refine ⟨_, runSwitch_eq T src v n a b h32 h, ?_, rfl, expectedFired_length v n h32,
    fun f hf hs => expectedFired_loads v n f hf hs, expectedFired_last v n h1 h32,
    expectedFired_tiles v n, ?_, fun m off => fetch64_isSome_iff T m off,
    absorbFired_expected src v n a b h32 h, rfl, rfl,
    fun m => tailSwitch_isSome_iff T m v n a b h1 h32⟩
  · rw [runSwitch_erase, runSwitch_eq T src v n a b h32 h]
    rfl
  · intro m
    rw [tail64_isSome_iff T m _ n h1]
    have e : 8 * ((n + 7) / 8 - 1) + ((n - 1) % 8 + 1) = n := by omega
    omega

theorem C12_witness :
    1 ≤ 20 ∧ 20 ≤ 32 ∧ 0 + 20 ≤ (sampleBytes 20).length ∧
    ∃ r, runSwitch sampleTarget (sampleBytes 20) 0 20 11 20 = some r
      ∧ tailSwitch sampleTarget (sampleBytes 20) 0 20 11 20
          = some (tailCase0 sampleTarget r.a r.b)
      ∧ r.fired = expectedFired 0 20
      ∧ r.fired.length = (20 + 7) / 8
      ∧ (∀ f ∈ r.fired, f.stage ≠ Stage.viaP1 → f.width = 8 ∧ (f.off - 0) % 8 = 0)
      ∧ r.fired.getLast? = some { stage := Stage.viaP1, off := 0 + 8 * ((20 + 7) / 8 - 1),
                                  width := (20 - 1) % 8 + 1 }
      ∧ tiles 0 r.fired (0 + 20)
      ∧ (∀ m : List Byte, (tail64 sampleTarget m (0 + 8 * ((20 + 7) / 8 - 1)) 20).isSome = true
            ↔ 0 + 20 ≤ m.length)
      ∧ (∀ (m : List Byte) (off : Nat),
            (fetch64 sampleTarget m off).isSome = true ↔ off + 8 ≤ m.length)
      ∧ absorbFired (sampleBytes 20) r.fired 11 20 = (r.a, r.b)
      ∧ r.a = (guardedStages (slice (sampleBytes 20) 0 20) 20 11 20).a
      ∧ r.b = (guardedStages (slice (sampleBytes 20) 0 20) 20 11 20).b
      ∧ (∀ m : List Byte, (tailSwitch sampleTarget m 0 20 11 20).isSome = true
            ↔ 0 + 20 ≤ m.length) :=
  ⟨by decide, by decide, by decide,
    C12_tail_stages_partition sampleTarget (sampleBytes 20) 0 20 11 20 (by decide) (by decide)
      (by decide)⟩

/-- C13, as stated, fails: on a 20-byte tail the switch does not execute just
the `p3` statement and the finisher. On the sample input the statements
executed are `p3`, `p2`, `p1`, and the digest differs from the one the two
statements alone would give. -/
theorem C13_counterexample :
    (runSwitch sampleTarget (sampleBytes 20) 0 20 11 20).map
        (fun r => r.fired.map (fun f => f.stage)) ≠ some [Stage.viaP3, Stage.viaP1]
      ∧ (runSwitch sampleTarget (sampleBytes 20) 0 20 11 20).map
        (fun r => r.fired.map (fun f => f.stage))
          = some [Stage.viaP3, Stage.viaP2, Stage.viaP1]
      ∧ t1ha sampleTarget 3 [] (sampleBytes 20) 20 11
          ≠ some (digestSpec
              (u64 (u64 (11 + muxSpec (le64 (sampleBytes 20) 0) p3)
                + muxSpec (leValue (slice (sampleBytes 20) 8 4)) p1)) 20) := by
  decide

/-- C13, amended: on a tail of 20 bytes the statements executed are the 17-24
stage (`a += mux64(load64, p3)` on bytes 0..8), then the 9-16 stage
(`b += mux64(load64, p2)` on bytes 8..16), then the finisher
(`a += mux64(tail64, p1)` on the 4 bytes 16..20): exactly these three. -/
theorem C13_twenty_bytes_three_stages (T : Target) (src : List Byte) (v a b : Nat)
    (h : v + 20 ≤ src.length) :
    runSwitch T src v 20 a b
      = some { a := u64 (u64 (a + muxSpec (le64 src v) p3)
                 + muxSpec (leValue (slice src (v + 16) 4)) p1),
               b := u64 (b + muxSpec (le64 src (v + 8)) p2),
               fired := [{ stage := Stage.viaP3, off := v, width := 8 },
                         { stage := Stage.viaP2, off := v + 8, width := 8 },
                         { stage := Stage.viaP1, off := v + 16, width := 4 }] }
      ∧ tailSwitch T src v 20 a b
          = some (tailCase0 T
              (u64 (u64 (a + muxSpec (le64 src v) p3)
                + muxSpec (leValue (slice src (v + 16) 4)) p1))
              (u64 (b + muxSpec (le64 src (v + 8)) p2))) := by
  have hr : runSwitch T src v 20 a b
      = some { a := u64 (u64 (a + muxSpec (le64 src v) p3)
                 + muxSpec (leValue (slice src (v + 16) 4)) p1),
               b := u64 (b + muxSpec (le64 src (v + 8)) p2),
               fired := [{ stage := Stage.viaP3, off := v, width := 8 },
                         { stage := Stage.viaP2, off := v + 8, width := 8 },
                         { stage := Stage.viaP1, off := v + 16, width := 4 }] } := by
    unfold runSwitch
    simp only [show ¬ (20 = 0) from by decide, show ¬ (1 ≤ 20 ∧ 20 ≤ 8) from by decide,
      show ¬ (9 ≤ 20 ∧ 20 ≤ 16) from by decide,
      show (17 ≤ 20 ∧ 20 ≤ 24) from by decide,
      if_true, if_false]
    rw [runCase17_eq T src v 20 a b [] (by decide) (by omega)]
    rfl
  refine ⟨hr, ?_⟩
  rw [runSwitch_erase, hr]
  rfl

theorem C13_witness :
    0 + 20 ≤ (sampleBytes 20).length ∧
    (runSwitch sampleTarget (sampleBytes 20) 0 20 11 20
      = some { a := u64 (u64 (11 + muxSpec (le64 (sampleBytes 20) 0) p3)
                 + muxSpec (leValue (slice (sampleBytes 20) (0 + 16) 4)) p1),
               b := u64 (20 + muxSpec (le64 (sampleBytes 20) (0 + 8)) p2),
               fired := [{ stage := Stage.viaP3, off := 0, width := 8 },
                         { stage := Stage.viaP2, off := 0 + 8, width := 8 },
                         { stage := Stage.viaP1, off := 0 + 16, width := 4 }] }
      ∧ tailSwitch sampleTarget (sampleBytes 20) 0 20 11 20
          = some (tailCase0 sampleTarget
              (u64 (u64 (11 + muxSpec (le64 (sampleBytes 20) 0) p3)
                + muxSpec (leValue (slice (sampleBytes 20) (0 + 16) 4)) p1))
              (u64 (20 + muxSpec (le64 (sampleBytes 20) (0 + 8)) p2)))) :=
  ⟨by decide, C13_twenty_bytes_three_stages sampleTarget (sampleBytes 20) 0 11 20 (by decide)⟩

/-- C14: the alignment path preserves the digest. With `need_align` set (each
block and a tail of more than 8 bytes copied into `align` before the loads) the
hash returns the same digest as with `need_align` clear, for every input, seed
and prior content of `align`; it does so even when `align` starts empty. No
byte of `align` is read that the immediately preceding copy did not write: the
hash in which every copy leaves the other bytes of `align` unreadable
(`t1haScratch true`, which without the poisoning is `t1ha` itself) succeeds
with the same digest on every input, whatever `align` held before, while a load
of a byte that a poisoned copy did not write fails. Every iteration of the loop
gives the same lanes when `align` is emptied before its copy, and `align` then
holds the 32 copied bytes only. For `len > 32` the tail stage after the loop
gives the same result when the content the loop left in `align` is replaced by
nothing, and when it copies, the switch runs on exactly the copied bytes. -/
theorem C14_alignment_path (T1 T2 : Target) (addr1 addr2 : Nat)
    (align1 align2 mem : List Byte) (len seed : Nat) (hmem : len ≤ mem.length)
    (hset : ((addr1 &&& 7 != 0) && !T1.unalignedOk) = true)
    (hclear : ((addr2 &&& 7 != 0) && !T2.unalignedOk) = false) :
    t1ha T1 addr1 align1 mem len seed = t1ha T2 addr2 align2 mem len seed
      ∧ t1ha T1 addr1 [] mem len seed = t1ha T1 addr1 align1 mem len seed
      ∧ (∃ digest, t1ha T1 addr1 [] mem len seed = some digest)
      ∧ (8 < len → len ≤ 32 → t1ha T1 addr1 align1 mem len seed
            = tailSwitch T1 (mem.take len ++ align1.drop len) 0 len seed len)
      ∧ (len ≤ 32 →
          t1ha T2 addr2 align2 mem len seed = tailSwitch T2 mem 0 len seed len)
      ∧ (∀ (al m : List Byte) (n s : Nat),
          t1haScratch false T1 addr1 al m n s = t1ha T1 addr1 al m n s)
      ∧ (∀ al : List Byte,
          t1haScratch true T1 addr1 al mem len seed = t1ha T1 addr1 align1 mem len seed)
      ∧ (∃ digest, t1haScratch true T1 addr1 align1 mem len seed = some digest)
      ∧ (∀ (al : List Byte) (off n i : Nat), off + n ≤ mem.length → n < i + 8 →
          (memcpyScratch true al mem off n).bind (fun bs => fetch64 T1 bs i) = none)
      ∧ (∀ (al : List Byte) (off n i k : Nat), off + n ≤ mem.length → 1 ≤ k →
          n < i + ((k - 1) % 8 + 1) →
          (memcpyScratch true al mem off n).bind (fun bs => tail64 T1 bs i k) = none)
      ∧ (∀ st : LoopState, st.data + 32 ≤ mem.length →
          ∃ r, blockBody T1 true mem st = some r
            ∧ blockBody T1 true mem { st with align := [] }
                = some { r with align := slice mem st.data 32 })
      ∧ (32 < len →
          ∃ st, blockLoop T1 true mem (len - 31) len
              { a := seed, b := len, c := u64 (rot64 len s1 + seed),
                d := len ^^^ rot64 seed s1, data := 0, align := align1, iters := 0 } = some st
            ∧ t1ha T1 addr1 align1 mem len seed
                = tailStage T1 true mem st.align st.data (len &&& 31)
                    (st.a ^^^ u64 (p6 * u64 (rot64 st.c s1 + st.d)))
                    (st.b ^^^ u64 (p5 * u64 (st.c + rot64 st.d s1)))
            ∧ tailStage T1 true mem st.align st.data (len &&& 31)
                  (st.a ^^^ u64 (p6 * u64 (rot64 st.c s1 + st.d)))
                  (st.b ^^^ u64 (p5 * u64 (st.c + rot64 st.d s1)))
                = tailStage T1 true mem [] st.data (len &&& 31)
                    (st.a ^^^ u64 (p6 * u64 (rot64 st.c s1 + st.d)))
                    (st.b ^^^ u64 (p5 * u64 (st.c + rot64 st.d s1)))
            ∧ (8 < len &&& 31 →
                tailStage T1 true mem [] st.data (len &&& 31)
                    (st.a ^^^ u64 (p6 * u64 (rot64 st.c s1 + st.d)))
                    (st.b ^^^ u64 (p5 * u64 (st.c + rot64 st.d s1)))
                  = tailSwitch T1 (slice mem st.data (len &&& 31)) 0 (len &&& 31)
                      (st.a ^^^ u64 (p6 * u64 (rot64 st.c s1 + st.d)))
                      (st.b ^^^ u64 (p5 * u64 (st.c + rot64 st.d s1))))) := by
  refine ⟨?_, ?_, ⟨_, t1ha_eq_spec T1 addr1 [] mem len seed hmem⟩, ?_, ?_,
    fun al m n s => t1haScratch_false T1 addr1 al m n s, ?_,
    ⟨_, t1haScratch_eq_spec true T1 addr1 align1 mem len seed hmem⟩, ?_, ?_, ?_, ?_⟩
  · rw [t1ha_eq_spec T1 addr1 align1 mem len seed hmem,
      t1ha_eq_spec T2 addr2 align2 mem len seed hmem]
  · rw [t1ha_eq_spec T1 addr1 [] mem len seed hmem,
      t1ha_eq_spec T1 addr1 align1 mem len seed hmem]
  · intro h8 h32
    unfold t1ha tailStage
    simp only [gt_iff_lt, show ¬ 32 < len from by omega, if_false, hset, h8, decide_True,
      Bool.and_self, if_true]
    rw [memcpy_eq align1 mem 0 len (by omega), Option.some_bind, slice_zero_eq_take]
  · intro h32
    unfold t1ha tailStage
    simp only [gt_iff_lt, show ¬ 32 < len from by omega, if_false, hclear, Bool.false_and,
      Bool.false_eq_true]
  · intro al
    rw [t1haScratch_eq_spec true T1 addr1 al mem len seed hmem,
      t1ha_eq_spec T1 addr1 align1 mem len seed hmem]
  · intro al off n i hr hi
    rw [memcpyScratch_eq true al mem off n hr, Option.some_bind]
    apply fetch64_none
    simp only [if_true, List.append_nil, slice_length mem off n hr]
    omega
  · intro al off n i k hr hk hi
    rw [memcpyScratch_eq true al mem off n hr, Option.some_bind]
    apply tail64_none _ _ _ _ hk
    simp only [if_true, List.append_nil, slice_length mem off n hr]
    omega
  · intro st hst
    refine ⟨_, blockBody_val T1 true mem st hst, ?_⟩
    rw [blockBody_val T1 true mem { st with align := [] } hst]
    simp only [if_true, List.drop_nil, List.append_nil]
    rfl
  · intro hlen
    obtain ⟨st, hloop, _, hd, _⟩ := t1ha_long T1 addr1 align1 mem len seed hlen hmem
    rw [hset] at hloop
    have hn : len &&& 31 ≤ 32 := by rw [and_thirtyone]; omega
    have hr : st.data + (len &&& 31) ≤ mem.length := by rw [and_thirtyone, hd]; omega
    refine ⟨st, hloop, ?_, ?_, ?_⟩
    · unfold t1ha
      simp only [gt_iff_lt, hlen, if_true, hset, hloop]
    · rw [tailStage_eq T1 true mem st.align _ _ _ _ hn hr,
        tailStage_eq T1 true mem [] _ _ _ _ hn hr]
    · intro h8
      unfold tailStage
      simp only [gt_iff_lt, h8, decide_True, Bool.and_self, if_true]
      rw [memcpy_eq [] mem st.data _ hr, Option.some_bind, List.drop_nil, List.append_nil]

theorem C14_witness :
    45 ≤ (sampleBytes 45).length ∧ ((3 &&& 7 != 0) && !sampleTarget.unalignedOk) = true ∧
    ((8 &&& 7 != 0) && !sampleTarget.unalignedOk) = false ∧
    (t1ha sampleTarget 3 [1, 2, 3] (sampleBytes 45) 45 11
        = t1ha sampleTarget 8 [] (sampleBytes 45) 45 11
      ∧ t1ha sampleTarget 3 [] (sampleBytes 45) 45 11
        = t1ha sampleTarget 3 [1, 2, 3] (sampleBytes 45) 45 11
      ∧ (∃ digest, t1ha sampleTarget 3 [] (sampleBytes 45) 45 11 = some digest)
      ∧ (8 < 45 → 45 ≤ 32 → t1ha sampleTarget 3 [1, 2, 3] (sampleBytes 45) 45 11
            = tailSwitch sampleTarget ((sampleBytes 45).take 45 ++ [1, 2, 3].drop 45) 0 45 11 45)
      ∧ (45 ≤ 32 → t1ha sampleTarget 8 [] (sampleBytes 45) 45 11
            = tailSwitch sampleTarget (sampleBytes 45) 0 45 11 45)
      ∧ (∀ (al m : List Byte) (n s : Nat),
          t1haScratch false sampleTarget 3 al m n s = t1ha sampleTarget 3 al m n s)
      ∧ (∀ al : List Byte, t1haScratch true sampleTarget 3 al (sampleBytes 45) 45 11
            = t1ha sampleTarget 3 [1, 2, 3] (sampleBytes 45) 45 11)
      ∧ (∃ digest,
          t1haScratch true sampleTarget 3 [1, 2, 3] (sampleBytes 45) 45 11 = some digest)
      ∧ (∀ (al : List Byte) (off n i : Nat), off + n ≤ (sampleBytes 45).length →
          n < i + 8 →
          (memcpyScratch true al (sampleBytes 45) off n).bind
            (fun bs => fetch64 sampleTarget bs i) = none)
      ∧ (∀ (al : List Byte) (off n i k : Nat), off + n ≤ (sampleBytes 45).length →
          1 ≤ k → n < i + ((k - 1) % 8 + 1) →
          (memcpyScratch true al (sampleBytes 45) off n).bind
            (fun bs => tail64 sampleTarget bs i k) = none)
      ∧ (∀ st : LoopState, st.data + 32 ≤ (sampleBytes 45).length →
          ∃ r, blockBody sampleTarget true (sampleBytes 45) st = some r
            ∧ blockBody sampleTarget true (sampleBytes 45) { st with align := [] }
                = some { r with align := slice (sampleBytes 45) st.data 32 })
      ∧ (32 < 45 →
          ∃ st, blockLoop sampleTarget true (sampleBytes 45) (45 - 31) 45
            { a := 11, b := 45, c := u64 (rot64 45 s1 + 11),
              d := 45 ^^^ rot64 11 s1, data := 0, align := [1, 2, 3], iters := 0 } = some st
          ∧ t1ha sampleTarget 3 [1, 2, 3] (sampleBytes 45) 45 11
              = tailStage sampleTarget true (sampleBytes 45) st.align st.data (45 &&& 31)
                  (st.a ^^^ u64 (p6 * u64 (rot64 st.c s1 + st.d)))
                  (st.b ^^^ u64 (p5 * u64 (st.c + rot64 st.d s1)))
          ∧ tailStage sampleTarget true (sampleBytes 45) st.align st.data (45 &&& 31)
                (st.a ^^^ u64 (p6 * u64 (rot64 st.c s1 + st.d)))
                (st.b ^^^ u64 (p5 * u64 (st.c + rot64 st.d s1)))
              = tailStage sampleTarget true (sampleBytes 45) [] st.data (45 &&& 31)
                  (st.a ^^^ u64 (p6 * u64 (rot64 st.c s1 + st.d)))
                  (st.b ^^^ u64 (p5 * u64 (st.c + rot64 st.d s1)))
          ∧ (8 < 45 &&& 31 →
              tailStage sampleTarget true (sampleBytes 45) [] st.data (45 &&& 31)
                  (st.a ^^^ u64 (p6 * u64 (rot64 st.c s1 + st.d)))
                  (st.b ^^^ u64 (p5 * u64 (st.c + rot64 st.d s1)))
                = tailSwitch sampleTarget (slice (sampleBytes 45) st.data (45 &&& 31)) 0
                    (45 &&& 31)
                    (st.a ^^^ u64 (p6 * u64 (rot64 st.c s1 + st.d)))
                    (st.b ^^^ u64 (p5 * u64 (st.c + rot64 st.d s1)))))) ∧
    32 < 45 ∧
    (∃ st, blockLoop sampleTarget true (sampleBytes 45) (45 - 31) 45
          { a := 11, b := 45, c := u64 (rot64 45 s1 + 11),
            d := 45 ^^^ rot64 11 s1, data := 0, align := [1, 2, 3], iters := 0 } = some st
        ∧ t1ha sampleTarget 3 [1, 2, 3] (sampleBytes 45) 45 11
            = tailStage sampleTarget true (sampleBytes 45) st.align st.data (45 &&& 31)
                (st.a ^^^ u64 (p6 * u64 (rot64 st.c s1 + st.d)))
                (st.b ^^^ u64 (p5 * u64 (st.c + rot64 st.d s1)))
        ∧ tailStage sampleTarget true (sampleBytes 45) st.align st.data (45 &&& 31)
              (st.a ^^^ u64 (p6 * u64 (rot64 st.c s1 + st.d)))
              (st.b ^^^ u64 (p5 * u64 (st.c + rot64 st.d s1)))
            = tailStage sampleTarget true (sampleBytes 45) [] st.data (45 &&& 31)
                (st.a ^^^ u64 (p6 * u64 (rot64 st.c s1 + st.d)))
                (st.b ^^^ u64 (p5 * u64 (st.c + rot64 st.d s1)))
        ∧ (8 < 45 &&& 31 →
            tailStage sampleTarget true (sampleBytes 45) [] st.data (45 &&& 31)
                (st.a ^^^ u64 (p6 * u64 (rot64 st.c s1 + st.d)))
                (st.b ^^^ u64 (p5 * u64 (st.c + rot64 st.d s1)))
              = tailSwitch sampleTarget (slice (sampleBytes 45) st.data (45 &&& 31)) 0
                  (45 &&& 31)
                  (st.a ^^^ u64 (p6 * u64 (rot64 st.c s1 + st.d)))
                  (st.b ^^^ u64 (p5 * u64 (st.c + rot64 st.d s1))))) :=
  ⟨by decide, by decide, by decide,
    C14_alignment_path sampleTarget sampleTarget 3 8 [1, 2, 3] [] (sampleBytes 45) 45 11
      (by decide) (by decide) (by decide),
    by decide,
    (C14_alignment_path sampleTarget sampleTarget 3 8 [1, 2, 3] [] (sampleBytes 45) 45 11
      (by decide) (by decide) (by decide)).2.2.2.2.2.2.2.2.2.2.2 (by decide)⟩

/-- C16: zero bytes are invisible to the short-input path and the finalizer is
symmetric in its lanes: for `m, n <= 32` the digest of `n` zero bytes under seed
`m` equals the digest of `m` zero bytes under seed `n`, both being
`mux64(rotr(m+n,17), p4) + mix(m xor n, p0)`; in particular `n` zero bytes under
seed 0 hash like the empty input under seed `n`. -/
theorem C16_zero_bytes_symmetric (T : Target) (addr : Nat) (align : List Byte) (m n : Nat)
    (hm : m ≤ 32) (hn : n ≤ 32) :
    t1ha T addr align (zeroBytes n) n m = t1ha T addr align (zeroBytes m) m n
      ∧ t1ha T addr align (zeroBytes n) n m
          = some (u64 (mux64 T (rot64 (m + n) 17) p4 + mix (m ^^^ n) p0))
      ∧ t1ha T addr align (zeroBytes n) n 0 = t1ha T addr align [] 0 n := by
  have h1 := t1ha_zeroBytes T addr align n m hn (by omega)
  have h2 := t1ha_zeroBytes T addr align m n hm (by omega)
  have h3 := t1ha_zeroBytes T addr align n 0 hn (by norm_num)
  have h4 := t1ha_zeroBytes T addr align 0 n (by norm_num) (by omega)
  refine ⟨?_, ?_, ?_⟩
  · rw [h1, h2, digestSpec_comm]
  · rw [h1, mux64_eq T _ _ (rot64_lt _ _ (by omega)) p4_lt]
    unfold digestSpec
    rw [u64_of_lt (show m + n < 2 ^ 64 from by omega)]
  · rw [h3]
    have e : zeroBytes 0 = [] := rfl
    rw [e] at h4
    rw [h4, digestSpec_comm]

theorem C16_witness :
    3 ≤ 32 ∧ 20 ≤ 32 ∧
    (t1ha sampleTarget 3 [] (zeroBytes 20) 20 3 = t1ha sampleTarget 3 [] (zeroBytes 3) 3 20
      ∧ t1ha sampleTarget 3 [] (zeroBytes 20) 20 3
          = some (u64 (mux64 sampleTarget (rot64 (3 + 20) 17) p4 + mix (3 ^^^ 20) p0))
      ∧ t1ha sampleTarget 3 [] (zeroBytes 20) 20 0 = t1ha sampleTarget 3 [] [] 0 20) :=
  ⟨by decide, by decide,
    C16_zero_bytes_symmetric sampleTarget 3 [] 3 20 (by decide) (by decide)⟩

/-- C17: for inputs of at most 32 bytes the seed enters lane `a` additively
only: if `(a0, b0)` are the lanes reaching the finalizer with seed 0, the lanes
with seed `s` are `((a0 + s) mod 2^64, b0)`, and the digest is
`mux64(rotr(a0 + s + b0, 17), p4) + mix((a0 + s) xor b0, p0)`. -/
theorem C17_seed_additive (T : Target) (addr : Nat) (align mem : List Byte) (n s : Nat)
    (hn : n ≤ 32) (hmem : n ≤ mem.length) (hs : s < 2 ^ 64) :
    ∃ a0 b0 fired,
      runStage T ((addr &&& 7 != 0) && !T.unalignedOk) mem align 0 n 0 n
          = some { a := a0, b := b0, fired := fired }
        ∧ runStage T ((addr &&& 7 != 0) && !T.unalignedOk) mem align 0 n s n
          = some { a := u64 (a0 + s), b := b0, fired := fired }
        ∧ t1ha T addr align mem n 0 = some (tailCase0 T a0 b0)
        ∧ t1ha T addr align mem n s = some (tailCase0 T (u64 (a0 + s)) b0)
        ∧ t1ha T addr align mem n s
          = some (u64 (mux64 T (rot64 (u64 (a0 + s + b0)) 17) p4
              + mix (u64 (a0 + s) ^^^ b0) p0)) := by
  have hr0 := runStage_eq T ((addr &&& 7 != 0) && !T.unalignedOk) mem align 0 n 0 n hn
    (by omega)
  have hr1 := runStage_eq T ((addr &&& 7 != 0) && !T.unalignedOk) mem align 0 n s n hn
    (by omega)
  obtain ⟨ea, eb⟩ := guardedStages_seed (slice mem 0 n) n s n hs
  rw [ea, eb] at hr1
  have ht0 : t1ha T addr align mem n 0
      = some (tailCase0 T (guardedStages (slice mem 0 n) n 0 n).a
          (guardedStages (slice mem 0 n) n 0 n).b) := by
    rw [t1ha_short_run T addr align mem n 0 hn, hr0]
    rfl
  have ht1 : t1ha T addr align mem n s
      = some (tailCase0 T (u64 ((guardedStages (slice mem 0 n) n 0 n).a + s))
          (guardedStages (slice mem 0 n) n 0 n).b) := by
    rw [t1ha_short_run T addr align mem n s hn, hr1]
    rfl
  refine ⟨_, _, _, hr0, hr1, ht0, ht1, ?_⟩
  rw [ht1]
  unfold tailCase0 s1
  have e : ∀ x y : Nat, u64 (u64 (x + s) + y) = u64 (x + s + y) := by
    intro x y
    unfold u64
    omega
  rw [e]

theorem C17_witness :
    20 ≤ 32 ∧ 20 ≤ (sampleBytes 20).length ∧ 11 < 2 ^ 64 ∧
    ∃ a0 b0 fired,
      runStage sampleTarget ((3 &&& 7 != 0) && !sampleTarget.unalignedOk) (sampleBytes 20) [] 0
          20 0 20 = some { a := a0, b := b0, fired := fired }
        ∧ runStage sampleTarget ((3 &&& 7 != 0) && !sampleTarget.unalignedOk) (sampleBytes 20) []
          0 20 11 20 = some { a := u64 (a0 + 11), b := b0, fired := fired }
        ∧ t1ha sampleTarget 3 [] (sampleBytes 20) 20 0 = some (tailCase0 sampleTarget a0 b0)
        ∧ t1ha sampleTarget 3 [] (sampleBytes 20) 20 11
          = some (tailCase0 sampleTarget (u64 (a0 + 11)) b0)
        ∧ t1ha sampleTarget 3 [] (sampleBytes 20) 20 11
          = some (u64 (mux64 sampleTarget (rot64 (u64 (a0 + 11 + b0)) 17) p4
              + mix (u64 (a0 + 11) ^^^ b0) p0)) :=
  ⟨by decide, by decide, by decide,
    C17_seed_additive sampleTarget 3 [] (sampleBytes 20) 20 11 (by decide) (by decide)
      (by decide)⟩

/-- C18: `mux64` is commutative, `mux64(0, p) = 0` and `mux64(v, 1) = v`, for all
64-bit `v`, `p`, on the portable four-partial-product path (either order of the
carries) as well as on the 128-bit path. -/
theorem C18_mux64_algebra (T : Target) (swap : Bool) (v p : Nat) (hv : v < 2 ^ 64)
    (hp : p < 2 ^ 64) :
    (mux64 T v p = mux64 T p v ∧ mux64 T 0 p = 0 ∧ mux64 T v 1 = v)
      ∧ (mux64Portable swap v p = mux64Portable swap p v ∧ mux64Portable swap 0 p = 0
          ∧ mux64Portable swap v 1 = v)
      ∧ (mux64Wide v p = mux64Wide p v ∧ mux64Wide 0 p = 0 ∧ mux64Wide v 1 = v) := by
  have h0 : (0 : Nat) < 2 ^ 64 := by norm_num
  have h1 : (1 : Nat) < 2 ^ 64 := by norm_num
  refine ⟨⟨?_, ?_, ?_⟩, ⟨?_, ?_, ?_⟩, ⟨?_, ?_, ?_⟩⟩
  · rw [mux64_eq T v p hv hp, mux64_eq T p v hp hv, muxSpec_comm]
  · rw [mux64_eq T 0 p h0 hp, muxSpec_zero]
  · rw [mux64_eq T v 1 hv h1, muxSpec_one v hv]
  · rw [mux64Portable_eq swap v p hv hp, mux64Portable_eq swap p v hp hv, muxSpec_comm]
  · rw [mux64Portable_eq swap 0 p h0 hp, muxSpec_zero]
  · rw [mux64Portable_eq swap v 1 hv h1, muxSpec_one v hv]
  · rw [mux64Wide_eq v p hv hp, mux64Wide_eq p v hp hv, muxSpec_comm]
  · rw [mux64Wide_eq 0 p h0 hp, muxSpec_zero]
  · rw [mux64Wide_eq v 1 hv h1, muxSpec_one v hv]

theorem C18_witness :
    p3 < 2 ^ 64 ∧ p5 < 2 ^ 64 ∧
    ((mux64 sampleTarget p3 p5 = mux64 sampleTarget p5 p3 ∧ mux64 sampleTarget 0 p5 = 0
        ∧ mux64 sampleTarget p3 1 = p3)
      ∧ (mux64Portable false p3 p5 = mux64Portable false p5 p3 ∧ mux64Portable false 0 p5 = 0
          ∧ mux64Portable false p3 1 = p3)
      ∧ (mux64Wide p3 p5 = mux64Wide p5 p3 ∧ mux64Wide 0 p5 = 0 ∧ mux64Wide p3 1 = p3)) :=
  ⟨by decide, by decide, C18_mux64_algebra sampleTarget false p3 p5 (by decide) (by decide)⟩

/-- C19: each of the constants `p0..p6` is odd and below `2^64`, the rotation
amounts are `s0 = 41`, `s1 = 17`, `s2 = 31`, and multiplication by each constant
modulo `2^64` is a bijection of the 64-bit words. -/
theorem C19_constants (p : Nat) (hp : p ∈ [p0, p1, p2, p3, p4, p5, p6]) :
    p % 2 = 1 ∧ p < 2 ^ 64 ∧ (s0 = 41 ∧ s1 = 17 ∧ s2 = 31)
      ∧ (∀ v w, v < 2 ^ 64 → w < 2 ^ 64 → u64 (v * p) = u64 (w * p) → v = w)
      ∧ (∀ w, w < 2 ^ 64 → ∃ v, v < 2 ^ 64 ∧ u64 (v * p) = w) := by
  obtain ⟨hodd, hlt⟩ := constant_odd p hp
  refine ⟨hodd, hlt, ⟨rfl, rfl, rfl⟩,
    fun v w hv hw h => mul_odd_injective p v w hodd hv hw h, ?_⟩
  intro w hw
  obtain ⟨v, hv, h⟩ := mul_odd_surjective p w hodd
  exact ⟨v, hv, by rw [h, u64_of_lt hw]⟩

theorem C19_witness :
    p4 ∈ [p0, p1, p2, p3, p4, p5, p6] ∧
    (p4 % 2 = 1 ∧ p4 < 2 ^ 64 ∧ (s0 = 41 ∧ s1 = 17 ∧ s2 = 31)
      ∧ (∀ v w, v < 2 ^ 64 → w < 2 ^ 64 → u64 (v * p4) = u64 (w * p4) → v = w)
      ∧ (∀ w, w < 2 ^ 64 → ∃ v, v < 2 ^ 64 ∧ u64 (v * p4) = w)) :=
  ⟨by decide, C19_constants p4 (by decide)⟩

end T1ha
